import Mathlib

/-!
Verification of the sxo JSX transformer core (Rust sources under src/rs/).

The development shallowly embeds the active modules:
  * `src/rs/jsx_parser/parser.rs` (recursive-descent parser, streaming recovery)
  * `src/rs/jsx_parser/types.rs` and `visitor.rs` (AST, visitor traversal)
  * `src/rs/jsx_transformer/tags_attrs.rs` (tag classification, attribute rendering)
  * `src/rs/jsx_transformer/transform.rs` / `src/rs/jsx_precompile.rs` (template transformer)
  * `src/rs/jsx_transformer/mod.rs` / `src/rs/jsx_precompile.rs` (driver, diagnostics)
  * `src/rs/jsx_transformer/jsx_scanner.rs` (context-aware scanner)

Text is modelled as `List Char` (Rust iterates Unicode scalar values); positions are
byte offsets computed with the UTF-8 length of each scalar, exactly as the Rust code
tracks `pos` via `char::len_utf8`.  Recursions that the Rust code drives by cursor
progress are given explicit fuel; sufficiency of the standard fuel is proved where a
claim depends on termination.  Rust `char` classification functions backed by full
Unicode tables (`is_alphanumeric`, `is_uppercase`, `to_lowercase`) are reproduced
exactly on ASCII and Latin-1 and abridged above that range (treated as not
alphabetic / identity case mapping); no claim settled here depends on identifier or
tag characters beyond Latin-1.  `char::is_whitespace` is reproduced exactly (the
full Unicode White_Space list).
-/

set_option maxRecDepth 100000

/-! ## Basic character and byte utilities -/

/-- UTF-8 byte length of a Unicode scalar value, as `char::len_utf8` in Rust. -/
def utf8Len (c : Char) : Nat :=
  if c.toNat < 0x80 then 1
  else if c.toNat < 0x800 then 2
  else if c.toNat < 0x10000 then 3
  else 4

theorem utf8Len_pos (c : Char) : 1 ≤ utf8Len c := by
  unfold utf8Len
  repeat' split
  all_goals omega

/-- Total UTF-8 byte length of a character list, as `str::len` in Rust. -/
def byteLen : List Char → Nat
  | [] => 0
  | c :: r => utf8Len c + byteLen r

/-- Exact Unicode White_Space test, as Rust `char::is_whitespace`. -/
def rust_is_whitespace (c : Char) : Bool :=
  c.toNat = 0x09 || c.toNat = 0x0A || c.toNat = 0x0B || c.toNat = 0x0C ||
  c.toNat = 0x0D || c.toNat = 0x20 || c.toNat = 0x85 || c.toNat = 0xA0 ||
  c.toNat = 0x1680 || (0x2000 ≤ c.toNat && c.toNat ≤ 0x200A) ||
  c.toNat = 0x2028 || c.toNat = 0x2029 || c.toNat = 0x202F ||
  c.toNat = 0x205F || c.toNat = 0x3000

/-- Rust `char::is_alphanumeric` (Unicode Alphabetic or Number), reproduced exactly on
ASCII and Latin-1; scalar values above 0xFF are treated as not alphanumeric (abridged
Unicode table; the settled claims do not depend on this range). -/
def rust_is_alphanumeric (c : Char) : Bool :=
  c.isAlphanum ||
  c.toNat = 0xAA || c.toNat = 0xB2 || c.toNat = 0xB3 || c.toNat = 0xB5 ||
  c.toNat = 0xB9 || c.toNat = 0xBA || c.toNat = 0xBC || c.toNat = 0xBD ||
  c.toNat = 0xBE || (0xC0 ≤ c.toNat && c.toNat ≤ 0xD6) ||
  (0xD8 ≤ c.toNat && c.toNat ≤ 0xF6) || (0xF8 ≤ c.toNat && c.toNat ≤ 0xFF)

/-- Rust `char::is_uppercase` (Unicode Uppercase), reproduced exactly on ASCII and
Latin-1; scalar values above 0xFF are treated as not uppercase (abridged table). -/
def rust_is_uppercase (c : Char) : Bool :=
  c.isUpper || (0xC0 ≤ c.toNat && c.toNat ≤ 0xD6) || (0xD8 ≤ c.toNat && c.toNat ≤ 0xDE)

/-- Per-character lowercase map used by Rust `str::to_lowercase`, reproduced on ASCII
and Latin-1 (where every lowering is a single scalar); identity above 0xFF. -/
def rust_char_lower (c : Char) : Char :=
  if c.isUpper then Char.ofNat (c.toNat + 32)
  else if (0xC0 ≤ c.toNat && c.toNat ≤ 0xD6) || (0xD8 ≤ c.toNat && c.toNat ≤ 0xDE) then
    Char.ofNat (c.toNat + 32)
  else c

/-- Rust `u8::to_ascii_lowercase` / `char` ASCII lowering. -/
def to_ascii_lowercase (c : Char) : Char :=
  if c.isUpper then Char.ofNat (c.toNat + 32) else c

/-- First byte offset of character `t`, as Rust `str::find(char)`. -/
def byteFindChar (t : Char) : List Char → Option Nat
  | [] => none
  | c :: r =>
    if c = t then some 0
    else (byteFindChar t r).map (fun k => utf8Len c + k)

/-- Drop a prefix of `n` bytes, as Rust slicing `&s[n..]` (only used at char
boundaries). -/
def byteDrop : Nat → List Char → List Char
  | 0, l => l
  | _ + 1, [] => []
  | n + 1, c :: r => byteDrop (n + 1 - utf8Len c) r

/-- Take a prefix of `n` bytes, as Rust slicing `&s[..n]` (only used at char
boundaries). -/
def byteTake : Nat → List Char → List Char
  | 0, _ => []
  | _ + 1, [] => []
  | n + 1, c :: r => c :: byteTake (n + 1 - utf8Len c) r

/-- Whether `pat` occurs as a contiguous subsequence, as Rust `str::contains`. -/
def containsSeq (pat : List Char) : List Char → Bool
  | [] => pat.isPrefixOf ([] : List Char)
  | c :: r => pat.isPrefixOf (c :: r) || containsSeq pat r

/-- Fuel-driven body of `replaceAll` (each step consumes at least one char, so
fuel `l.length` is exact; structural recursion keeps the kernel able to evaluate). -/
def replaceAllGo (pat sub : List Char) : Nat → List Char → List Char
  | 0, l => l
  | _ + 1, [] => []
  | fuel + 1, c :: r =>
    if pat ≠ [] ∧ pat.isPrefixOf (c :: r) then
      sub ++ replaceAllGo pat sub fuel ((c :: r).drop pat.length)
    else c :: replaceAllGo pat sub fuel r

/-- Rust `str::replace`: replace all non-overlapping occurrences left to right. -/
def replaceAll (pat sub l : List Char) : List Char := replaceAllGo pat sub l.length l

/-- Fuel-driven body of `countSeq`. -/
def countSeqGo (pat : List Char) : Nat → List Char → Nat
  | 0, _ => 0
  | _ + 1, [] => 0
  | fuel + 1, c :: r =>
    if pat ≠ [] ∧ pat.isPrefixOf (c :: r) then
      1 + countSeqGo pat fuel ((c :: r).drop pat.length)
    else countSeqGo pat fuel r

/-- Count of non-overlapping occurrences, as `str::match_indices(pat).count()`. -/
def countSeq (pat l : List Char) : Nat := countSeqGo pat l.length l

/-- Join pieces with a separator, as Rust `Vec::join`. -/
def joinSep (sep : List Char) : List (List Char) → List Char
  | [] => []
  | [x] => x
  | x :: y :: r => x ++ sep ++ joinSep sep (y :: r)

/-- Rust `str::trim` (Unicode whitespace stripped from both ends). -/
def trimChars (l : List Char) : List Char :=
  ((l.dropWhile rust_is_whitespace).reverse.dropWhile rust_is_whitespace).reverse

/-- Decimal digits of a natural number, as Rust's `Display` for line numbers. -/
def natChars (n : Nat) : List Char := (Nat.repr n).data

/-! ## Token characters (constants from `jsx_parser/parser.rs`) -/

def LEFT_ANGLE : Char := '<'
def RIGHT_ANGLE : Char := '>'
def FORWARD_SLASH : Char := '/'
def LEFT_BRACE : Char := '\x7b'
def RIGHT_BRACE : Char := '\x7d'
def EQUALS : Char := '='
def DOUBLE_QUOTE : Char := '"'
def SINGLE_QUOTE : Char := Char.ofNat 39
def UNDERSCORE : Char := '_'
def DOLLAR_SIGN : Char := '$'
def HYPHEN : Char := '-'
def DOT : Char := '.'

def backtick : Char := Char.ofNat 96

/-! ## Error messages (constants from `jsx_parser/parser.rs`) -/

def ERR_EXPECT_CLOSE_ANGLE : List Char := "Expected >".data
def ERR_EXPECT_CLOSE_SLASH : List Char := "Expected > after /".data
def ERR_FRAGMENT_CLOSE : List Char := "Expected > for fragment closing tag".data
def ERR_MISMATCHED_TAG : List Char :=
  "Mismatched closing tag: expected \x7b\x7d, found \x7b\x7d".data
def ERR_UNCLOSED_TAG : List Char := "Unclosed tag: \x7b\x7d".data
def ERR_EXPECT_IDENTIFIER : List Char := "Expected identifier".data
def ERR_UNTERMINATED_STRING : List Char := "Unterminated string literal".data
def ERR_EXPECT_STRING_OR_EXPR : List Char := "Expected string or expression".data
def ERR_UNCLOSED_EXPRESSION : List Char := "Unclosed expression".data

/-- Marker message returned only when the explicit fuel of the embedding runs out;
this never happens for the standard fuel (proved below) and corresponds to no
behaviour of the Rust code. -/
def FUEL_ERR : List Char := "FUEL".data

/-! ## AST (`jsx_parser/types.rs`) -/

inductive JSXAttributeValue where
  | DoubleQuote : List Char → JSXAttributeValue
  | SingleQuote : List Char → JSXAttributeValue
  | Expression : List Char → JSXAttributeValue
deriving DecidableEq, Repr

structure JSXAttribute where
  name : List Char
  value : Option JSXAttributeValue
deriving DecidableEq, Repr

inductive JSXNode where
  | Element : List Char → List JSXAttribute → List JSXNode → JSXNode
  | Fragment : List JSXNode → JSXNode
  | Text : List Char → JSXNode
  | Expression : List Char → JSXNode

structure ParseError where
  position : Nat
  message : List Char
deriving DecidableEq, Repr

structure ParseResult where
  nodes : List JSXNode
  errors : List ParseError

/-! ## Parser state (`Parser { chars, pos }`) -/

structure PState where
  chars : List Char
  pos : Nat
deriving DecidableEq, Repr

/-- `Parser::peek`. -/
def peekC (st : PState) : Option Char := st.chars.head?

/-- `Parser::peek_n` (element `n` positions after the cursor). -/
def peekN (st : PState) (n : Nat) : Option Char := st.chars.get? n

/-- `Parser::bump`: advance one char, tracking the position in bytes. -/
def bump (st : PState) : PState :=
  match st.chars with
  | [] => st
  | c :: r => ⟨r, st.pos + utf8Len c⟩

/-- Loop body of `Parser::skip_whitespace`, structural on the char list. -/
def skip_whitespace_aux : List Char → Nat → List Char × Nat
  | [], pos => ([], pos)
  | c :: r, pos =>
    if rust_is_whitespace c then skip_whitespace_aux r (pos + utf8Len c)
    else (c :: r, pos)

/-- `Parser::skip_whitespace`. -/
def skip_whitespace (st : PState) : PState :=
  ⟨(skip_whitespace_aux st.chars st.pos).1, (skip_whitespace_aux st.chars st.pos).2⟩

/-- `Parser::check_sequence` (lookahead without consuming). -/
def check_sequence (st : PState) (cs : List Char) : Bool :=
  cs.isPrefixOf st.chars

/-! ## Leaf parsing functions (`jsx_parser/parser.rs`) -/

/-- Continuation loop of `Parser::parse_identifier`: consume identifier characters
(`alnum | '_' | '$' | '-' | '.'`, with Rust's Unicode `is_alphanumeric`). -/
def ident_loop : List Char → Nat → List Char × (List Char × Nat)
  | [], pos => ([], ([], pos))
  | c :: r, pos =>
    if rust_is_alphanumeric c || c = UNDERSCORE || c = DOLLAR_SIGN || c = HYPHEN || c = DOT then
      let (tl, rest) := ident_loop r (pos + utf8Len c)
      (c :: tl, rest)
    else ([], (c :: r, pos))

/-- `Parser::parse_identifier`: first char must be ASCII alphabetic, `_` or `$`. -/
def parse_identifier (st : PState) : Except (List Char) (List Char) × PState :=
  match st.chars with
  | [] => (Except.error ERR_EXPECT_IDENTIFIER, st)
  | c :: r =>
    if c.isAlpha || c = UNDERSCORE || c = DOLLAR_SIGN then
      let (tl, rest) := ident_loop r (st.pos + utf8Len c)
      (Except.ok (c :: tl), ⟨rest.1, rest.2⟩)
    else (Except.error ERR_EXPECT_IDENTIFIER, st)

/-- Loop of `Parser::parse_expression_content`: consume until the brace-depth
balanced closing `}` (the closing brace is consumed but not part of the content). -/
def parse_expression_content_aux :
    Nat → List Char → Nat → Except (List Char) (List Char) × (List Char × Nat)
  | _, [], pos => (.error ERR_UNCLOSED_EXPRESSION, ([], pos))
  | braces, c :: r, pos =>
    let pos' := pos + utf8Len c
    if c = RIGHT_BRACE then
      if braces = 1 then (.ok [], (r, pos'))
      else
        match parse_expression_content_aux (braces - 1) r pos' with
        | (.ok content, rest) => (.ok (c :: content), rest)
        | e => e
    else
      let braces' := if c = LEFT_BRACE then braces + 1 else braces
      match parse_expression_content_aux braces' r pos' with
      | (.ok content, rest) => (.ok (c :: content), rest)
      | e => e

/-- `Parser::parse_expression_content` (entered with brace count 1). -/
def parse_expression_content (st : PState) : Except (List Char) (List Char) × PState :=
  match parse_expression_content_aux 1 st.chars st.pos with
  | (res, (l, p)) => (res, ⟨l, p⟩)

/-- `Parser::parse_expression`: consume `{`, then the balanced content. -/
def parse_expression (st : PState) : Except (List Char) JSXNode × PState :=
  match parse_expression_content (bump st) with
  | (.ok content, st2) => (.ok (JSXNode.Expression content), st2)
  | (.error m, st2) => (.error m, st2)

/-- Loop of `Parser::parse_text`: consume until `<` or `{`. -/
def text_loop : List Char → Nat → List Char × (List Char × Nat)
  | [], pos => ([], ([], pos))
  | c :: r, pos =>
    if c = LEFT_ANGLE || c = LEFT_BRACE then ([], (c :: r, pos))
    else
      let (tl, rest) := text_loop r (pos + utf8Len c)
      (c :: tl, rest)

/-- `Parser::parse_text` (infallible in the source; the `Result` wrapper is elided). -/
def parse_text (st : PState) : JSXNode × PState :=
  match text_loop st.chars st.pos with
  | (content, rest) => (JSXNode.Text content, ⟨rest.1, rest.2⟩)

/-- Quoted-value loop of `Parser::parse_attribute_value`: consume until the closing
quote (not consumed) or end of input. -/
def quoted_loop (quote : Char) : List Char → Nat → List Char × (List Char × Nat)
  | [], pos => ([], ([], pos))
  | c :: r, pos =>
    if c = quote then ([], (c :: r, pos))
    else
      let (tl, rest) := quoted_loop quote r (pos + utf8Len c)
      (c :: tl, rest)

/-- `Parser::parse_attribute_value`. -/
def parse_attribute_value (st : PState) : Except (List Char) JSXAttributeValue × PState :=
  match peekC st with
  | some c =>
    if c = DOUBLE_QUOTE then
      match quoted_loop c (bump st).chars (bump st).pos with
      | (v, rest) =>
        let st2 : PState := ⟨rest.1, rest.2⟩
        if peekC st2 = some c then (.ok (.DoubleQuote v), bump st2)
        else (.error ERR_UNTERMINATED_STRING, st2)
    else if c = SINGLE_QUOTE then
      match quoted_loop c (bump st).chars (bump st).pos with
      | (v, rest) =>
        let st2 : PState := ⟨rest.1, rest.2⟩
        if peekC st2 = some c then (.ok (.SingleQuote v), bump st2)
        else (.error ERR_UNTERMINATED_STRING, st2)
    else if c = LEFT_BRACE then
      match parse_expression_content (bump st) with
      | (.ok e, st2) => (.ok (.Expression e), st2)
      | (.error m, st2) => (.error m, st2)
    else (.error ERR_EXPECT_STRING_OR_EXPR, st)
  | none => (.error ERR_EXPECT_STRING_OR_EXPR, st)

/-- Script-children loop of `Parser::parse_children`: raw text capture until a
closing `</ script >` tag (whitespace tolerated as in the source), with
backtrack-and-resume on false `</` positives.  Returns the captured text and the
state after the closing tag (or end of input). -/
def script_loop : List Char → Nat → List Char × (List Char × Nat)
  | [], pos => ([], ([], pos))
  | c :: r, pos =>
    if c = LEFT_ANGLE ∧ r.head? = some FORWARD_SLASH then
      match parse_identifier (skip_whitespace (bump (bump ⟨c :: r, pos⟩))) with
      | (.ok tag, st2) =>
        if tag = "script".data then
          if peekC (skip_whitespace st2) = some RIGHT_ANGLE then
            ([], ((bump (skip_whitespace st2)).chars, (bump (skip_whitespace st2)).pos))
          else
            match script_loop r (pos + utf8Len c) with
            | (tl, rest) => (c :: tl, rest)
        else
          match script_loop r (pos + utf8Len c) with
          | (tl, rest) => (c :: tl, rest)
      | (.error _, _) =>
        match script_loop r (pos + utf8Len c) with
        | (tl, rest) => (c :: tl, rest)
    else
      match script_loop r (pos + utf8Len c) with
      | (tl, rest) => (c :: tl, rest)

/-- `Mismatched closing tag` message: the source replaces every `{}` of the template
with the parent tag first, then every remaining `{}` with the found tag. -/
def mismatched_msg (parent close : List Char) : List Char :=
  replaceAll ("\x7b\x7d".data) close (replaceAll ("\x7b\x7d".data) parent ERR_MISMATCHED_TAG)

/-- `Unclosed tag` message. -/
def unclosed_msg (parent : List Char) : List Char :=
  replaceAll ("\x7b\x7d".data) parent ERR_UNCLOSED_TAG

/-- `Parser::parse_attributes`.  The source loop is driven by cursor progress; the
embedding decrements an explicit fuel each iteration (the standard fuel
`chars.length + 1` is proved sufficient below). -/
def parse_attributes (fuel : Nat) (st : PState) :
    Except (List Char) (List JSXAttribute) × PState :=
  match fuel with
  | 0 => (.error FUEL_ERR, st)
  | fuel + 1 =>
    match peekC st with
    | none => (.ok [], st)
    | some c =>
      if c = RIGHT_ANGLE || c = FORWARD_SLASH then (.ok [], st)
      else
        let st1 := skip_whitespace st
        if check_sequence st1 [DOT, DOT, DOT] then
          let st2 := bump (bump (bump st1))
          match peekC st2 with
          | some c2 =>
            if c2.isAlpha || c2 = UNDERSCORE || c2 = DOLLAR_SIGN then
              match parse_identifier st2 with
              | (.ok ident, st3) =>
                match parse_attributes fuel (skip_whitespace st3) with
                | (.ok attrs, st5) =>
                  (.ok (⟨"...".data ++ ident, none⟩ :: attrs), st5)
                | e => e
              | (.error m, st3) => (.error m, st3)
            else
              match parse_expression_content st2 with
              | (.ok expr, st3) =>
                match parse_attributes fuel (skip_whitespace st3) with
                | (.ok attrs, st5) =>
                  (.ok (⟨"...".data ++ expr, none⟩ :: attrs), st5)
                | e => e
              | (.error m, st3) => (.error m, st3)
          | none =>
            match parse_expression_content st2 with
            | (.ok expr, st3) =>
              match parse_attributes fuel (skip_whitespace st3) with
              | (.ok attrs, st5) =>
                (.ok (⟨"...".data ++ expr, none⟩ :: attrs), st5)
              | e => e
            | (.error m, st3) => (.error m, st3)
        else
          match parse_identifier st1 with
          | (.ok name, st2) =>
            let st3 := skip_whitespace st2
            if peekC st3 = some EQUALS then
              match parse_attribute_value (skip_whitespace (bump st3)) with
              | (.ok v, st5) =>
                match parse_attributes fuel (skip_whitespace st5) with
                | (.ok attrs, st7) => (.ok (⟨name, some v⟩ :: attrs), st7)
                | e => e
              | (.error m, st5) => (.error m, st5)
            else
              match parse_attributes fuel (skip_whitespace st3) with
              | (.ok attrs, st7) => (.ok (⟨name, none⟩ :: attrs), st7)
              | e => e
          | (.error _, _) =>
            let st2 := bump st1
            let st3 := skip_whitespace st2
            if peekC st3 = some EQUALS then
              match parse_attribute_value (skip_whitespace (bump st3)) with
              | (.ok _, st5) => parse_attributes fuel (skip_whitespace st5)
              | (.error m, st5) => (.error m, st5)
            else
              parse_attributes fuel (skip_whitespace st3)

/-! ## The mutually recursive element / fragment / children parsers -/

mutual

/-- `Parser::parse_element`. -/
def parse_element (fuel : Nat) (st : PState) : Except (List Char) JSXNode × PState :=
  match fuel with
  | 0 => (.error FUEL_ERR, st)
  | fuel + 1 =>
    let st1 := skip_whitespace (bump st)
    match parse_identifier st1 with
    | (.error m, st2) => (.error m, st2)
    | (.ok tag, st2) =>
      match parse_attributes (fuel + 1) (skip_whitespace st2) with
      | (.error m, st4) => (.error m, st4)
      | (.ok attributes, st4) =>
        let st5 := skip_whitespace st4
        if peekC st5 = some FORWARD_SLASH then
          let st6 := bump st5
          if peekC st6 = some RIGHT_ANGLE then
            (.ok (JSXNode.Element tag attributes []), bump st6)
          else (.error ERR_EXPECT_CLOSE_SLASH, st6)
        else if peekC st5 ≠ some RIGHT_ANGLE then (.error ERR_EXPECT_CLOSE_ANGLE, st5)
        else
          match parse_children fuel tag (bump st5) with
          | (.ok children, st7) => (.ok (JSXNode.Element tag attributes children), st7)
          | (.error m, st7) => (.error m, st7)

/-- `Parser::parse_fragment`. -/
def parse_fragment (fuel : Nat) (st : PState) : Except (List Char) JSXNode × PState :=
  match fuel with
  | 0 => (.error FUEL_ERR, st)
  | fuel + 1 =>
    match parse_children fuel ("fragment".data) (bump (bump st)) with
    | (.ok children, st2) => (.ok (JSXNode.Fragment children), st2)
    | (.error m, st2) => (.error m, st2)

/-- `Parser::parse_children`. -/
def parse_children (fuel : Nat) (parent_tag : List Char) (st : PState) :
    Except (List Char) (List JSXNode) × PState :=
  match fuel with
  | 0 => (.error FUEL_ERR, st)
  | fuel + 1 =>
    if parent_tag = "script".data then
      match script_loop st.chars st.pos with
      | (content, rest) => (.ok [JSXNode.Text content], ⟨rest.1, rest.2⟩)
    else
      match peekC st with
      | none => (.error (unclosed_msg parent_tag), st)
      | some c =>
        if c = LEFT_ANGLE then
          let st0 := skip_whitespace st
          if peekN st0 1 = some FORWARD_SLASH then
            let st1 := skip_whitespace (bump (bump st0))
            if parent_tag = "fragment".data then
              if peekC st1 ≠ some RIGHT_ANGLE then (.error ERR_FRAGMENT_CLOSE, st1)
              else (.ok [], bump st1)
            else
              match parse_identifier st1 with
              | (.error m, st2) => (.error m, st2)
              | (.ok close_tag, st2) =>
                if close_tag ≠ parent_tag then
                  (.error (mismatched_msg parent_tag close_tag), st2)
                else
                  let st3 := skip_whitespace st2
                  if peekC st3 ≠ some RIGHT_ANGLE then (.error ERR_EXPECT_CLOSE_ANGLE, st3)
                  else (.ok [], bump st3)
          else if peekN st0 1 = some RIGHT_ANGLE then
            match parse_fragment fuel st0 with
            | (.error m, st1) => (.error m, st1)
            | (.ok node, st1) =>
              match parse_children fuel parent_tag st1 with
              | (.ok rest, st2) => (.ok (node :: rest), st2)
              | e => e
          else
            match parse_element fuel st0 with
            | (.error m, st1) => (.error m, st1)
            | (.ok node, st1) =>
              match parse_children fuel parent_tag st1 with
              | (.ok rest, st2) => (.ok (node :: rest), st2)
              | e => e
        else if c = LEFT_BRACE then
          match parse_expression st with
          | (.error m, st1) => (.error m, st1)
          | (.ok node, st1) =>
            match parse_children fuel parent_tag st1 with
            | (.ok rest, st2) => (.ok (node :: rest), st2)
            | e => e
        else
          match parse_text st with
          | (node, st1) =>
            match parse_children fuel parent_tag st1 with
            | (.ok rest, st2) => (.ok (node :: rest), st2)
            | e => e

end

/-- `Parser::is_valid_jsx_start_peek`. -/
def is_valid_jsx_start_peek (st : PState) : Bool :=
  match peekN st 1 with
  | some ch => ch.isAlpha || ch = UNDERSCORE || ch = DOLLAR_SIGN
  | none => false

/-- `Parser::parse_next_with_span`: skip non-JSX content, then parse one fragment or
element, reporting the byte span on success.  Structural on the char list (the
source loop advances `bump` once per non-`<` char). -/
def parse_next_with_span (fuel : Nat) :
    List Char → Nat → Option (Except ParseError (JSXNode × Nat × Nat)) × PState
  | [], p => (none, ⟨[], p⟩)
  | c :: r, p =>
    if c = LEFT_ANGLE then
      if peekN ⟨c :: r, p⟩ 1 = some RIGHT_ANGLE then
        match parse_fragment fuel ⟨c :: r, p⟩ with
        | (.ok node, st') => (some (.ok (node, p, st'.pos)), st')
        | (.error m, st') => (some (.error ⟨p, m⟩), st')
      else if is_valid_jsx_start_peek ⟨c :: r, p⟩ then
        match parse_element fuel ⟨c :: r, p⟩ with
        | (.ok node, st') => (some (.ok (node, p, st'.pos)), st')
        | (.error m, st') => (some (.error ⟨p, m⟩), st')
      else (some (.error ⟨p, ERR_EXPECT_IDENTIFIER⟩), ⟨c :: r, p⟩)
    else parse_next_with_span fuel r (p + utf8Len c)

/-- Loop of `Parser::parse`: streaming collection with one-char error recovery.  The
per-call fuel `2 * chars.length + 1` for the recursive-descent core is sufficient
(proved below); the loop fuel is decremented once per iteration. -/
def parse_loop (fuel : Nat) (st : PState) (nodes : List JSXNode) (errors : List ParseError) :
    ParseResult :=
  match fuel with
  | 0 => ⟨nodes, errors ++ [⟨st.pos, FUEL_ERR⟩]⟩
  | fuel + 1 =>
    match parse_next_with_span (2 * st.chars.length + 1) st.chars st.pos with
    | (none, _) => ⟨nodes, errors⟩
    | (some (.ok (node, _, _)), st') => parse_loop fuel st' (nodes ++ [node]) errors
    | (some (.error e), st') => parse_loop fuel (bump st') nodes (errors ++ [e])

/-- `Parser::new(input).parse()`. -/
def parse (input : List Char) : ParseResult :=
  parse_loop (input.length + 1) ⟨input, 0⟩ [] []

/-! ## Tag classification and attribute rendering (`jsx_transformer/tags_attrs.rs`,
duplicated verbatim in `jsx_precompile.rs`) -/

inductive TagType where
  | Component
  | WebComponent
  | Void
  | Element
deriving DecidableEq, Repr

def VOID_TAGS : List (List Char) :=
  ["area".data, "base".data, "br".data, "circle".data, "col".data, "ellipse".data,
   "embed".data, "hr".data, "image".data, "img".data, "input".data, "line".data,
   "link".data, "meta".data, "param".data, "path".data, "polygon".data,
   "polyline".data, "rect".data, "source".data, "track".data, "use".data, "wbr".data]

/-- `classify_tag`.  The source's binary search over the sorted `VOID_TAGS` array is
rendered as list membership (equivalent for a sorted array). -/
def classify_tag (tag : List Char) : TagType :=
  if (tag.head?.map
        (fun c => rust_is_uppercase c || c = UNDERSCORE || c = DOLLAR_SIGN)).getD false then
    TagType.Component
  else if tag.contains HYPHEN then TagType.WebComponent
  else if VOID_TAGS.contains (tag.map to_ascii_lowercase) then TagType.Void
  else TagType.Element

def ATTRS_KEBAB : List (List Char) :=
  ["accentHeight".data, "acceptCharset".data, "alignmentBaseline".data,
   "arabicForm".data, "baselineShift".data, "capHeight".data, "clipPath".data,
   "clipRule".data, "colorInterpolation".data, "colorInterpolationFilters".data,
   "colorProfile".data, "colorRendering".data, "contentScriptType".data,
   "contentStyleType".data, "dominantBaseline".data, "enableBackground".data,
   "fillOpacity".data, "fillRule".data, "floodColor".data, "floodOpacity".data,
   "fontFamily".data, "fontSize".data, "fontSizeAdjust".data, "fontStretch".data,
   "fontStyle".data, "fontVariant".data, "fontWeight".data, "glyphName".data,
   "glyphOrientationHorizontal".data, "glyphOrientationVertical".data,
   "horizAdvX".data, "horizOriginX".data, "horizOriginY".data, "httpEquiv".data,
   "imageRendering".data, "letterSpacing".data, "lightingColor".data,
   "markerEnd".data, "markerMid".data, "markerStart".data, "overlinePosition".data,
   "overlineThickness".data, "paintOrder".data, "pointerEvents".data,
   "renderingIntent".data, "shapeRendering".data, "stopColor".data,
   "stopOpacity".data, "strikethroughPosition".data, "strikethroughThickness".data,
   "strokeDasharray".data, "strokeDashoffset".data, "strokeLinecap".data,
   "strokeLinejoin".data, "strokeMiterlimit".data, "strokeOpacity".data,
   "strokeWidth".data, "textAnchor".data, "textDecoration".data,
   "textRendering".data, "transformOrigin".data, "underlinePosition".data,
   "underlineThickness".data, "unicodeBidi".data, "unicodeRange".data,
   "unitsPerEm".data, "vAlphabetic".data, "vectorEffect".data, "vertAdvY".data,
   "vertOriginX".data, "vertOriginY".data, "vHanging".data, "vMathematical".data,
   "wordSpacing".data, "writingMode".data, "xHeight".data]

def ATTRS_KEEP : List (List Char) :=
  ["allowReorder".data, "attributeName".data, "attributeType".data,
   "baseFrequency".data, "baseProfile".data, "calcMode".data, "clipPathUnits".data,
   "diffuseConstant".data, "edgeMode".data, "filterUnits".data, "glyphRef".data,
   "gradientTransform".data, "gradientUnits".data, "kernelMatrix".data,
   "kernelUnitLength".data, "keyPoints".data, "keySplines".data, "keyTimes".data,
   "lengthAdjust".data, "limitingConeAngle".data, "markerHeight".data,
   "markerUnits".data, "markerWidth".data, "maskContentUnits".data,
   "maskUnits".data, "numOctaves".data, "pathLength".data,
   "patternContentUnits".data, "patternTransform".data, "patternUnits".data,
   "pointsAtX".data, "pointsAtY".data, "pointsAtZ".data, "preserveAlpha".data,
   "preserveAspectRatio".data, "primitiveUnits".data, "referrerPolicy".data,
   "refX".data, "refY".data, "repeatCount".data, "repeatDur".data,
   "requiredExtensions".data, "requiredFeatures".data, "specularConstant".data,
   "specularExponent".data, "spreadMethod".data, "startOffset".data,
   "stdDeviation".data, "stitchTiles".data, "surfaceScale".data,
   "systemLanguage".data, "tableValues".data, "targetX".data, "targetY".data,
   "textLength".data, "viewBox".data, "xChannelSelector".data,
   "yChannelSelector".data, "zoomAndPan".data]

/-- Kebab-case conversion arm of `normalize_html_attr_name` (each ASCII uppercase
becomes `-` followed by its lowercase). -/
def kebab_attr (name : List Char) : List Char :=
  name.flatMap (fun ch => if ch.isUpper then [HYPHEN, Char.ofNat (ch.toNat + 32)] else [ch])

/-- `normalize_html_attr_name`: fixed lookup table, then lowercase fallback. -/
def normalize_html_attr_name (name : List Char) : List Char :=
  if name = "htmlFor".data then "for".data
  else if name = "className".data then "class".data
  else if name = "dangerouslySetInnerHTML".data then name
  else if name = "panose1".data then "panose-1".data
  else if name = "xlinkActuate".data then "xlink:actuate".data
  else if name = "xlinkArcrole".data then "xlink:arcrole".data
  else if name = "xlinkHref".data then "href".data
  else if name = "xlink:href".data then "href".data
  else if name = "xlinkRole".data then "xlink:role".data
  else if name = "xlinkShow".data then "xlink:show".data
  else if name = "xlinkTitle".data then "xlink:title".data
  else if name = "xlinkType".data then "xlink:type".data
  else if name = "xmlBase".data then "xml:base".data
  else if name = "xmlLang".data then "xml:lang".data
  else if name = "xmlSpace".data then "xml:space".data
  else if ATTRS_KEBAB.contains name then kebab_attr name
  else if ATTRS_KEEP.contains name then name
  else name.map rust_char_lower

/-- `transform_attribute`. -/
def transform_attribute (attr : JSXAttribute) (target : TagType) : List Char :=
  match target with
  | TagType.Component =>
    match attr.value with
    | some (.Expression e) =>
      "\x7b\"".data ++ attr.name ++ "\":".data ++ e ++ "\x7d".data
    | some (.DoubleQuote v) =>
      "\x7b\"".data ++ attr.name ++ "\":\"".data ++ v ++ "\"\x7d".data
    | some (.SingleQuote v) =>
      "\x7b\"".data ++ attr.name ++ "\":\x27".data ++ v ++ "\x27\x7d".data
    | none =>
      if ("...".data).isPrefixOf attr.name then "\x7b".data ++ attr.name ++ "\x7d".data
      else "\x7b\"".data ++ attr.name ++ "\":true\x7d".data
  | _ =>
    match attr.value with
    | none =>
      if ("...".data).isPrefixOf attr.name then
        "$\x7b__jsxSpread(".data ++ replaceAll ("...".data) [] attr.name ++ ")\x7d".data
      else attr.name
    | some v =>
      let name := normalize_html_attr_name attr.name
      match v with
      | .Expression e => name ++ "=\"$\x7b".data ++ e ++ "\x7d\"".data
      | .DoubleQuote s => name ++ "=\"".data ++ s ++ "\"".data
      | .SingleQuote s => name ++ "=\x27".data ++ s ++ "\x27".data

/-- `transform_component_attributes` (infallible; the `Result` wrapper is elided). -/
def transform_component_attributes (attributes : List JSXAttribute) : List Char :=
  "[".data ++ joinSep (",".data) (attributes.map (transform_attribute · TagType.Component))
    ++ "]".data

/-- `transform_element_attributes` (infallible; the `Result` wrapper is elided). -/
def transform_element_attributes (attributes : List JSXAttribute) : List (List Char) :=
  attributes.map (transform_attribute · TagType.Element)

/-! ## The list-wrapper heuristic (`needs_list_wrapper`) -/

def LIST_METHODS : List (List Char) :=
  ["map".data, "flatMap".data, "filter".data, "slice".data, "concat".data,
   "flat".data, "toReversed".data, "toSorted".data, "toSpliced".data, "with".data,
   "reverse".data, "sort".data, "splice".data, "fill".data, "copyWithin".data,
   "reduce".data, "reduceRight".data, "forEach".data]

def nlw_ident_start (c : Char) : Bool := c.isAlpha || c = UNDERSCORE || c = DOLLAR_SIGN

def nlw_ident_part (c : Char) : Bool := c.isAlphanum || c = UNDERSCORE || c = DOLLAR_SIGN

/-- Identifier chunk read after `.` / `?.` in `needs_list_wrapper`: first char
`[A-Za-z_$]`, then `[A-Za-z0-9_$]*`; returns the name and the rest. -/
def read_call_ident (l : List Char) : List Char × List Char :=
  match l with
  | [] => ([], [])
  | c :: r =>
    if nlw_ident_start c then (c :: r.takeWhile nlw_ident_part, r.dropWhile nlw_ident_part)
    else ([], c :: r)

/-- Lookahead of `needs_list_wrapper` for a call indicator: optional whitespace, then
`(` or `?.(` (peeked on a clone, nothing consumed). -/
def is_call_ahead (l : List Char) : Bool :=
  match l.dropWhile rust_is_whitespace with
  | [] => false
  | c :: r =>
    if c = '(' then true
    else if c = '?' then
      match r with
      | d :: r2 =>
        if d = DOT then
          match r2 with
          | e :: _ => e = '('
          | [] => false
        else false
      | [] => false
    else false

theorem dropWhile_length_le (p : Char → Bool) (l : List Char) :
    (l.dropWhile p).length ≤ l.length := by
  induction l with
  | nil => simp
  | cons c r ih =>
    by_cases h : p c
    · simp only [List.dropWhile, h]
      simp only [List.length_cons]
      omega
    · simp [List.dropWhile, h]

theorem read_call_ident_length (l : List Char) :
    (read_call_ident l).2.length ≤ l.length := by
  rcases l with _ | ⟨c, r⟩
  · simp [read_call_ident]
  · by_cases hs : nlw_ident_start c = true
    · simp only [read_call_ident, hs, if_pos]
      have := dropWhile_length_le nlw_ident_part r
      simp only [List.length_cons]
      omega
    · simp [read_call_ident, hs]

theorem read_call_ident_length_lt (l : List Char) :
    (read_call_ident l).2.length < l.length + 1 :=
  Nat.lt_of_le_of_lt (read_call_ident_length l) (Nat.lt_succ_self _)

theorem read_call_ident_tail_length_lt (l : List Char) :
    (read_call_ident l.tail).2.length < l.length + 1 := by
  have h1 := read_call_ident_length l.tail
  have h2 : l.tail.length ≤ l.length := by cases l <;> simp
  omega

/-- Main loop of `needs_list_wrapper`, carrying the single-quote / double-quote /
template-literal / escape state exactly as the source.  Fuel-driven (each step
consumes at least one char, so fuel `l.length` is exact). -/
def nlw_loop : Nat → Bool → Bool → Bool → Bool → List Char → Bool
  | 0, _, _, _, _, _ => false
  | _ + 1, _, _, _, _, [] => false
  | fuel + 1, sq, dq, tm, esc, ch :: rest =>
    if esc then nlw_loop fuel sq dq tm false rest
    else if ch = '\\' then nlw_loop fuel sq dq tm true rest
    else if ch = SINGLE_QUOTE ∧ ¬dq ∧ ¬tm then nlw_loop fuel (!sq) dq tm false rest
    else if ch = DOUBLE_QUOTE ∧ ¬sq ∧ ¬tm then nlw_loop fuel sq (!dq) tm false rest
    else if ch = backtick ∧ ¬sq ∧ ¬dq then nlw_loop fuel sq dq (!tm) false rest
    else if sq ∨ dq ∨ tm then nlw_loop fuel sq dq tm false rest
    else if ch = DOT then
      if is_call_ahead (read_call_ident rest).2 ∧
          LIST_METHODS.contains (read_call_ident rest).1 then true
      else nlw_loop fuel sq dq tm false (read_call_ident rest).2
    else if ch = '?' then
      if rest.head? = some DOT then
        if is_call_ahead (read_call_ident rest.tail).2 ∧
            LIST_METHODS.contains (read_call_ident rest.tail).1 then true
        else nlw_loop fuel sq dq tm false (read_call_ident rest.tail).2
      else nlw_loop fuel sq dq tm false rest
    else nlw_loop fuel sq dq tm false rest

/-- `needs_list_wrapper`. -/
def needs_list_wrapper (s : List Char) : Bool := nlw_loop s.length false false false false s

/-! ## Errors of the transformer (`jsx_transformer/errors.rs`, duplicated in
`jsx_precompile.rs`) -/

inductive JSXError where
  | ExtractionError : List Char → JSXError
  | ParsingError : List Char → JSXError
  | TransformError : List Char → JSXError
deriving DecidableEq, Repr

/-- `impl Display for JSXError`. -/
def JSXError.display : JSXError → List Char
  | .ExtractionError m => "JSX extraction error: ".data ++ m
  | .ParsingError m => "JSX parsing error: ".data ++ m
  | .TransformError m => "JSX transform error: ".data ++ m

/-! ## Template builder (`TemplateBuilder` in `transform.rs` / `jsx_precompile.rs`;
the dead `has_array` field is elided) -/

structure TemplateBuilder where
  out : List Char
deriving DecidableEq, Repr

def TemplateBuilder.push_text (b : TemplateBuilder) (s : List Char) : TemplateBuilder :=
  ⟨b.out ++ s⟩

/-- `extract_single_expr_from_backtick`.  The outer `none` marks the execution
where the source's slice `&s[1..s.len()-1]` is out of bounds (start 1 past end
0) and Rust panics: after the affix tests it happens exactly when the trimmed
expression is the one-character string consisting of a single backtick.
`some r` is the source's return value `r`.  The inner slice
`&trimmed[2..trimmed.len()-1]` is always in bounds: the tested prefix forces
2 ≤ trimmed.len(), and a length-2 `trimmed` would end in the second prefix
character, not the tested suffix, so 3 ≤ trimmed.len() there. -/
def extract_single_expr_from_backtick (expr : List Char) : Option (Option (List Char)) :=
  let s := trimChars expr
  if s.head? = some backtick ∧ s.getLast? = some backtick then
    if s.length < 2 then none
    else
      let trimmed := trimChars ((s.drop 1).dropLast)
      if ("$\x7b".data).isPrefixOf trimmed ∧ trimmed.getLast? = some RIGHT_BRACE ∧
          countSeq ("$\x7b".data) trimmed = 1 then
        some (some ((trimmed.drop 2).dropLast))
      else some none
  else some none

/-- `flatten_trivial_nested_child`.  The outer `none` marks the execution where
the source's slice `&t[3..t.len()-2]` is out of bounds (start 3 past end
t.len()-2) and Rust panics: after the affix tests (whose overlap admits a
length-4 match) it happens exactly on the trimmed four-character input whose
data reads dollar, left brace, backtick, right brace.  `some r` is the source's
return value `r`; note it rebuilds the flattened text as the dollar sign
followed by `inner_trim[2..]` (the leading left brace of the interpolation is
not re-emitted), and the slice `&inner_trim[2..]` is in bounds by the tested
prefix. -/
def flatten_trivial_nested_child (s : List Char) : Option (Option (List Char)) :=
  let t := trimChars s
  if ("$\x7b".data ++ [backtick]).isPrefixOf t ∧
      ([backtick] ++ "\x7d".data).isSuffixOf t then
    if t.length < 5 then none
    else
      let inner_trim := trimChars (((t.drop 3).dropLast).dropLast)
      if ("$\x7b".data).isPrefixOf inner_trim ∧ inner_trim.getLast? = some RIGHT_BRACE ∧
          countSeq ("$\x7b".data) inner_trim = 1 then
        some (some (DOLLAR_SIGN :: inner_trim.drop 2))
      else some none
  else some none

/-- `TemplateBuilder::push_expr`.  On the outer `none` of
`extract_single_expr_from_backtick` the Rust process aborts in the panic and no
builder state exists; the total model continues with the source's
not-flattened emission, so every theorem conditional on a produced value
describes the panic-free executions. -/
def TemplateBuilder.push_expr (b : TemplateBuilder) (expr : List Char) : TemplateBuilder :=
  match extract_single_expr_from_backtick expr with
  | some (some inner) => ⟨b.out ++ "$\x7b".data ++ inner ++ "\x7d".data⟩
  | _ =>
    if needs_list_wrapper expr then
      ⟨b.out ++ "$\x7b__jsxList(".data ++ expr ++ ")\x7d".data⟩
    else ⟨b.out ++ "$\x7b".data ++ expr ++ "\x7d".data⟩

/-- `TemplateBuilder::append_child_tpl`.  On the outer `none` of
`flatten_trivial_nested_child` the Rust process aborts in the panic; the total
model continues with the source's unflattened emission (see
`TemplateBuilder.push_expr`). -/
def TemplateBuilder.append_child_tpl (b : TemplateBuilder) (s : List Char) : TemplateBuilder :=
  match flatten_trivial_nested_child s with
  | some (some flat) => ⟨b.out ++ flat⟩
  | _ => ⟨b.out ++ s⟩

def TemplateBuilder.finalize (b : TemplateBuilder) : List Char := trimChars b.out

/-! ## Transformer frames and visitor hooks (`TemplateTransformer`) -/

inductive NodeFrame where
  | Element : List Char → List Char → Bool → TemplateBuilder → NodeFrame
  | Component : List Char → List Char → TemplateBuilder → NodeFrame
  | Fragment : TemplateBuilder → NodeFrame
deriving DecidableEq, Repr

def NodeFrame.builder : NodeFrame → TemplateBuilder
  | .Element _ _ _ b => b
  | .Component _ _ b => b
  | .Fragment b => b

def NodeFrame.withBuilder : NodeFrame → TemplateBuilder → NodeFrame
  | .Element t a v _, b => .Element t a v b
  | .Component t a _, b => .Component t a b
  | .Fragment _, b => .Fragment b

/-- The transformer state: an explicit stack of frames (list head = top of the
source's `Vec`) plus the sticky error flag. -/
structure TemplateTransformer where
  stack : List NodeFrame
  error : Option JSXError
deriving DecidableEq, Repr

/-- `TemplateTransformer::append_to_parent`: append to the builder of the
top-of-stack frame through `append_child_tpl` (no-op on an empty stack). -/
def append_to_parent (t : TemplateTransformer) (s : List Char) : TemplateTransformer :=
  match t.stack with
  | [] => t
  | fr :: rest => ⟨fr.withBuilder (fr.builder.append_child_tpl s) :: rest, t.error⟩

/-- `enter_element`.  The source's special-casing of an empty attribute vector
produces the same empty string as the general map-concat and is folded into it. -/
def enter_element (t : TemplateTransformer) (tag : List Char)
    (attributes : List JSXAttribute) : TemplateTransformer :=
  if t.error.isSome then t
  else
    match classify_tag tag with
    | TagType.Component =>
      ⟨NodeFrame.Component tag (transform_component_attributes attributes) ⟨[]⟩ :: t.stack,
       t.error⟩
    | _ =>
      let attrs := transform_element_attributes attributes
      let attrs_str :=
        (attrs.map (fun a =>
          if ("$\x7b__jsxSpread".data).isPrefixOf a then a else ' ' :: a)).flatten
      ⟨NodeFrame.Element tag attrs_str (decide (classify_tag tag = TagType.Void)) ⟨[]⟩
         :: t.stack, t.error⟩

/-- Rendered text of a popped `Element` frame (the tag argument of the hook is used
in the output, exactly as the source's `format!`). -/
def render_element (tag attrs_str : List Char) (is_void : Bool)
    (builder : TemplateBuilder) : List Char :=
  if is_void then "<".data ++ tag ++ attrs_str ++ "/>".data
  else
    "<".data ++ tag ++ attrs_str ++ ">".data ++ builder.finalize
      ++ "</".data ++ tag ++ ">".data

/-- Rendered text of a popped `Component` frame: the children argument is omitted
entirely when the rendered children string is empty. -/
def render_component (tag attr_parts : List Char) (builder : TemplateBuilder) : List Char :=
  let children_str := builder.finalize
  if children_str = [] then
    "$\x7b__jsxComponent(".data ++ tag ++ ", ".data ++ attr_parts ++ ")\x7d".data
  else
    "$\x7b__jsxComponent(".data ++ tag ++ ", ".data ++ attr_parts ++ ", ".data
      ++ [backtick] ++ trimChars children_str ++ [backtick] ++ ")\x7d".data

/-- `exit_element`: pop the current frame, render it, append to the parent.  A
popped `Fragment` frame is dropped without output (the source's unreachable arm). -/
def exit_element (t : TemplateTransformer) (tag : List Char) : TemplateTransformer :=
  if t.error.isSome then t
  else
    match t.stack with
    | [] => t
    | fr :: rest =>
      match fr with
      | NodeFrame.Element _ attrs_str is_void builder =>
        append_to_parent ⟨rest, t.error⟩ (render_element tag attrs_str is_void builder)
      | NodeFrame.Component _ attr_parts builder =>
        append_to_parent ⟨rest, t.error⟩ (render_component tag attr_parts builder)
      | NodeFrame.Fragment _ => ⟨rest, t.error⟩

/-- `enter_fragment`. -/
def enter_fragment (t : TemplateTransformer) : TemplateTransformer :=
  if t.error.isSome then t
  else ⟨NodeFrame.Fragment ⟨[]⟩ :: t.stack, t.error⟩

/-- `exit_fragment`: the source pops unconditionally and only appends when the
popped frame is a fragment (a non-fragment frame is dropped). -/
def exit_fragment (t : TemplateTransformer) : TemplateTransformer :=
  if t.error.isSome then t
  else
    match t.stack with
    | [] => t
    | NodeFrame.Fragment builder :: rest =>
      append_to_parent ⟨rest, t.error⟩ builder.finalize
    | _ :: rest => ⟨rest, t.error⟩

/-- `visit_text`. -/
def visit_text (t : TemplateTransformer) (s : List Char) : TemplateTransformer :=
  if t.error.isSome then t
  else
    match t.stack with
    | [] => t
    | fr :: rest => ⟨fr.withBuilder (fr.builder.push_text s) :: rest, t.error⟩

/-- `visit_expression`, parameterized by the nested full-pipeline entry point the
source calls when the expression text contains `<` (`jsx_transformer` in
`transform.rs`, `jsx_precompile` in `jsx_precompile.rs`). -/
def visit_expression (nested : List Char → Except JSXError (List Char))
    (t : TemplateTransformer) (expr : List Char) : TemplateTransformer :=
  if t.error.isSome then t
  else
    match t.stack with
    | [] => t
    | fr :: rest =>
      if expr.contains LEFT_ANGLE then
        match nested expr with
        | .ok nestedOut =>
          let nested_trim := trimChars nestedOut
          if needs_list_wrapper expr then
            ⟨fr.withBuilder (fr.builder.append_child_tpl
                ("$\x7b__jsxList(".data ++ nested_trim ++ ")\x7d".data)) :: rest, t.error⟩
          else
            ⟨fr.withBuilder (fr.builder.append_child_tpl
                ("$\x7b".data ++ nested_trim ++ "\x7d".data)) :: rest, t.error⟩
        | .error e => ⟨t.stack, some e⟩
      else ⟨fr.withBuilder (fr.builder.push_expr expr) :: rest, t.error⟩

/-! ## Depth-first traversal (`jsx_parser/visitor.rs::walk_node`) applied to the
template transformer -/

mutual

def walk_node (nested : List Char → Except JSXError (List Char))
    (t : TemplateTransformer) : JSXNode → TemplateTransformer
  | JSXNode.Element tag attributes children =>
    exit_element (walk_nodes nested (enter_element t tag attributes) children) tag
  | JSXNode.Fragment children =>
    exit_fragment (walk_nodes nested (enter_fragment t) children)
  | JSXNode.Text s => visit_text t s
  | JSXNode.Expression e => visit_expression nested t e

def walk_nodes (nested : List Char → Except JSXError (List Char))
    (t : TemplateTransformer) : List JSXNode → TemplateTransformer
  | [] => t
  | n :: rest => walk_nodes nested (walk_node nested t n) rest

end

/-- `TemplateTransformer::finalize`: report a recorded error, otherwise pop and
render the remaining frame (in practice the root fragment). -/
def transformer_finalize (t : TemplateTransformer) : Except JSXError (List Char) :=
  match t.error with
  | some e => .error e
  | none =>
    match t.stack with
    | [] => .ok []
    | NodeFrame.Fragment builder :: _ => .ok builder.finalize
    | NodeFrame.Element tag attrs_str is_void builder :: _ =>
      .ok (render_element tag attrs_str is_void builder)
    | NodeFrame.Component tag attr_parts builder :: _ =>
      .ok (render_component tag attr_parts builder)

/-- `transform_to_template`: walk the AST from a root fragment frame. -/
def transform_to_template (nested : List Char → Except JSXError (List Char))
    (ast : JSXNode) : Except JSXError (List Char) :=
  transformer_finalize (walk_node nested ⟨[NodeFrame.Fragment ⟨[]⟩], none⟩ ast)

/-! ## Comment stripping (`remove_jsx_comments`), the lazy-regex removal
`(?s)\x7b/\*.*?\*/\x7d` / `(?s)/\*.*?\*/` rendered as: find the first opener, then
the first closer after it, remove, continue after the removed span; if either is
absent nothing further matches. -/

/-- Split at the first occurrence of `pat`: `some (pre, post)` with
`l = pre ++ pat ++ post`. -/
def splitOnSeq (pat : List Char) : List Char → Option (List Char × List Char)
  | [] => if pat = [] then some ([], []) else none
  | c :: r =>
    if pat.isPrefixOf (c :: r) then some ([], (c :: r).drop pat.length)
    else (splitOnSeq pat r).map (fun p => (c :: p.1, p.2))

theorem splitOnSeq_length (pat l pre post : List Char)
    (h : splitOnSeq pat l = some (pre, post)) :
    l.length = pre.length + pat.length + post.length := by
  induction l generalizing pre with
  | nil =>
    by_cases hp : pat = ([] : List Char)
    · simp [splitOnSeq, hp] at h
      simp [hp, h.1, h.2]
    · simp [splitOnSeq, hp] at h
  | cons c r ih =>
    by_cases hp : pat.isPrefixOf (c :: r) = true
    · simp only [splitOnSeq, hp, if_pos] at h
      have hlen : pat.length ≤ (c :: r).length := List.IsPrefix.length_le (by
        exact (List.isPrefixOf_iff_prefix).1 hp)
      injection h with h1
      injection h1 with hpre hpost
      subst hpre hpost
      simp only [List.length_drop, List.length_nil]
      simp only [List.length_cons] at hlen ⊢
      omega
    · rcases hs : splitOnSeq pat r with _ | ⟨pre1, post1⟩
      · simp [splitOnSeq, hp, hs] at h
      · simp only [splitOnSeq, hp, if_neg, hs, Option.map_some'] at h
        injection h with h1
        injection h1 with hpre hpost
        subst hpre hpost
        have := ih pre1 hs
        simp only [List.length_cons]
        omega

/-- One lazy-regex comment-removal pass: opener char `o` with tail `otl` (kept
separate so the opener is provably non-empty), closer `cls`.  Fuel-driven (every
pass removes at least the opener, so fuel `l.length + 1` suffices). -/
def strip_between : Nat → Char → List Char → List Char → List Char → List Char
  | 0, _, _, _, l => l
  | fuel + 1, o, otl, cls, l =>
    match splitOnSeq (o :: otl) l with
    | none => l
    | some (pre, rest) =>
      match splitOnSeq cls rest with
      | none => l
      | some (_, post) => pre ++ strip_between fuel o otl cls post

/-- `remove_jsx_comments` of `jsx_precompile.rs`: strip `\x7b/* ... */\x7d` only. -/
def remove_jsx_comments_pre (source : List Char) : List Char :=
  strip_between (source.length + 1) LEFT_BRACE ("/*".data) ("*/\x7d".data) source

/-- `remove_jsx_comments` of `jsx_transformer/mod.rs`: strip `\x7b/* ... */\x7d`,
then generic block comments `/* ... */`. -/
def remove_jsx_comments_full (source : List Char) : List Char :=
  strip_between ((remove_jsx_comments_pre source).length + 1) '/' ("*".data) ("*/".data)
    (remove_jsx_comments_pre source)

/-! ## Diagnostics formatter (`format_diagnostic`) -/

/-- Tab expansion `s.replace('\t', "    ")`. -/
def expand_tabs (l : List Char) : List Char :=
  l.flatMap (fun c => if c = '\t' then "    ".data else [c])

/-- Last byte offset of character `t`, as Rust `str::rfind(char)`. -/
def byteRFindChar (t : Char) : List Char → Option Nat
  | [] => none
  | c :: r =>
    match byteRFindChar t r with
    | some k => some (utf8Len c + k)
    | none => if c = t then some 0 else none

/-- `format_diagnostic`: `--> input:LINE:COL` header, gutter, numbered source line,
caret line (full-width band at position 0), trailing gutter and note.  The source
right-aligns the line number to a width equal to its own digit count, which never
pads; the embedding prints the digits directly. -/
def format_diagnostic (source : List Char) (pos0 : Nat) (message : List Char) :
    List Char :=
  let len := byteLen source
  let pos := if pos0 > len then len else pos0
  let before := byteTake pos source
  let line_start := ((byteRFindChar '\n' before).map (· + 1)).getD 0
  let after := byteDrop pos source
  let line_end_rel := (byteFindChar '\n' after).getD (byteLen after)
  let line_end := pos + line_end_rel
  let line_str := byteTake (line_end - line_start) (byteDrop line_start source)
  let prefix_chars := byteTake (pos - line_start) (byteDrop line_start source)
  let prefix_expanded := expand_tabs prefix_chars
  let line_expanded := expand_tabs line_str
  let line_no := before.count '\n' + 1
  let col_no := prefix_expanded.length + 1
  let width := (natChars line_no).length
  let gutter := List.replicate width ' '
  "  --> input:".data ++ natChars line_no ++ ":".data ++ natChars col_no ++ "\n".data
    ++ gutter ++ " |\n".data
    ++ natChars line_no ++ " | ".data ++ line_expanded ++ "\n".data
    ++ gutter ++ " | ".data
    ++ (if pos ≠ 0 then List.replicate prefix_expanded.length ' ' ++ "^".data
        else List.replicate line_expanded.length '^')
    ++ "\n".data
    ++ gutter ++ " |\n".data
    ++ gutter ++ " = note: ".data ++ message ++ "\n".data

/-! ## The streaming driver (`jsx_transformer` in `mod.rs`, `jsx_precompile` in
`jsx_precompile.rs`; identical up to the comment stripper and the nested entry
point).  The loop also returns the collected diagnostics list (the source's local
`errors` vector). -/

/-- Tail of the driver after the scan loop: splice the remaining input, fail with
the aggregated `ParsingError` when diagnostics were collected, otherwise clean up
empty interpolation artifacts `$\x7b\x7d`. -/
def driver_finish (input : List Char) (cursor : Nat) (out : List Char)
    (errors : List (List Char)) : Except JSXError (List Char) × List (List Char) :=
  let out2 := out ++ byteDrop cursor input
  if errors ≠ [] then
    (.error (JSXError.ParsingError (joinSep ("\n".data) errors)), errors)
  else (.ok (replaceAll ("$\x7b\x7d".data) [] out2), errors)

/-- The driver scan loop (`while i < input.len()`), decrementing an explicit fuel
once per iteration. -/
def driver_loop (transform : JSXNode → Except JSXError (List Char))
    (input : List Char) (fuel : Nat) (cursor i : Nat) (out : List Char)
    (errors : List (List Char)) : Except JSXError (List Char) × List (List Char) :=
  match fuel with
  | 0 => (.error (JSXError.ExtractionError FUEL_ERR), errors)
  | fuel + 1 =>
    if i < byteLen input then
      match byteFindChar LEFT_ANGLE (byteDrop i input) with
      | none => driver_finish input cursor out errors
      | some rel =>
        let i1 := i + rel
        match parse_next_with_span (2 * (byteDrop i1 input).length + 1)
            (byteDrop i1 input) 0 with
        | (some (.ok (ast, startp, endp)), _) =>
          let start_abs := i1 + startp
          let end_abs := i1 + endp
          let gap := if start_abs > cursor then
              byteTake (start_abs - cursor) (byteDrop cursor input)
            else []
          match transform ast with
          | .error e => (.error e, errors)
          | .ok template =>
            driver_loop transform input fuel end_abs end_abs
              (out ++ gap ++ [backtick] ++ template ++ [backtick]) errors
        | (some (.error e), _) =>
          driver_loop transform input fuel cursor (i1 + 1) out
            (errors ++ [format_diagnostic input (i1 + e.position) e.message])
        | (none, _) => driver_finish input cursor out errors
    else driver_finish input cursor out errors

/-- `jsx_precompile`, with explicit fuel for the nested recursion through
`visit_expression` (each nesting level works on a strictly shorter expression
text, so `length + 1` fuel never runs out). -/
def jsx_precompile_fuel : Nat → List Char → Except JSXError (List Char)
  | 0, _ => .error (JSXError.ExtractionError FUEL_ERR)
  | fuel + 1, source =>
    let input := remove_jsx_comments_pre source
    (driver_loop (fun ast => transform_to_template (fun e => jsx_precompile_fuel fuel e) ast)
      input (byteLen input + 1) 0 0 [] []).1

/-- `jsx_precompile(source)`. -/
def jsx_precompile (source : List Char) : Except JSXError (List Char) :=
  jsx_precompile_fuel (source.length + 1) source

/-- `jsx_transformer`, with explicit nesting fuel (see `jsx_precompile_fuel`). -/
def jsx_transformer_fuel : Nat → List Char → Except JSXError (List Char)
  | 0, _ => .error (JSXError.ExtractionError FUEL_ERR)
  | fuel + 1, source =>
    let input := remove_jsx_comments_full source
    (driver_loop (fun ast => transform_to_template (fun e => jsx_transformer_fuel fuel e) ast)
      input (byteLen input + 1) 0 0 [] []).1

/-- `jsx_transformer(source)` (the `transform` entry point of the spec). -/
def jsx_transformer (source : List Char) : Except JSXError (List Char) :=
  jsx_transformer_fuel (source.length + 1) source

/-- Outputs the driver loop can have accumulated by the time its cursor sits at
a given byte offset of the (comment-stripped) input: chunks of the input copied
verbatim between the transformed spans, each span contributing its
backtick-wrapped template.  This is exactly the shape of the accumulator built
by `driver_loop`. -/
inductive Rendering (input : List Char) : Nat → List Char → Prop where
  | nil : Rendering input 0 []
  | span (cursor : Nat) (out : List Char) (start_abs end_abs : Nat) (t : List Char)
      (h : Rendering input cursor out) :
      Rendering input end_abs
        (out ++ (if start_abs > cursor then
            byteTake (start_abs - cursor) (byteDrop cursor input) else [])
          ++ [backtick] ++ t ++ [backtick])

/-! ## The JSX scanner (`jsx_transformer/jsx_scanner.rs`), working on bytes
(modelled as `Nat`).  The transient `LineComment` / `BlockComment` / `String` /
`Regex` modes are rendered as the skipping helpers the source also uses; the
persistent modes are `Normal` (empty template stack) and `Template` (non-empty
stack), merging the source's `mode` field with its `tpl_stack` (the two are kept
consistent by the source; its defensive empty-stack arm is unreachable). -/

inductive TokenCtx where
  | AfterOperand
  | BeforeOperand
deriving DecidableEq, Repr

structure TemplateState where
  in_expr : Bool
  brace_depth : Nat
  escape : Bool
deriving DecidableEq, Repr

def is_ws_b (b : Nat) : Bool :=
  b = 0x20 || b = 0x09 || b = 0x0A || b = 0x0D || b = 0x0B || b = 0x0C

def is_ascii_alpha_b (b : Nat) : Bool :=
  (0x41 ≤ b && b ≤ 0x5A) || (0x61 ≤ b && b ≤ 0x7A)

def is_digit_b (b : Nat) : Bool := 0x30 ≤ b && b ≤ 0x39

def is_ident_start_b (b : Nat) : Bool := is_ascii_alpha_b b || b = 0x5F || b = 0x24

def is_ident_part_b (b : Nat) : Bool := is_ident_start_b b || is_digit_b b

def lower_b (b : Nat) : Nat := if 0x41 ≤ b ∧ b ≤ 0x5A then b + 32 else b

/-- `slice_eq_ignore_ascii_case` (per byte: equal, or ASCII-lowered equal). -/
def slice_eq_ignore_ascii_case : List Nat → List Nat → Bool
  | [], [] => true
  | a :: as2, b :: bs => (a = b || lower_b a = b) && slice_eq_ignore_ascii_case as2 bs
  | _, _ => false

def strBytes (s : String) : List Nat := s.data.map Char.toNat

def BEFORE_OPERAND_KEYWORDS : List (List Nat) :=
  [strBytes "return", strBytes "throw", strBytes "case", strBytes "else",
   strBytes "yield", strBytes "await", strBytes "typeof", strBytes "void",
   strBytes "delete", strBytes "new", strBytes "in", strBytes "instanceof",
   strBytes "of", strBytes "do", strBytes "default", strBytes "as",
   strBytes "import", strBytes "export"]

/-- `classify_ident_ctx`. -/
def classify_ident_ctx (word : List Nat) : TokenCtx :=
  if BEFORE_OPERAND_KEYWORDS.any (fun kw => slice_eq_ignore_ascii_case word kw) then
    TokenCtx.BeforeOperand
  else TokenCtx.AfterOperand

/-- `Scanner::skip_line_comment` (consume through the newline, CRLF-aware). -/
def skip_line_comment_b : Nat → List Nat → Nat × List Nat
  | i, [] => (i, [])
  | i, c :: r =>
    if c = 0x0A then (i + 1, r)
    else if c = 0x0D then
      match r with
      | d :: r2 => if d = 0x0A then (i + 2, r2) else (i + 1, r)
      | [] => (i + 1, [])
    else skip_line_comment_b (i + 1) r

/-- `Scanner::skip_block_comment`; `none` when unterminated. -/
def skip_block_comment_b : Nat → List Nat → Option (Nat × List Nat)
  | _, [] => none
  | i, c :: r =>
    if c = 0x2A ∧ r.head? = some 0x2F then some (i + 2, r.tail)
    else skip_block_comment_b (i + 1) r

/-- `Scanner::skip_string` (and the inline `String` mode loop). -/
def skip_string_b (quote : Nat) (escape : Bool) : Nat → List Nat → Nat × List Nat
  | i, [] => (i, [])
  | i, c :: r =>
    if escape then skip_string_b quote false (i + 1) r
    else if c = 0x5C then skip_string_b quote true (i + 1) r
    else if c = quote then (i + 1, r)
    else skip_string_b quote false (i + 1) r

/-- Trailing regex flags (`a-zA-Z`, as the source's `is_ascii_alphabetic`). -/
def skip_regex_flags : Nat → List Nat → Nat × List Nat
  | i, [] => (i, [])
  | i, c :: r =>
    if is_ascii_alpha_b c then skip_regex_flags (i + 1) r else (i, c :: r)

/-- `Scanner::consume_regex_in_place` (and the inline `Regex` mode loop). -/
def skip_regex_b (in_class escape : Bool) : Nat → List Nat → Nat × List Nat
  | i, [] => (i, [])
  | i, c :: r =>
    if escape then skip_regex_b in_class false (i + 1) r
    else if c = 0x5C then skip_regex_b in_class true (i + 1) r
    else if c = 0x5B ∧ ¬in_class then skip_regex_b true false (i + 1) r
    else if c = 0x5D ∧ in_class then skip_regex_b false false (i + 1) r
    else if c = 0x2F ∧ ¬in_class then skip_regex_flags (i + 1) r
    else skip_regex_b in_class false (i + 1) r

/-- `Scanner::bump_normal_and_update_ctx`: whitespace run, identifier (with keyword
classification), simplified numeric literal, or single punctuation byte. -/
def bump_normal (ctx : TokenCtx) (i : Nat) (bytes : List Nat) :
    TokenCtx × Nat × List Nat :=
  match bytes with
  | [] => (ctx, i, [])
  | c :: r =>
    if is_ws_b c then
      (ctx, i + ((c :: r).takeWhile is_ws_b).length, (c :: r).dropWhile is_ws_b)
    else if is_ident_start_b c then
      let word := (c :: r).takeWhile is_ident_part_b
      (classify_ident_ctx word, i + word.length, (c :: r).dropWhile is_ident_part_b)
    else if is_digit_b c then
      let d1 := (c :: r).takeWhile is_digit_b
      let r1 := (c :: r).dropWhile is_digit_b
      match r1 with
      | d :: r2 =>
        if d = 0x2E then
          let d2 := r2.takeWhile is_digit_b
          (TokenCtx.AfterOperand, i + d1.length + 1 + d2.length, r2.dropWhile is_digit_b)
        else (TokenCtx.AfterOperand, i + d1.length, r1)
      | [] => (TokenCtx.AfterOperand, i + d1.length, [])
    else
      (if c = 0x29 || c = 0x5D || c = 0x7D || c = 0x2E then TokenCtx.AfterOperand
       else TokenCtx.BeforeOperand, i + 1, r)

/-- JSX plausibility test on the byte after `<`: letter, `_`, `$`, `/`, `>`, `!`
or `?`. -/
def jsx_follow (r : List Nat) : Bool :=
  match r.head? with
  | some n => is_ident_start_b n || n = 0x2F || n = 0x3E || n = 0x21 || n = 0x3F
  | none => false

/-- The scanner main loop (`Scanner::find_next_jsx_start`), fuelled (each iteration
consumes at least one byte, so `src.length + 1` fuel is ample; running out returns
`none`, which also matches the loop's own exhaustion behaviour). -/
def scan_main : Nat → TokenCtx → List TemplateState → Nat → List Nat → Option Nat
  | 0, _, _, _, _ => none
  | fuel + 1, ctx, [], i, bytes =>
    match bytes with
    | [] => none
    | c :: r =>
      if c = 0x2F ∧ r.head? = some 0x2F then
        match skip_line_comment_b (i + 2) r.tail with
        | (i2, rest2) => scan_main fuel TokenCtx.BeforeOperand [] i2 rest2
      else if c = 0x2F ∧ r.head? = some 0x2A then
        match skip_block_comment_b (i + 2) r.tail with
        | none => none
        | some (i2, rest2) => scan_main fuel TokenCtx.BeforeOperand [] i2 rest2
      else if c = 0x27 then
        match skip_string_b 0x27 false (i + 1) r with
        | (i2, rest2) => scan_main fuel TokenCtx.AfterOperand [] i2 rest2
      else if c = 0x22 then
        match skip_string_b 0x22 false (i + 1) r with
        | (i2, rest2) => scan_main fuel TokenCtx.AfterOperand [] i2 rest2
      else if c = 0x60 then
        scan_main fuel TokenCtx.BeforeOperand [⟨false, 0, false⟩] (i + 1) r
      else if c = 0x2F ∧ ctx = TokenCtx.BeforeOperand then
        match skip_regex_b false false (i + 1) r with
        | (i2, rest2) => scan_main fuel TokenCtx.AfterOperand [] i2 rest2
      else if c = 0x3C ∧ jsx_follow r then
        some i
      else
        match bump_normal ctx i (c :: r) with
        | (ctx2, i2, rest2) => scan_main fuel ctx2 [] i2 rest2
  | fuel + 1, ctx, ⟨false, bd, esc⟩ :: stack, i, bytes =>
    match bytes with
    | [] => none
    | c :: r =>
      if esc then
        scan_main fuel ctx (⟨false, bd, false⟩ :: stack) (i + 1) r
      else if c = 0x5C then
        scan_main fuel ctx (⟨false, bd, true⟩ :: stack) (i + 1) r
      else if c = 0x60 then
        match stack with
        | [] => scan_main fuel TokenCtx.AfterOperand [] (i + 1) r
        | _ :: _ => scan_main fuel ctx stack (i + 1) r
      else if c = 0x24 ∧ r.head? = some 0x7B then
        scan_main fuel TokenCtx.BeforeOperand (⟨true, 0, false⟩ :: stack) (i + 2) r.tail
      else scan_main fuel ctx (⟨false, bd, false⟩ :: stack) (i + 1) r
  | fuel + 1, ctx, ⟨true, bd, esc⟩ :: stack, i, bytes =>
    match bytes with
    | [] => none
    | c :: r =>
      if c = 0x2F ∧ r.head? = some 0x2F then
        match skip_line_comment_b (i + 2) r.tail with
        | (i2, rest2) =>
          scan_main fuel TokenCtx.BeforeOperand (⟨true, bd, esc⟩ :: stack) i2 rest2
      else if c = 0x2F ∧ r.head? = some 0x2A then
        match skip_block_comment_b (i + 2) r.tail with
        | none => none
        | some (i2, rest2) =>
          scan_main fuel TokenCtx.BeforeOperand (⟨true, bd, esc⟩ :: stack) i2 rest2
      else if c = 0x27 ∨ c = 0x22 then
        match skip_string_b c false (i + 1) r with
        | (i2, rest2) =>
          scan_main fuel TokenCtx.AfterOperand (⟨true, bd, esc⟩ :: stack) i2 rest2
      else if c = 0x60 then
        scan_main fuel TokenCtx.BeforeOperand
          (⟨false, 0, false⟩ :: ⟨true, bd, esc⟩ :: stack) (i + 1) r
      else if c = 0x2F ∧ ctx = TokenCtx.BeforeOperand then
        match skip_regex_b false false (i + 1) r with
        | (i2, rest2) =>
          scan_main fuel TokenCtx.AfterOperand (⟨true, bd, esc⟩ :: stack) i2 rest2
      else if c = 0x7B then
        scan_main fuel TokenCtx.BeforeOperand (⟨true, bd + 1, esc⟩ :: stack) (i + 1) r
      else if c = 0x7D then
        if bd = 0 then
          scan_main fuel TokenCtx.AfterOperand (⟨false, 0, esc⟩ :: stack) (i + 1) r
        else
          scan_main fuel ctx (⟨true, bd - 1, esc⟩ :: stack) (i + 1) r
      else
        match bump_normal ctx i (c :: r) with
        | (ctx2, i2, rest2) =>
          scan_main fuel ctx2 (⟨true, bd, esc⟩ :: stack) i2 rest2

/-- `find_next_jsx_start(src, from)`: start clamped to the length, initial context
`BeforeOperand`, `Normal` mode. -/
def find_next_jsx_start (src : List Nat) (from0 : Nat) : Option Nat :=
  scan_main (src.length + 1) TokenCtx.BeforeOperand [] (min from0 src.length)
    (src.drop (min from0 src.length))

/-! ## Scanner soundness lemmas: every helper consumes a prefix and advances the
index by exactly its length -/

theorem skip_line_comment_b_spec :
    ∀ (l : List Nat) (i : Nat),
      ∃ pre, l = pre ++ (skip_line_comment_b i l).2 ∧
        (skip_line_comment_b i l).1 = i + pre.length := by
  intro l
  induction l with
  | nil => intro i; exact ⟨[], by simp [skip_line_comment_b]⟩
  | cons c r ih =>
    intro i
    by_cases h1 : c = 0x0A
    · exact ⟨[c], by simp [skip_line_comment_b, h1]⟩
    · by_cases h2 : c = 0x0D
      · rcases r with _ | ⟨d, r2⟩
        · exact ⟨[c], by simp [skip_line_comment_b, h1, h2]⟩
        · by_cases h3 : d = 0x0A
          · exact ⟨[c, d], by simp [skip_line_comment_b, h1, h2, h3]⟩
          · exact ⟨[c], by simp [skip_line_comment_b, h1, h2, h3]⟩
      · rcases ih (i + 1) with ⟨pre, hpre, hi⟩
        refine ⟨c :: pre, ?_, ?_⟩
        · simpa [skip_line_comment_b, h1, h2] using hpre
        · simp only [skip_line_comment_b, h1, h2, if_neg, not_false_eq_true, hi,
            List.length_cons]
          omega

theorem skip_block_comment_b_spec :
    ∀ (l : List Nat) (i i2 : Nat) (rest2 : List Nat),
      skip_block_comment_b i l = some (i2, rest2) →
      ∃ pre, l = pre ++ rest2 ∧ i2 = i + pre.length := by
  intro l
  induction l with
  | nil => intro i i2 rest2 h; simp [skip_block_comment_b] at h
  | cons c r ih =>
    intro i i2 rest2 h
    by_cases h1 : c = 0x2A ∧ r.head? = some 0x2F
    · rcases r with _ | ⟨d, r2⟩
      · simp at h1
      · simp only [List.head?_cons, Option.some.injEq] at h1
        have hv : skip_block_comment_b i (c :: d :: r2) = some (i + 2, r2) := by
          simp [skip_block_comment_b, h1.1, h1.2]
        rw [hv] at h
        injection h with h5
        injection h5 with hA hB
        exact ⟨[c, d], by simp [← hB],
          by simp only [List.length_cons, List.length_nil]; omega⟩
    · simp only [skip_block_comment_b, h1, if_neg, not_false_eq_true] at h
      rcases ih (i + 1) i2 rest2 h with ⟨pre, hpre, hi⟩
      exact ⟨c :: pre, by simp [hpre], by simp [hi]; omega⟩

theorem skip_string_b_spec :
    ∀ (l : List Nat) (quote : Nat) (escape : Bool) (i : Nat),
      ∃ pre, l = pre ++ (skip_string_b quote escape i l).2 ∧
        (skip_string_b quote escape i l).1 = i + pre.length := by
  intro l
  induction l with
  | nil => intro q e i; exact ⟨[], by simp [skip_string_b]⟩
  | cons c r ih =>
    intro q e i
    by_cases h1 : e = true
    · rcases ih q false (i + 1) with ⟨pre, hpre, hi⟩
      exact ⟨c :: pre, by simpa [skip_string_b, h1] using hpre,
        by simp [skip_string_b, h1, hi]; omega⟩
    · replace h1 : e = false := by revert h1; cases e <;> simp
      subst h1
      by_cases h2 : c = 0x5C
      · rcases ih q true (i + 1) with ⟨pre, hpre, hi⟩
        exact ⟨c :: pre, by simpa [skip_string_b, h2] using hpre,
          by simp [skip_string_b, h2, hi]; omega⟩
      · by_cases h3 : c = q
        · have h2q : ¬q = 0x5C := h3 ▸ h2
          exact ⟨[c], by simp [skip_string_b, h2, h3, h2q]⟩
        · rcases ih q false (i + 1) with ⟨pre, hpre, hi⟩
          exact ⟨c :: pre, by simpa [skip_string_b, h2, h3] using hpre,
            by simp [skip_string_b, h2, h3, hi]; omega⟩

theorem skip_regex_flags_spec :
    ∀ (l : List Nat) (i : Nat),
      ∃ pre, l = pre ++ (skip_regex_flags i l).2 ∧
        (skip_regex_flags i l).1 = i + pre.length := by
  intro l
  induction l with
  | nil => intro i; exact ⟨[], by simp [skip_regex_flags]⟩
  | cons c r ih =>
    intro i
    by_cases h1 : is_ascii_alpha_b c = true
    · rcases ih (i + 1) with ⟨pre, hpre, hi⟩
      exact ⟨c :: pre, by simpa [skip_regex_flags, h1] using hpre,
        by simp [skip_regex_flags, h1, hi]; omega⟩
    · exact ⟨[], by simp [skip_regex_flags, h1]⟩

theorem skip_regex_b_spec :
    ∀ (l : List Nat) (in_class escape : Bool) (i : Nat),
      ∃ pre, l = pre ++ (skip_regex_b in_class escape i l).2 ∧
        (skip_regex_b in_class escape i l).1 = i + pre.length := by
  intro l
  induction l with
  | nil => intro ic e i; exact ⟨[], by simp [skip_regex_b]⟩
  | cons c r ih =>
    intro ic e i
    by_cases h1 : e = true
    · rcases ih ic false (i + 1) with ⟨pre, hpre, hi⟩
      exact ⟨c :: pre, by simpa [skip_regex_b, h1] using hpre,
        by simp [skip_regex_b, h1, hi]; omega⟩
    · replace h1 : e = false := by revert h1; cases e <;> simp
      subst h1
      by_cases h2 : c = 0x5C
      · rcases ih ic true (i + 1) with ⟨pre, hpre, hi⟩
        exact ⟨c :: pre, by simpa [skip_regex_b, h2] using hpre,
          by simp [skip_regex_b, h2, hi]; omega⟩
      · by_cases h3 : c = 0x5B ∧ ¬ic = true
        · rcases ih true false (i + 1) with ⟨pre, hpre, hi⟩
          refine ⟨c :: pre, ?_, ?_⟩
          · simp only [skip_regex_b, h2, if_neg, not_false_eq_true, h3, if_pos]
            simpa using hpre
          · simp only [skip_regex_b, h2, if_neg, not_false_eq_true, h3, if_pos, hi]
            simp
            omega
        · by_cases h4 : c = 0x5D ∧ ic = true
          · rcases ih false false (i + 1) with ⟨pre, hpre, hi⟩
            refine ⟨c :: pre, ?_, ?_⟩
            · simp only [skip_regex_b, h2, if_neg, not_false_eq_true, h3, h4, if_pos]
              simpa using hpre
            · simp only [skip_regex_b, h2, if_neg, not_false_eq_true, h3, h4, if_pos, hi]
              simp
              omega
          · by_cases h5 : c = 0x2F ∧ ¬ic = true
            · rcases skip_regex_flags_spec r (i + 1) with ⟨pre, hpre, hi⟩
              refine ⟨c :: pre, ?_, ?_⟩
              · simp only [skip_regex_b, h2, if_neg, not_false_eq_true, h3, h4, h5, if_pos]
                simpa using hpre
              · simp only [skip_regex_b, h2, if_neg, not_false_eq_true, h3, h4, h5, if_pos, hi]
                simp
                omega
            · rcases ih ic false (i + 1) with ⟨pre, hpre, hi⟩
              refine ⟨c :: pre, ?_, ?_⟩
              · simp only [skip_regex_b, h2, if_neg, not_false_eq_true, h3, h4, h5]
                simpa using hpre
              · simp only [skip_regex_b, h2, if_neg, not_false_eq_true, h3, h4, h5, hi]
                simp
                omega

theorem bump_normal_spec (ctx : TokenCtx) (i : Nat) (bytes : List Nat) :
    ∃ pre, bytes = pre ++ (bump_normal ctx i bytes).2.2 ∧
      (bump_normal ctx i bytes).2.1 = i + pre.length := by
  rcases bytes with _ | ⟨c, r⟩
  · exact ⟨[], by simp [bump_normal]⟩
  · have htd := List.takeWhile_append_dropWhile (p := is_ws_b) (l := c :: r)
    have htd2 := List.takeWhile_append_dropWhile (p := is_ident_part_b) (l := c :: r)
    have htd3 := List.takeWhile_append_dropWhile (p := is_digit_b) (l := c :: r)
    by_cases h1 : is_ws_b c = true
    · refine ⟨(c :: r).takeWhile is_ws_b, ?_, ?_⟩
      · conv_lhs => rw [← htd]
        simp [bump_normal, h1]
      · simp [bump_normal, h1]
    · by_cases h2 : is_ident_start_b c = true
      · refine ⟨(c :: r).takeWhile is_ident_part_b, ?_, ?_⟩
        · conv_lhs => rw [← htd2]
          simp [bump_normal, h1, h2]
        · simp [bump_normal, h1, h2]
      · by_cases h3 : is_digit_b c = true
        · rcases hr1 : (c :: r).dropWhile is_digit_b with _ | ⟨d, r2⟩
          · refine ⟨(c :: r).takeWhile is_digit_b, ?_, ?_⟩
            · conv_lhs => rw [← htd3]
              rw [hr1]
              simp [bump_normal, h1, h2, h3, hr1]
            · simp [bump_normal, h1, h2, h3, hr1]
          · by_cases h4 : d = 0x2E
            · have htd4 := List.takeWhile_append_dropWhile (p := is_digit_b) (l := r2)
              refine ⟨(c :: r).takeWhile is_digit_b ++ d :: r2.takeWhile is_digit_b, ?_, ?_⟩
              · conv_lhs => rw [← htd3]
                rw [hr1]
                conv_lhs => rw [← htd4]
                simp [bump_normal, h1, h2, h3, hr1, h4]
              · simp [bump_normal, h1, h2, h3, hr1, h4]
                omega
            · refine ⟨(c :: r).takeWhile is_digit_b, ?_, ?_⟩
              · conv_lhs => rw [← htd3]
                rw [hr1]
                simp [bump_normal, h1, h2, h3, hr1, h4]
              · simp [bump_normal, h1, h2, h3, hr1, h4]
        · exact ⟨[c], by simp [bump_normal, h1, h2, h3]⟩

theorem skip_line_comment_b_eq (l : List Nat) (i i2 : Nat) (rest2 : List Nat)
    (h : skip_line_comment_b i l = (i2, rest2)) :
    ∃ pre, l = pre ++ rest2 ∧ i2 = i + pre.length := by
  rcases skip_line_comment_b_spec l i with ⟨pre, h1, h2⟩
  rw [h] at h1 h2
  exact ⟨pre, h1, h2⟩

theorem skip_string_b_eq (l : List Nat) (q : Nat) (e : Bool) (i i2 : Nat)
    (rest2 : List Nat) (h : skip_string_b q e i l = (i2, rest2)) :
    ∃ pre, l = pre ++ rest2 ∧ i2 = i + pre.length := by
  rcases skip_string_b_spec l q e i with ⟨pre, h1, h2⟩
  rw [h] at h1 h2
  exact ⟨pre, h1, h2⟩

theorem skip_regex_b_eq (l : List Nat) (ic e : Bool) (i i2 : Nat)
    (rest2 : List Nat) (h : skip_regex_b ic e i l = (i2, rest2)) :
    ∃ pre, l = pre ++ rest2 ∧ i2 = i + pre.length := by
  rcases skip_regex_b_spec l ic e i with ⟨pre, h1, h2⟩
  rw [h] at h1 h2
  exact ⟨pre, h1, h2⟩

theorem bump_normal_eq (ctx : TokenCtx) (i : Nat) (bytes : List Nat)
    (ctx2 : TokenCtx) (i2 : Nat) (rest2 : List Nat)
    (h : bump_normal ctx i bytes = (ctx2, i2, rest2)) :
    ∃ pre, bytes = pre ++ rest2 ∧ i2 = i + pre.length := by
  rcases bump_normal_spec ctx i bytes with ⟨pre, h1, h2⟩
  rw [h] at h1 h2
  exact ⟨pre, h1, h2⟩

theorem jsx_follow_decomp (r : List Nat) (h : jsx_follow r = true) :
    ∃ n r2, r = n :: r2 ∧
      (is_ident_start_b n || n = 0x2F || n = 0x3E || n = 0x21 || n = 0x3F) = true := by
  rcases r with _ | ⟨n, r2⟩
  · simp [jsx_follow] at h
  · exact ⟨n, r2, rfl, by simpa [jsx_follow] using h⟩

set_option maxHeartbeats 1000000 in
theorem scan_main_sound :
    ∀ (fuel : Nat) (ctx : TokenCtx) (tpl : List TemplateState) (i : Nat)
      (bytes : List Nat) (j : Nat),
      scan_main fuel ctx tpl i bytes = some j →
      ∃ pre n r2, bytes = pre ++ 0x3C :: n :: r2 ∧ j = i + pre.length ∧
        (is_ident_start_b n || n = 0x2F || n = 0x3E || n = 0x21 || n = 0x3F) = true := by
  intro fuel
  induction fuel with
  | zero => intro ctx tpl i bytes j h; simp [scan_main] at h
  | succ fuel ih =>
    intro ctx tpl i bytes j h
    rcases tpl with _ | ⟨top, stack⟩
    · rcases bytes with _ | ⟨c, r⟩
      · simp [scan_main] at h
      · simp only [scan_main] at h
        split_ifs at h with b1 b2 b3 b4 b5 b6 b7
        · rcases hsl : skip_line_comment_b (i + 2) r.tail with ⟨i2, rest2⟩
          rw [hsl] at h
          rcases ih _ _ i2 rest2 j h with ⟨pre2, n, r2, hdec, hj, hn⟩
          rcases skip_line_comment_b_eq r.tail (i + 2) i2 rest2 hsl with ⟨pre1, hpre1, hi1⟩
          rcases r with _ | ⟨d, rt⟩
          · simp at b1
          · simp only [List.head?_cons, Option.some.injEq] at b1
            refine ⟨c :: d :: pre1 ++ pre2, n, r2, ?_, ?_, hn⟩
            · simp only [List.tail_cons] at hpre1
              simp [hpre1, hdec, List.append_assoc]
            · simp only [List.length_append, List.length_cons]
              omega
        · rcases hsb : skip_block_comment_b (i + 2) r.tail with _ | ⟨i2, rest2⟩
          · rw [hsb] at h; simp at h
          · rw [hsb] at h
            rcases ih _ _ i2 rest2 j h with ⟨pre2, n, r2, hdec, hj, hn⟩
            rcases skip_block_comment_b_spec r.tail (i + 2) i2 rest2 hsb with ⟨pre1, hpre1, hi1⟩
            rcases r with _ | ⟨d, rt⟩
            · simp at b2
            · simp only [List.head?_cons, Option.some.injEq] at b2
              refine ⟨c :: d :: pre1 ++ pre2, n, r2, ?_, ?_, hn⟩
              · simp only [List.tail_cons] at hpre1
                simp [hpre1, hdec, List.append_assoc]
              · simp only [List.length_append, List.length_cons]
                omega
        · rcases hss : skip_string_b 0x27 false (i + 1) r with ⟨i2, rest2⟩
          rw [hss] at h
          rcases ih _ _ i2 rest2 j h with ⟨pre2, n, r2, hdec, hj, hn⟩
          rcases skip_string_b_eq r 0x27 false (i + 1) i2 rest2 hss with ⟨pre1, hpre1, hi1⟩
          refine ⟨c :: pre1 ++ pre2, n, r2, ?_, ?_, hn⟩
          · simp [hpre1, hdec, List.append_assoc]
          · simp only [List.length_append, List.length_cons]
            omega
        · rcases hss : skip_string_b 0x22 false (i + 1) r with ⟨i2, rest2⟩
          rw [hss] at h
          rcases ih _ _ i2 rest2 j h with ⟨pre2, n, r2, hdec, hj, hn⟩
          rcases skip_string_b_eq r 0x22 false (i + 1) i2 rest2 hss with ⟨pre1, hpre1, hi1⟩
          refine ⟨c :: pre1 ++ pre2, n, r2, ?_, ?_, hn⟩
          · simp [hpre1, hdec, List.append_assoc]
          · simp only [List.length_append, List.length_cons]
            omega
        · rcases ih _ _ (i + 1) r j h with ⟨pre2, n, r2, hdec, hj, hn⟩
          refine ⟨c :: pre2, n, r2, by simp [hdec], ?_, hn⟩
          simp only [List.length_cons]
          omega
        · rcases hsr : skip_regex_b false false (i + 1) r with ⟨i2, rest2⟩
          rw [hsr] at h
          rcases ih _ _ i2 rest2 j h with ⟨pre2, n, r2, hdec, hj, hn⟩
          rcases skip_regex_b_eq r false false (i + 1) i2 rest2 hsr with ⟨pre1, hpre1, hi1⟩
          refine ⟨c :: pre1 ++ pre2, n, r2, ?_, ?_, hn⟩
          · simp [hpre1, hdec, List.append_assoc]
          · simp only [List.length_append, List.length_cons]
            omega
        · simp only [Option.some.injEq] at h
          rcases jsx_follow_decomp r b7.2 with ⟨n, r2, hr, hn⟩
          exact ⟨[], n, r2, by simp [hr, b7.1], by simp [h], hn⟩
        · rcases hbn : bump_normal ctx i (c :: r) with ⟨ctx2, i2, rest2⟩
          rw [hbn] at h
          rcases ih _ _ i2 rest2 j h with ⟨pre2, n, r2, hdec, hj, hn⟩
          rcases bump_normal_eq ctx i (c :: r) ctx2 i2 rest2 hbn with ⟨pre1, hpre1, hi1⟩
          refine ⟨pre1 ++ pre2, n, r2, ?_, ?_, hn⟩
          · rw [hpre1, hdec, List.append_assoc]
          · simp only [List.length_append]
            omega
    · rcases top with ⟨ie, bd, esc⟩
      rcases bytes with _ | ⟨c, r⟩
      · cases ie <;> simp [scan_main] at h
      · cases ie
        · simp only [scan_main] at h
          split_ifs at h with b1 b2 b3 b4
          · rcases ih _ _ (i + 1) r j h with ⟨pre2, n, r2, hdec, hj, hn⟩
            exact ⟨c :: pre2, n, r2, by simp [hdec], by simp; omega, hn⟩
          · rcases ih _ _ (i + 1) r j h with ⟨pre2, n, r2, hdec, hj, hn⟩
            exact ⟨c :: pre2, n, r2, by simp [hdec], by simp; omega, hn⟩
          · rcases stack with _ | ⟨top2, stack2⟩
            · rcases ih _ _ (i + 1) r j h with ⟨pre2, n, r2, hdec, hj, hn⟩
              exact ⟨c :: pre2, n, r2, by simp [hdec], by simp; omega, hn⟩
            · rcases ih _ _ (i + 1) r j h with ⟨pre2, n, r2, hdec, hj, hn⟩
              exact ⟨c :: pre2, n, r2, by simp [hdec], by simp; omega, hn⟩
          · rcases r with _ | ⟨d, rt⟩
            · simp at b4
            · simp only [List.head?_cons, Option.some.injEq] at b4
              simp only [List.tail_cons] at h
              rcases ih _ _ (i + 2) rt j h with ⟨pre2, n, r2, hdec, hj, hn⟩
              exact ⟨c :: d :: pre2, n, r2, by simp [hdec], by simp; omega, hn⟩
          · rcases ih _ _ (i + 1) r j h with ⟨pre2, n, r2, hdec, hj, hn⟩
            exact ⟨c :: pre2, n, r2, by simp [hdec], by simp; omega, hn⟩
        · simp only [scan_main] at h
          split_ifs at h with b1 b2 b3 b4 b5 b6 b7 b8
          · rcases hsl : skip_line_comment_b (i + 2) r.tail with ⟨i2, rest2⟩
            rw [hsl] at h
            rcases ih _ _ i2 rest2 j h with ⟨pre2, n, r2, hdec, hj, hn⟩
            rcases skip_line_comment_b_eq r.tail (i + 2) i2 rest2 hsl with ⟨pre1, hpre1, hi1⟩
            rcases r with _ | ⟨d, rt⟩
            · simp at b1
            · simp only [List.head?_cons, Option.some.injEq] at b1
              refine ⟨c :: d :: pre1 ++ pre2, n, r2, ?_, ?_, hn⟩
              · simp only [List.tail_cons] at hpre1
                simp [hpre1, hdec, List.append_assoc]
              · simp only [List.length_append, List.length_cons]
                omega
          · rcases hsb : skip_block_comment_b (i + 2) r.tail with _ | ⟨i2, rest2⟩
            · rw [hsb] at h; simp at h
            · rw [hsb] at h
              rcases ih _ _ i2 rest2 j h with ⟨pre2, n, r2, hdec, hj, hn⟩
              rcases skip_block_comment_b_spec r.tail (i + 2) i2 rest2 hsb with
                ⟨pre1, hpre1, hi1⟩
              rcases r with _ | ⟨d, rt⟩
              · simp at b2
              · simp only [List.head?_cons, Option.some.injEq] at b2
                refine ⟨c :: d :: pre1 ++ pre2, n, r2, ?_, ?_, hn⟩
                · simp only [List.tail_cons] at hpre1
                  simp [hpre1, hdec, List.append_assoc]
                · simp only [List.length_append, List.length_cons]
                  omega
          · rcases hss : skip_string_b c false (i + 1) r with ⟨i2, rest2⟩
            rw [hss] at h
            rcases ih _ _ i2 rest2 j h with ⟨pre2, n, r2, hdec, hj, hn⟩
            rcases skip_string_b_eq r c false (i + 1) i2 rest2 hss with ⟨pre1, hpre1, hi1⟩
            refine ⟨c :: pre1 ++ pre2, n, r2, ?_, ?_, hn⟩
            · simp [hpre1, hdec, List.append_assoc]
            · simp only [List.length_append, List.length_cons]
              omega
          · rcases ih _ _ (i + 1) r j h with ⟨pre2, n, r2, hdec, hj, hn⟩
            exact ⟨c :: pre2, n, r2, by simp [hdec], by simp; omega, hn⟩
          · rcases hsr : skip_regex_b false false (i + 1) r with ⟨i2, rest2⟩
            rw [hsr] at h
            rcases ih _ _ i2 rest2 j h with ⟨pre2, n, r2, hdec, hj, hn⟩
            rcases skip_regex_b_eq r false false (i + 1) i2 rest2 hsr with ⟨pre1, hpre1, hi1⟩
            refine ⟨c :: pre1 ++ pre2, n, r2, ?_, ?_, hn⟩
            · simp [hpre1, hdec, List.append_assoc]
            · simp only [List.length_append, List.length_cons]
              omega
          · rcases ih _ _ (i + 1) r j h with ⟨pre2, n, r2, hdec, hj, hn⟩
            exact ⟨c :: pre2, n, r2, by simp [hdec], by simp; omega, hn⟩
          · rcases ih _ _ (i + 1) r j h with ⟨pre2, n, r2, hdec, hj, hn⟩
            exact ⟨c :: pre2, n, r2, by simp [hdec], by simp; omega, hn⟩
          · rcases ih _ _ (i + 1) r j h with ⟨pre2, n, r2, hdec, hj, hn⟩
            exact ⟨c :: pre2, n, r2, by simp [hdec], by simp; omega, hn⟩
          · rcases hbn : bump_normal ctx i (c :: r) with ⟨ctx2, i2, rest2⟩
            rw [hbn] at h
            rcases ih _ _ i2 rest2 j h with ⟨pre2, n, r2, hdec, hj, hn⟩
            rcases bump_normal_eq ctx i (c :: r) ctx2 i2 rest2 hbn with ⟨pre1, hpre1, hi1⟩
            refine ⟨pre1 ++ pre2, n, r2, ?_, ?_, hn⟩
            · rw [hpre1, hdec, List.append_assoc]
            · simp only [List.length_append]
              omega

theorem find_next_jsx_start_sound (src : List Nat) (from0 j : Nat)
    (h : find_next_jsx_start src from0 = some j) :
    min from0 src.length ≤ j ∧ src.get? j = some 0x3C ∧
      ∃ n, src.get? (j + 1) = some n ∧
        (is_ident_start_b n || n = 0x2F || n = 0x3E || n = 0x21 || n = 0x3F) = true := by
  unfold find_next_jsx_start at h
  rcases scan_main_sound _ _ _ _ _ _ h with ⟨pre, n, r2, hdec, hj, hn⟩
  have hs : min from0 src.length ≤ src.length := Nat.min_le_right _ _
  have htd : src.take (min from0 src.length) ++ src.drop (min from0 src.length) = src :=
    List.take_append_drop _ _
  have hlen : (src.take (min from0 src.length)).length = min from0 src.length := by
    simp [Nat.min_le_right]
  refine ⟨by omega, ?_, n, ?_, hn⟩
  · conv_lhs => rw [← htd, hdec]
    rw [List.get?_append_right (by omega), hlen]
    have hj1 : j - min from0 src.length = pre.length := by omega
    rw [hj1, List.get?_append_right (Nat.le_refl _), Nat.sub_self]
    rfl
  · conv_lhs => rw [← htd, hdec]
    rw [List.get?_append_right (by omega), hlen]
    have hj2 : j + 1 - min from0 src.length = pre.length + 1 := by omega
    rw [hj2, List.get?_append_right (by omega)]
    have hj3 : pre.length + 1 - pre.length = 1 := by omega
    rw [hj3]
    rfl

/-- C4: `find_next_jsx_start source from` returns `some offset` only when the byte at
`offset` is '<' (0x3C) and the following byte is an ASCII letter, '_', '$'
(`is_ident_start_b`), '/', '>', '!', or '?'. Offsets inside comments, quoted strings, or
the raw segment of a template literal are skipped by the mode-tracking scan, witnessed
here for a '<' inside a line comment (`// <a` then newline then `<b`), inside a
double-quoted string, and inside the raw segment of a template literal: in each case the
reported offset is the later '<' outside the literal region. When the scan reaches an
unterminated block comment (`/* <a`), an unterminated string (`"<a` or single-quoted),
or an unterminated template literal (a backtick then `<a`), it returns `none` rather
than an error. -/
theorem C4_find_next_jsx_start_soundness :
    (∀ (src : List Nat) (from0 j : Nat),
        find_next_jsx_start src from0 = some j →
        src.get? j = some 0x3C ∧
          ∃ n, src.get? (j + 1) = some n ∧
            (is_ident_start_b n || n = 0x2F || n = 0x3E || n = 0x21 || n = 0x3F) = true)
    -- "/* <a"  : unterminated block comment
    ∧ find_next_jsx_start [0x2F, 0x2A, 0x20, 0x3C, 0x61] 0 = none
    -- "\"<a"   : unterminated double-quoted string
    ∧ find_next_jsx_start [0x22, 0x3C, 0x61] 0 = none
    -- "'<a"    : unterminated single-quoted string
    ∧ find_next_jsx_start [0x27, 0x3C, 0x61] 0 = none
    -- "`<a"    : unterminated template literal
    ∧ find_next_jsx_start [0x60, 0x3C, 0x61] 0 = none
    -- "// <a\n<b" : '<' inside a line comment is skipped
    ∧ find_next_jsx_start [0x2F, 0x2F, 0x20, 0x3C, 0x61, 0x0A, 0x3C, 0x62] 0 = some 6
    -- "\"<a\"<b"  : '<' inside a quoted string is skipped
    ∧ find_next_jsx_start [0x22, 0x3C, 0x61, 0x22, 0x3C, 0x62] 0 = some 4
    -- "`<a`<b"    : '<' in the raw segment of a template literal is skipped
    ∧ find_next_jsx_start [0x60, 0x3C, 0x61, 0x60, 0x3C, 0x62] 0 = some 4 := by
  refine ⟨fun src from0 j h => (find_next_jsx_start_sound src from0 j h).2,
    ?_, ?_, ?_, ?_, ?_, ?_, ?_⟩ <;> decide

theorem C4_find_next_jsx_start_soundness_witness :
    ([0x3C, 0x61] : List Nat).get? 0 = some 0x3C ∧
      ∃ n, ([0x3C, 0x61] : List Nat).get? (0 + 1) = some n ∧
        (is_ident_start_b n || n = 0x2F || n = 0x3E || n = 0x21 || n = 0x3F) = true :=
  C4_find_next_jsx_start_soundness.1 [0x3C, 0x61] 0 0 (by decide)



/-! ## Cursor-progress lemmas for the parser

`PLe st st'` says the parser moved forward from `st` to `st'`: the remaining char
list can only shrink and the byte position can only grow.  Every parsing function
of `parser.rs` satisfies it, which yields the non-decreasing error positions and
the termination of the streaming loop claimed in the spec. -/

def PLe (st st' : PState) : Prop :=
  st'.chars.length ≤ st.chars.length ∧ st.pos ≤ st'.pos

theorem PLe.rfl (st : PState) : PLe st st := ⟨Nat.le_refl _, Nat.le_refl _⟩

theorem PLe.trans {a b c : PState} (h1 : PLe a b) (h2 : PLe b c) : PLe a c :=
  ⟨Nat.le_trans h2.1 h1.1, Nat.le_trans h1.2 h2.2⟩

theorem bump_cons (c : Char) (r : List Char) (p : Nat) :
    bump ⟨c :: r, p⟩ = ⟨r, p + utf8Len c⟩ := by
  simp [bump]

theorem bump_ple (st : PState) : PLe st (bump st) := by
  rcases st with ⟨l, p⟩
  cases l with
  | nil => exact PLe.rfl _
  | cons c r => exact ⟨by simp [bump], by simp [bump]⟩

theorem skip_whitespace_aux_ple (l : List Char) (p : Nat) :
    (skip_whitespace_aux l p).1.length ≤ l.length ∧ p ≤ (skip_whitespace_aux l p).2 := by
  induction l generalizing p with
  | nil => simp [skip_whitespace_aux]
  | cons c r ih =>
    have h4 := utf8Len_pos c
    by_cases hw : rust_is_whitespace c = true
    · have h3 := ih (p + utf8Len c)
      rcases hr : skip_whitespace_aux r (p + utf8Len c) with ⟨l2, p2⟩
      rw [hr] at h3
      have ha : l2.length ≤ r.length := h3.1
      have hb : p + utf8Len c ≤ p2 := h3.2
      simp only [skip_whitespace_aux, hw, if_true, hr]
      exact ⟨by simp; omega, by omega⟩
    · simp [skip_whitespace_aux, hw]

theorem skip_whitespace_ple (st : PState) : PLe st (skip_whitespace st) :=
  skip_whitespace_aux_ple st.chars st.pos

theorem ident_loop_ple (l : List Char) (p : Nat) :
    (ident_loop l p).2.1.length ≤ l.length ∧ p ≤ (ident_loop l p).2.2 := by
  induction l generalizing p with
  | nil => simp [ident_loop]
  | cons c r ih =>
    have h4 := utf8Len_pos c
    by_cases hc : (rust_is_alphanumeric c || c = UNDERSCORE || c = DOLLAR_SIGN
        || c = HYPHEN || c = DOT) = true
    · have h3 := ih (p + utf8Len c)
      rcases hr : ident_loop r (p + utf8Len c) with ⟨tl, l2, p2⟩
      rw [hr] at h3
      have ha : l2.length ≤ r.length := h3.1
      have hb : p + utf8Len c ≤ p2 := h3.2
      simp only [ident_loop, hc, if_true, hr]
      exact ⟨by simp; omega, by omega⟩
    · simp [ident_loop, hc]

theorem parse_identifier_ple (st : PState) : PLe st (parse_identifier st).2 := by
  rcases st with ⟨l, p⟩
  cases l with
  | nil => exact PLe.rfl _
  | cons c r =>
    by_cases hc : (c.isAlpha || c = UNDERSCORE || c = DOLLAR_SIGN) = true
    · have h3 := ident_loop_ple r (p + utf8Len c)
      have h4 := utf8Len_pos c
      rcases hr : ident_loop r (p + utf8Len c) with ⟨tl, l2, p2⟩
      rw [hr] at h3
      have ha : l2.length ≤ r.length := h3.1
      have hb : p + utf8Len c ≤ p2 := h3.2
      simp only [parse_identifier, hc, if_true, hr]
      refine ⟨?_, ?_⟩ <;> simp <;> omega
    · simp only [parse_identifier, hc, if_false]
      exact PLe.rfl _

theorem parse_expression_content_aux_ple (l : List Char) (b : Nat) (p : Nat) :
    (parse_expression_content_aux b l p).2.1.length ≤ l.length ∧
      p ≤ (parse_expression_content_aux b l p).2.2 := by
  induction l generalizing b p with
  | nil => simp [parse_expression_content_aux]
  | cons c r ih =>
    have h4 := utf8Len_pos c
    simp only [parse_expression_content_aux]
    split_ifs with h1 h2 h5
    · simp
    · rcases hr : parse_expression_content_aux (b - 1) r (p + utf8Len c) with ⟨res, l2, p2⟩
      have h3 := ih (b - 1) (p + utf8Len c)
      rw [hr] at h3
      have ha : l2.length ≤ r.length := h3.1
      have hb : p + utf8Len c ≤ p2 := h3.2
      cases res <;> refine ⟨?_, ?_⟩ <;> simp <;> omega
    · rcases hr : parse_expression_content_aux (b + 1) r (p + utf8Len c) with ⟨res, l2, p2⟩
      have h3 := ih (b + 1) (p + utf8Len c)
      rw [hr] at h3
      have ha : l2.length ≤ r.length := h3.1
      have hb : p + utf8Len c ≤ p2 := h3.2
      cases res <;> refine ⟨?_, ?_⟩ <;> simp <;> omega
    · rcases hr : parse_expression_content_aux b r (p + utf8Len c) with ⟨res, l2, p2⟩
      have h3 := ih b (p + utf8Len c)
      rw [hr] at h3
      have ha : l2.length ≤ r.length := h3.1
      have hb : p + utf8Len c ≤ p2 := h3.2
      cases res <;> refine ⟨?_, ?_⟩ <;> simp <;> omega

theorem parse_expression_content_ple (st : PState) :
    PLe st (parse_expression_content st).2 := by
  have h3 := parse_expression_content_aux_ple st.chars 1 st.pos
  simp only [parse_expression_content]
  rcases hr : parse_expression_content_aux 1 st.chars st.pos with ⟨res, l2, p2⟩
  rw [hr] at h3
  exact ⟨h3.1, h3.2⟩

theorem parse_expression_ple (st : PState) : PLe st (parse_expression st).2 := by
  have h1 := bump_ple st
  have h2 := parse_expression_content_ple (bump st)
  simp only [parse_expression]
  rcases hr : parse_expression_content (bump st) with ⟨res, st2⟩
  rw [hr] at h2
  cases res <;> exact PLe.trans h1 h2

theorem text_loop_ple (l : List Char) (p : Nat) :
    (text_loop l p).2.1.length ≤ l.length ∧ p ≤ (text_loop l p).2.2 := by
  induction l generalizing p with
  | nil => simp [text_loop]
  | cons c r ih =>
    have h4 := utf8Len_pos c
    by_cases hc : (c = LEFT_ANGLE || c = LEFT_BRACE) = true
    · simp [text_loop, hc]
    · have h3 := ih (p + utf8Len c)
      rcases hr : text_loop r (p + utf8Len c) with ⟨tl, l2, p2⟩
      rw [hr] at h3
      have ha : l2.length ≤ r.length := h3.1
      have hb : p + utf8Len c ≤ p2 := h3.2
      simp only [text_loop, hc, hr]
      refine ⟨?_, ?_⟩ <;> simp <;> omega

theorem parse_text_ple (st : PState) : PLe st (parse_text st).2 := by
  have h3 := text_loop_ple st.chars st.pos
  simp only [parse_text]
  rcases hr : text_loop st.chars st.pos with ⟨content, l2, p2⟩
  rw [hr] at h3
  exact ⟨h3.1, h3.2⟩

theorem quoted_loop_ple (q : Char) (l : List Char) (p : Nat) :
    (quoted_loop q l p).2.1.length ≤ l.length ∧ p ≤ (quoted_loop q l p).2.2 := by
  induction l generalizing p with
  | nil => simp [quoted_loop]
  | cons c r ih =>
    have h4 := utf8Len_pos c
    by_cases hc : c = q
    · simp [quoted_loop, hc]
    · have h3 := ih (p + utf8Len c)
      rcases hr : quoted_loop q r (p + utf8Len c) with ⟨tl, l2, p2⟩
      rw [hr] at h3
      have ha : l2.length ≤ r.length := h3.1
      have hb : p + utf8Len c ≤ p2 := h3.2
      simp only [quoted_loop, hc, if_false, hr]
      exact ⟨by simp; omega, by omega⟩

theorem parse_attribute_value_ple (st : PState) : PLe st (parse_attribute_value st).2 := by
  simp only [parse_attribute_value]
  rcases hp : peekC st with _ | c
  · exact PLe.rfl _
  · simp only []
    split_ifs with h1 h2 h3 h4 h5
    · exact PLe.trans (PLe.trans (bump_ple st)
        ⟨(quoted_loop_ple c (bump st).chars (bump st).pos).1,
         (quoted_loop_ple c (bump st).chars (bump st).pos).2⟩) (bump_ple _)
    · exact PLe.trans (bump_ple st)
        ⟨(quoted_loop_ple c (bump st).chars (bump st).pos).1,
         (quoted_loop_ple c (bump st).chars (bump st).pos).2⟩
    · exact PLe.trans (PLe.trans (bump_ple st)
        ⟨(quoted_loop_ple c (bump st).chars (bump st).pos).1,
         (quoted_loop_ple c (bump st).chars (bump st).pos).2⟩) (bump_ple _)
    · exact PLe.trans (bump_ple st)
        ⟨(quoted_loop_ple c (bump st).chars (bump st).pos).1,
         (quoted_loop_ple c (bump st).chars (bump st).pos).2⟩
    · rcases hr : parse_expression_content (bump st) with ⟨res, st2⟩
      have h2' := parse_expression_content_ple (bump st)
      rw [hr] at h2'
      cases res <;> exact PLe.trans (bump_ple st) h2'
    · exact PLe.rfl _

theorem script_loop_ple (l : List Char) (p : Nat) :
    (script_loop l p).2.1.length ≤ l.length ∧ p ≤ (script_loop l p).2.2 := by
  induction l generalizing p with
  | nil => simp [script_loop]
  | cons c r ih =>
    have h4 := utf8Len_pos c
    have hrec := ih (p + utf8Len c)
    rcases hr : script_loop r (p + utf8Len c) with ⟨tl, l2, p2⟩
    rw [hr] at hrec
    have ha : l2.length ≤ r.length := hrec.1
    have hb : p + utf8Len c ≤ p2 := hrec.2
    simp only [script_loop]
    split_ifs with h1
    · rcases hpi : parse_identifier (skip_whitespace (bump (bump ⟨c :: r, p⟩)))
        with ⟨res, st2⟩
      have hch : PLe (⟨c :: r, p⟩ : PState) st2 := by
        have h5 := parse_identifier_ple (skip_whitespace (bump (bump ⟨c :: r, p⟩)))
        rw [hpi] at h5
        exact PLe.trans (bump_ple _)
          (PLe.trans (bump_ple _) (PLe.trans (skip_whitespace_ple _) h5))
      cases res with
      | ok tag =>
        simp only []
        split_ifs with h2 h3
        · have hfin : PLe (⟨c :: r, p⟩ : PState) (bump (skip_whitespace st2)) :=
            PLe.trans hch (PLe.trans (skip_whitespace_ple _) (bump_ple _))
          exact ⟨hfin.1, hfin.2⟩
        · rw [hr]
          refine ⟨?_, ?_⟩ <;> simp <;> omega
        · rw [hr]
          refine ⟨?_, ?_⟩ <;> simp <;> omega
      | error m =>
        simp only []
        rw [hr]
        refine ⟨?_, ?_⟩ <;> simp <;> omega
    · rw [hr]
      refine ⟨?_, ?_⟩ <;> simp <;> omega

theorem parse_attributes_ple (fuel : Nat) (st : PState) :
    PLe st (parse_attributes fuel st).2 := by
  induction fuel generalizing st with
  | zero => exact PLe.rfl _
  | succ fuel ih =>
    simp only [parse_attributes]
    rcases hp : peekC st with _ | c
    · exact PLe.rfl _
    · simp only []
      split_ifs with h1 h2 hEq
      · exact PLe.rfl _
      · -- spread attribute
        have hst2 : PLe st (bump (bump (bump (skip_whitespace st)))) :=
          PLe.trans (skip_whitespace_ple st)
            (PLe.trans (bump_ple _) (PLe.trans (bump_ple _) (bump_ple _)))
        rcases hp2 : peekC (bump (bump (bump (skip_whitespace st)))) with _ | c2
        · simp only []
          rcases hec : parse_expression_content (bump (bump (bump (skip_whitespace st))))
            with ⟨res, st3⟩
          have he := parse_expression_content_ple (bump (bump (bump (skip_whitespace st))))
          rw [hec] at he
          cases res with
          | error m =>
            simp only []
            exact PLe.trans hst2 he
          | ok expr =>
            simp only []
            rcases har : parse_attributes fuel (skip_whitespace st3) with ⟨res2, st5⟩
            have ha := ih (skip_whitespace st3)
            rw [har] at ha
            have hs : PLe st st5 :=
              PLe.trans hst2 (PLe.trans he (PLe.trans (skip_whitespace_ple _) ha))
            cases res2 <;> simp only [] <;> exact hs
        · simp only []
          split_ifs with h3
          · rcases hid : parse_identifier (bump (bump (bump (skip_whitespace st))))
              with ⟨res, st3⟩
            have hi := parse_identifier_ple (bump (bump (bump (skip_whitespace st))))
            rw [hid] at hi
            cases res with
            | error m =>
              simp only []
              exact PLe.trans hst2 hi
            | ok ident =>
              simp only []
              rcases har : parse_attributes fuel (skip_whitespace st3) with ⟨res2, st5⟩
              have ha := ih (skip_whitespace st3)
              rw [har] at ha
              have hs : PLe st st5 :=
                PLe.trans hst2 (PLe.trans hi (PLe.trans (skip_whitespace_ple _) ha))
              cases res2 <;> simp only [] <;> exact hs
          · rcases hec : parse_expression_content (bump (bump (bump (skip_whitespace st))))
              with ⟨res, st3⟩
            have he := parse_expression_content_ple (bump (bump (bump (skip_whitespace st))))
            rw [hec] at he
            cases res with
            | error m =>
              simp only []
              exact PLe.trans hst2 he
            | ok expr =>
              simp only []
              rcases har : parse_attributes fuel (skip_whitespace st3) with ⟨res2, st5⟩
              have ha := ih (skip_whitespace st3)
              rw [har] at ha
              have hs : PLe st st5 :=
                PLe.trans hst2 (PLe.trans he (PLe.trans (skip_whitespace_ple _) ha))
              cases res2 <;> simp only [] <;> exact hs
      · -- named attribute, '=' present after the identifier-failure skip position
        rcases hid : parse_identifier (skip_whitespace st) with ⟨res, st2⟩
        have hi := parse_identifier_ple (skip_whitespace st)
        rw [hid] at hi
        have hw : PLe st st2 := PLe.trans (skip_whitespace_ple st) hi
        cases res with
        | ok name =>
          simp only []
          split_ifs with h3
          · rcases hav : parse_attribute_value (skip_whitespace (bump (skip_whitespace st2)))
              with ⟨resv, st5⟩
            have hv := parse_attribute_value_ple (skip_whitespace (bump (skip_whitespace st2)))
            rw [hav] at hv
            have hwv : PLe st st5 :=
              PLe.trans hw (PLe.trans (skip_whitespace_ple _)
                (PLe.trans (bump_ple _) (PLe.trans (skip_whitespace_ple _) hv)))
            cases resv with
            | error m =>
              simp only []
              exact hwv
            | ok v =>
              simp only []
              rcases har : parse_attributes fuel (skip_whitespace st5) with ⟨res2, st7⟩
              have ha := ih (skip_whitespace st5)
              rw [har] at ha
              have hs : PLe st st7 := PLe.trans hwv (PLe.trans (skip_whitespace_ple _) ha)
              cases res2 <;> simp only [] <;> exact hs
          · rcases har : parse_attributes fuel (skip_whitespace (skip_whitespace st2))
              with ⟨res2, st7⟩
            have ha := ih (skip_whitespace (skip_whitespace st2))
            rw [har] at ha
            have hs : PLe st st7 :=
              PLe.trans hw (PLe.trans (skip_whitespace_ple _)
                (PLe.trans (skip_whitespace_ple _) ha))
            cases res2 <;> simp only [] <;> exact hs
        | error m =>
          simp only []
          rcases hav : parse_attribute_value
              (skip_whitespace (bump (skip_whitespace (bump (skip_whitespace st)))))
            with ⟨resv, st5⟩
          have hv := parse_attribute_value_ple
            (skip_whitespace (bump (skip_whitespace (bump (skip_whitespace st)))))
          rw [hav] at hv
          have hwv : PLe st st5 :=
            PLe.trans (skip_whitespace_ple st)
              (PLe.trans (bump_ple _) (PLe.trans (skip_whitespace_ple _)
                (PLe.trans (bump_ple _) (PLe.trans (skip_whitespace_ple _) hv))))
          cases resv with
          | error m2 =>
            simp only []
            exact hwv
          | ok v =>
            simp only []
            exact PLe.trans hwv (PLe.trans (skip_whitespace_ple _) (ih (skip_whitespace st5)))
      · -- named attribute, no '=' at the identifier-failure skip position
        rcases hid : parse_identifier (skip_whitespace st) with ⟨res, st2⟩
        have hi := parse_identifier_ple (skip_whitespace st)
        rw [hid] at hi
        have hw : PLe st st2 := PLe.trans (skip_whitespace_ple st) hi
        cases res with
        | ok name =>
          simp only []
          split_ifs with h3
          · rcases hav : parse_attribute_value (skip_whitespace (bump (skip_whitespace st2)))
              with ⟨resv, st5⟩
            have hv := parse_attribute_value_ple (skip_whitespace (bump (skip_whitespace st2)))
            rw [hav] at hv
            have hwv : PLe st st5 :=
              PLe.trans hw (PLe.trans (skip_whitespace_ple _)
                (PLe.trans (bump_ple _) (PLe.trans (skip_whitespace_ple _) hv)))
            cases resv with
            | error m =>
              simp only []
              exact hwv
            | ok v =>
              simp only []
              rcases har : parse_attributes fuel (skip_whitespace st5) with ⟨res2, st7⟩
              have ha := ih (skip_whitespace st5)
              rw [har] at ha
              have hs : PLe st st7 := PLe.trans hwv (PLe.trans (skip_whitespace_ple _) ha)
              cases res2 <;> simp only [] <;> exact hs
          · rcases har : parse_attributes fuel (skip_whitespace (skip_whitespace st2))
              with ⟨res2, st7⟩
            have ha := ih (skip_whitespace (skip_whitespace st2))
            rw [har] at ha
            have hs : PLe st st7 :=
              PLe.trans hw (PLe.trans (skip_whitespace_ple _)
                (PLe.trans (skip_whitespace_ple _) ha))
            cases res2 <;> simp only [] <;> exact hs
        | error m =>
          simp only []
          exact PLe.trans (skip_whitespace_ple st)
            (PLe.trans (bump_ple _) (PLe.trans (skip_whitespace_ple _)
              (PLe.trans (skip_whitespace_ple _) (ih _))))

theorem parse_trio_ple (fuel : Nat) :
    (∀ st, 0 < fuel → PLe (bump st) (parse_element fuel st).2) ∧
    (∀ st, 0 < fuel → PLe (bump (bump st)) (parse_fragment fuel st).2) ∧
    (∀ pt st, PLe st (parse_children fuel pt st).2) := by
  induction fuel with
  | zero =>
    exact ⟨fun st h => absurd h (by omega), fun st h => absurd h (by omega),
      fun pt st => PLe.rfl _⟩
  | succ fuel ih =>
    obtain ⟨ihe, ihf, ihc⟩ := ih
    have ihe' : ∀ st, PLe st (parse_element fuel st).2 := by
      intro st
      cases fuel with
      | zero => exact PLe.rfl _
      | succ f => exact PLe.trans (bump_ple st) (ihe st (by omega))
    have ihf' : ∀ st, PLe st (parse_fragment fuel st).2 := by
      intro st
      cases fuel with
      | zero => exact PLe.rfl _
      | succ f =>
        exact PLe.trans (bump_ple st) (PLe.trans (bump_ple _) (ihf st (by omega)))
    refine ⟨?_, ?_, ?_⟩
    · intro st h
      simp only [parse_element]
      rcases hid : parse_identifier (skip_whitespace (bump st)) with ⟨res, st2⟩
      have hi := parse_identifier_ple (skip_whitespace (bump st))
      rw [hid] at hi
      have h12 : PLe (bump st) st2 := PLe.trans (skip_whitespace_ple _) hi
      cases res with
      | error m =>
        simp only []
        exact h12
      | ok tag =>
        simp only []
        rcases hat : parse_attributes (fuel + 1) (skip_whitespace st2) with ⟨resa, st4⟩
        have hattr := parse_attributes_ple (fuel + 1) (skip_whitespace st2)
        rw [hat] at hattr
        have h14 : PLe (bump st) st4 :=
          PLe.trans h12 (PLe.trans (skip_whitespace_ple _) hattr)
        cases resa with
        | error m =>
          simp only []
          exact h14
        | ok attributes =>
          simp only []
          have h15 : PLe (bump st) (skip_whitespace st4) :=
            PLe.trans h14 (skip_whitespace_ple _)
          split_ifs with h3 h4 h5
          · exact PLe.trans h15 (PLe.trans (bump_ple _) (bump_ple _))
          · exact PLe.trans h15 (bump_ple _)
          · exact h15
          · rcases hch : parse_children fuel tag (bump (skip_whitespace st4)) with ⟨resc, st7⟩
            have hc := ihc tag (bump (skip_whitespace st4))
            rw [hch] at hc
            have h17 : PLe (bump st) st7 :=
              PLe.trans h15 (PLe.trans (bump_ple _) hc)
            cases resc <;> simp only [] <;> exact h17
    · intro st h
      simp only [parse_fragment]
      rcases hch : parse_children fuel ("fragment".data) (bump (bump st)) with ⟨resc, st2⟩
      have hc := ihc ("fragment".data) (bump (bump st))
      rw [hch] at hc
      cases resc <;> simp only [] <;> exact hc
    · intro pt st
      simp only [parse_children]
      by_cases h1 : pt = "script".data
      · rw [if_pos h1]
        rcases hsl : script_loop st.chars st.pos with ⟨content, l2, p2⟩
        have hs := script_loop_ple st.chars st.pos
        rw [hsl] at hs
        try simp only []
        exact ⟨hs.1, hs.2⟩
      · rw [if_neg h1]
        rcases hp : peekC st with _ | c
        · try simp only []
          exact PLe.rfl _
        · try simp only []
          split_ifs with h2 h3 h4 h5 h6 h7
          · -- fragment closing tag, not '>'
            exact PLe.trans (skip_whitespace_ple st)
              (PLe.trans (bump_ple _) (PLe.trans (bump_ple _) (skip_whitespace_ple _)))
          · -- fragment closing tag found
            exact PLe.trans (skip_whitespace_ple st)
              (PLe.trans (bump_ple _) (PLe.trans (bump_ple _)
                (PLe.trans (skip_whitespace_ple _) (bump_ple _))))
          · -- element closing tag
            rcases hid : parse_identifier
                (skip_whitespace (bump (bump (skip_whitespace st)))) with ⟨res, st2⟩
            have hi := parse_identifier_ple (skip_whitespace (bump (bump (skip_whitespace st))))
            rw [hid] at hi
            have h12 : PLe st st2 :=
              PLe.trans (skip_whitespace_ple st)
                (PLe.trans (bump_ple _) (PLe.trans (bump_ple _)
                  (PLe.trans (skip_whitespace_ple _) hi)))
            cases res with
            | error m =>
              try simp only []
              exact h12
            | ok close_tag =>
              try simp only []
              split_ifs with h8 h9
              · exact h12
              · exact PLe.trans h12 (skip_whitespace_ple _)
              · exact PLe.trans h12 (PLe.trans (skip_whitespace_ple _) (bump_ple _))
          · -- child fragment
            rcases hfr : parse_fragment fuel (skip_whitespace st) with ⟨res, st1⟩
            have hf := ihf' (skip_whitespace st)
            rw [hfr] at hf
            have h11 : PLe st st1 := PLe.trans (skip_whitespace_ple st) hf
            cases res with
            | error m =>
              try simp only []
              exact h11
            | ok node =>
              try simp only []
              rcases hch : parse_children fuel pt st1 with ⟨res2, st2⟩
              have hc := ihc pt st1
              rw [hch] at hc
              have h22 : PLe st st2 := PLe.trans h11 hc
              cases res2 <;> try simp only []
              all_goals exact h22
          · -- child element
            rcases hel : parse_element fuel (skip_whitespace st) with ⟨res, st1⟩
            have hf := ihe' (skip_whitespace st)
            rw [hel] at hf
            have h11 : PLe st st1 := PLe.trans (skip_whitespace_ple st) hf
            cases res with
            | error m =>
              try simp only []
              exact h11
            | ok node =>
              try simp only []
              rcases hch : parse_children fuel pt st1 with ⟨res2, st2⟩
              have hc := ihc pt st1
              rw [hch] at hc
              have h22 : PLe st st2 := PLe.trans h11 hc
              cases res2 <;> try simp only []
              all_goals exact h22
          · -- child expression
            rcases hex : parse_expression st with ⟨res, st1⟩
            have he := parse_expression_ple st
            rw [hex] at he
            cases res with
            | error m =>
              try simp only []
              exact he
            | ok node =>
              try simp only []
              rcases hch : parse_children fuel pt st1 with ⟨res2, st2⟩
              have hc := ihc pt st1
              rw [hch] at hc
              have h22 : PLe st st2 := PLe.trans he hc
              cases res2 <;> try simp only []
              all_goals exact h22
          · -- child text
            rcases htx : parse_text st with ⟨node, st1⟩
            have ht := parse_text_ple st
            rw [htx] at ht
            try simp only []
            rcases hch : parse_children fuel pt st1 with ⟨res2, st2⟩
            have hc := ihc pt st1
            rw [hch] at hc
            have h22 : PLe st st2 := PLe.trans ht hc
            cases res2 <;> try simp only []
            all_goals exact h22

theorem parse_element_ple (fuel : Nat) (st : PState) : PLe st (parse_element fuel st).2 := by
  cases fuel with
  | zero => exact PLe.rfl _
  | succ f =>
    exact PLe.trans (bump_ple st) ((parse_trio_ple (f + 1)).1 st (by omega))

theorem parse_fragment_ple (fuel : Nat) (st : PState) : PLe st (parse_fragment fuel st).2 := by
  cases fuel with
  | zero => exact PLe.rfl _
  | succ f =>
    exact PLe.trans (bump_ple st)
      (PLe.trans (bump_ple _) ((parse_trio_ple (f + 1)).2.1 st (by omega)))

theorem pnws_nil (fuel : Nat) (p : Nat) :
    parse_next_with_span fuel [] p = (none, ⟨[], p⟩) := rfl

theorem pnws_master (fuel : Nat) (l : List Char) (p : Nat)
    (res : Option (Except ParseError (JSXNode × Nat × Nat))) (st' : PState)
    (h : parse_next_with_span fuel l p = (res, st')) :
    (st'.chars.length ≤ l.length ∧ p ≤ st'.pos) ∧
    (∀ node a b, res = some (.ok (node, a, b)) → st'.chars.length < l.length) ∧
    (∀ e, res = some (.error e) → p ≤ e.position ∧ e.position ≤ st'.pos) := by
  induction l generalizing p res st' with
  | nil =>
    rw [pnws_nil] at h
    injection h with h1 h2
    subst h1; subst h2
    refine ⟨⟨Nat.le_refl _, Nat.le_refl _⟩, ?_, ?_⟩
    · intro node a b hx; cases hx
    · intro e hx; cases hx
  | cons c r ih =>
    simp only [parse_next_with_span] at h
    split_ifs at h with hc h2 h3
    · -- fragment at '<>'
      rcases hfr : parse_fragment fuel ⟨c :: r, p⟩ with ⟨resf, stf⟩
      rw [hfr] at h
      cases resf with
      | ok node =>
        injection h with h1 h2'
        subst h1; subst h2'
        cases fuel with
        | zero =>
          rw [show parse_fragment 0 (⟨c :: r, p⟩ : PState) =
              (.error FUEL_ERR, ⟨c :: r, p⟩) from rfl] at hfr
          cases hfr
        | succ f =>
          have hple := (parse_trio_ple (f + 1)).2.1 ⟨c :: r, p⟩ (by omega)
          rw [hfr] at hple
          have hr : ∃ r2, r = RIGHT_ANGLE :: r2 := by
            rcases r with _ | ⟨d, r2⟩
            · simp [peekN] at h2
            · simp [peekN] at h2
              exact ⟨r2, by rw [h2]⟩
          rcases hr with ⟨r2, hr2⟩
          subst hr2
          have hlen := hple.1
          have hpos := hple.2
          simp [bump] at hlen hpos
          refine ⟨⟨by simp; omega, by omega⟩, ?_, ?_⟩
          · intro node2 a b hx
            simp
            omega
          · intro e hx; cases hx
      | error m =>
        injection h with h1 h2'
        subst h1; subst h2'
        have hple := parse_fragment_ple fuel ⟨c :: r, p⟩
        rw [hfr] at hple
        refine ⟨⟨hple.1, hple.2⟩, ?_, ?_⟩
        · intro node a b hx; cases hx
        · intro e hx
          injection hx with hx
          injection hx with hx
          subst hx
          exact ⟨Nat.le_refl _, hple.2⟩
    · -- element
      rcases hel : parse_element fuel ⟨c :: r, p⟩ with ⟨rese, ste⟩
      rw [hel] at h
      cases rese with
      | ok node =>
        injection h with h1 h2'
        subst h1; subst h2'
        cases fuel with
        | zero =>
          rw [show parse_element 0 (⟨c :: r, p⟩ : PState) =
              (.error FUEL_ERR, ⟨c :: r, p⟩) from rfl] at hel
          cases hel
        | succ f =>
          have hple := (parse_trio_ple (f + 1)).1 ⟨c :: r, p⟩ (by omega)
          rw [hel] at hple
          have hlen := hple.1
          have hpos := hple.2
          simp [bump] at hlen hpos
          refine ⟨⟨by simp; omega, by omega⟩, ?_, ?_⟩
          · intro node2 a b hx
            simp
            omega
          · intro e hx; cases hx
      | error m =>
        injection h with h1 h2'
        subst h1; subst h2'
        have hple := parse_element_ple fuel ⟨c :: r, p⟩
        rw [hel] at hple
        refine ⟨⟨hple.1, hple.2⟩, ?_, ?_⟩
        · intro node a b hx; cases hx
        · intro e hx
          injection hx with hx
          injection hx with hx
          subst hx
          exact ⟨Nat.le_refl _, hple.2⟩
    · -- '<' with invalid follower
      injection h with h1 h2'
      subst h1; subst h2'
      refine ⟨⟨Nat.le_refl _, Nat.le_refl _⟩, ?_, ?_⟩
      · intro node a b hx; cases hx
      · intro e hx
        injection hx with hx
        injection hx with hx
        subst hx
        exact ⟨Nat.le_refl _, Nat.le_refl _⟩
    · -- skip one char
      have h4 := utf8Len_pos c
      have hrec := ih (p + utf8Len c) res st' h
      refine ⟨⟨?_, ?_⟩, ?_, ?_⟩
      · have := hrec.1.1
        simp
        omega
      · have := hrec.1.2
        omega
      · intro node a b hx
        have := hrec.2.1 node a b hx
        simp
        omega
      · intro e hx
        have := hrec.2.2 e hx
        exact ⟨by omega, this.2⟩

theorem mem_of_getLast (l : List ParseError) (x : ParseError) (h : l.getLast? = some x) :
    x ∈ l := by
  induction l with
  | nil => cases h
  | cons a tl ih =>
    cases tl with
    | nil =>
      simp [List.getLast?] at h
      simp [h]
    | cons b tl2 =>
      rw [List.getLast?_cons_cons] at h
      exact List.mem_cons_of_mem _ (ih h)

theorem bump_length_lt (st' : PState) (m : Nat) (hle : st'.chars.length ≤ m)
    (hpos : 0 < m) : (bump st').chars.length < m := by
  rcases st' with ⟨l2, p2⟩
  cases l2 with
  | nil => simp [bump]; omega
  | cons d rr =>
    simp [bump] at hle ⊢
    omega

theorem parse_loop_chain (fuel : Nat) (st : PState) (nodes : List JSXNode)
    (errors : List ParseError)
    (hb : ∀ e ∈ errors, e.position ≤ st.pos)
    (hch : List.Chain' (fun a b => a.position ≤ b.position) errors) :
    List.Chain' (fun a b => a.position ≤ b.position)
      (parse_loop fuel st nodes errors).errors := by
  induction fuel generalizing st nodes errors with
  | zero =>
    show List.Chain' _ (errors ++ [⟨st.pos, FUEL_ERR⟩])
    refine List.Chain'.append hch (List.chain'_singleton _) ?_
    intro x hx y hy
    simp at hy
    subst hy
    exact hb x (mem_of_getLast errors x (Option.mem_def.mp hx))
  | succ fuel ih =>
    simp only [parse_loop]
    rcases hp : parse_next_with_span (2 * st.chars.length + 1) st.chars st.pos with ⟨res, st'⟩
    have hm := pnws_master (2 * st.chars.length + 1) st.chars st.pos res st' hp
    rcases res with _ | res2
    · try simp only []
      exact hch
    · rcases res2 with e | v
      · try simp only []
        refine ih (bump st') nodes (errors ++ [e]) ?_ ?_
        · intro x hx
          rcases List.mem_append.mp hx with hx1 | hx2
          · have h1 := hb x hx1
            have h2 := hm.1.2
            have h3 := (hm.2.2 e rfl).2
            have h4 := (bump_ple st').2
            omega
          · simp at hx2
            subst hx2
            have h3 := (hm.2.2 x rfl).2
            have h4 := (bump_ple st').2
            omega
        · refine List.Chain'.append hch (List.chain'_singleton _) ?_
          intro x hx y hy
          simp at hy
          subst hy
          have h1 := hb x (mem_of_getLast errors x (Option.mem_def.mp hx))
          have h2 := (hm.2.2 e rfl).1
          omega
      · rcases v with ⟨node, a, b⟩
        try simp only []
        exact ih st' (nodes ++ [node]) errors
          (fun x hx => Nat.le_trans (hb x hx) hm.1.2) hch

theorem parse_loop_fuel_irrel (n : Nat) :
    ∀ (f1 f2 : Nat) (st : PState) (nodes : List JSXNode) (errors : List ParseError),
      st.chars.length ≤ n → st.chars.length < f1 → st.chars.length < f2 →
      parse_loop f1 st nodes errors = parse_loop f2 st nodes errors := by
  induction n with
  | zero =>
    intro f1 f2 st nodes errors hn h1 h2
    have hl : st.chars = [] := List.length_eq_zero.mp (Nat.le_zero.mp hn)
    rcases f1 with _ | g1
    · omega
    rcases f2 with _ | g2
    · omega
    simp only [parse_loop]
    rw [hl, pnws_nil]
  | succ n ih =>
    intro f1 f2 st nodes errors hn h1 h2
    rcases f1 with _ | g1
    · omega
    rcases f2 with _ | g2
    · omega
    simp only [parse_loop]
    rcases hp : parse_next_with_span (2 * st.chars.length + 1) st.chars st.pos with ⟨res, st'⟩
    have hm := pnws_master (2 * st.chars.length + 1) st.chars st.pos res st' hp
    rcases res with _ | res2
    · rfl
    · have hne : st.chars ≠ [] := by
        intro hl
        rw [hl, pnws_nil] at hp
        injection hp with hp1 hp2
        simp at hp1
      have hpos : 0 < st.chars.length := List.length_pos.mpr hne
      rcases res2 with e | v
      · try simp only []
        have hlen : (bump st').chars.length < st.chars.length :=
          bump_length_lt st' st.chars.length hm.1.1 hpos
        exact ih g1 g2 (bump st') nodes (errors ++ [e]) (by omega) (by omega) (by omega)
      · rcases v with ⟨node, a, b⟩
        try simp only []
        have hlt := hm.2.1 node a b rfl
        exact ih g1 g2 st' (nodes ++ [node]) errors (by omega) (by omega) (by omega)

/-- C5: amended recovery property of the streaming `Parser::parse` loop.  Every
returned error is recorded and the cursor then advances exactly one character
(`len_utf8` bytes, not always one byte) before retrying; error positions are
non-decreasing across the returned list; and the loop terminates: its result is
independent of the loop fuel once the fuel exceeds the remaining input length. -/
theorem C5_parse_recovery_soundness :
    (∀ (c : Char) (r : List Char) (p : Nat), bump ⟨c :: r, p⟩ = ⟨r, p + utf8Len c⟩) ∧
    (∀ (fuel : Nat) (st : PState) (nodes : List JSXNode) (errors : List ParseError)
        (e : ParseError) (st' : PState),
        parse_next_with_span (2 * st.chars.length + 1) st.chars st.pos =
          (some (.error e), st') →
        parse_loop (fuel + 1) st nodes errors =
          parse_loop fuel (bump st') nodes (errors ++ [e])) ∧
    (∀ input : List Char,
        List.Chain' (fun a b => a.position ≤ b.position) (parse input).errors) ∧
    (∀ (input : List Char) (f : Nat), input.length < f →
        parse_loop f ⟨input, 0⟩ [] [] = parse input) := by
  refine ⟨fun c r p => bump_cons c r p, ?_, ?_, ?_⟩
  · intro fuel st nodes errors e st' h
    simp only [parse_loop, h]
  · intro input
    exact parse_loop_chain (input.length + 1) ⟨input, 0⟩ [] []
      (by intro e he; cases he) List.chain'_nil
  · intro input f hf
    exact parse_loop_fuel_irrel input.length f (input.length + 1) ⟨input, 0⟩ [] []
      (Nat.le_refl _) hf (by show input.length < input.length + 1; omega)

/-- C5 counterexample to "advances exactly one byte": on `"<a/é<%"` the element
parse fails at byte 3 (the two-byte character `é`), and the recovery bump moves
the cursor from byte 3 to byte 5 — two bytes, one character.  The collected
error positions (0 then 5) show the retry resumed at byte 5, not 4. -/
theorem C5_recovery_advance_counterexample :
    parse_next_with_span (2 * ("<a/é<%".data).length + 1) "<a/é<%".data 0 =
      (some (.error ⟨0, ERR_EXPECT_CLOSE_SLASH⟩), ⟨"é<%".data, 3⟩) ∧
    bump ⟨"é<%".data, 3⟩ = ⟨"<%".data, 5⟩ ∧
    (bump (⟨"é<%".data, 3⟩ : PState)).pos ≠ 3 + 1 ∧
    parse "<a/é<%".data =
      ⟨[], [⟨0, ERR_EXPECT_CLOSE_SLASH⟩, ⟨5, ERR_EXPECT_IDENTIFIER⟩]⟩ :=
  ⟨rfl, rfl, by decide, rfl⟩

theorem C5_parse_recovery_soundness_witness :
    (parse_loop 3 ⟨"x".data, 0⟩ [] [] = parse "x".data) ∧
    (parse_loop (6 + 1) ⟨"<a/é<%".data, 0⟩ [] [] =
      parse_loop 6 (bump ⟨"é<%".data, 3⟩) [] ([] ++ [⟨0, ERR_EXPECT_CLOSE_SLASH⟩])) :=
  ⟨C5_parse_recovery_soundness.2.2.2 "x".data 3 (by decide),
   C5_parse_recovery_soundness.2.1 6 ⟨"<a/é<%".data, 0⟩ [] []
     ⟨0, ERR_EXPECT_CLOSE_SLASH⟩ ⟨"é<%".data, 3⟩ (by rfl)⟩

/-! ## Wellformedness of parsed nodes (C9): tag and attribute names are non-empty -/

mutual

def node_wf : JSXNode → Bool
  | JSXNode.Element tag attributes children =>
    decide (tag ≠ []) && attributes.all (fun a => decide (a.name ≠ [])) && nodes_wf children
  | JSXNode.Fragment children => nodes_wf children
  | JSXNode.Text _ => true
  | JSXNode.Expression _ => true

def nodes_wf : List JSXNode → Bool
  | [] => true
  | n :: rest => node_wf n && nodes_wf rest

end

theorem parse_identifier_ok_ne (st : PState) (name : List Char) (st2 : PState)
    (h : parse_identifier st = (.ok name, st2)) : name ≠ [] := by
  rcases st with ⟨l, p⟩
  cases l with
  | nil => simp [parse_identifier] at h
  | cons c r =>
    by_cases hc : (c.isAlpha || c = UNDERSCORE || c = DOLLAR_SIGN) = true
    · simp only [parse_identifier, hc, if_true] at h
      rcases hr : ident_loop r (p + utf8Len c) with ⟨tl, l2, p2⟩
      rw [hr] at h
      try simp only [] at h
      injection h with h1 h2
      injection h1 with h1
      rw [← h1]
      simp
    · simp only [parse_identifier, hc, if_false] at h
      injection h with h1 h2
      cases h1

theorem parse_attributes_names (fuel : Nat) (st : PState) (attrs : List JSXAttribute)
    (st' : PState) (h : parse_attributes fuel st = (.ok attrs, st')) :
    ∀ a ∈ attrs, a.name ≠ [] := by
  induction fuel generalizing st attrs st' with
  | zero => simp [parse_attributes] at h
  | succ fuel ih =>
    simp only [parse_attributes] at h
    rcases hp : peekC st with _ | c
    · rw [hp] at h
      try simp only [] at h
      injection h with h1 h2
      injection h1 with h1
      rw [← h1]
      simp
    · rw [hp] at h
      try simp only [] at h
      split_ifs at h with h1 h2 hEq
      · injection h with h1' h2'
        injection h1' with h1'
        rw [← h1']
        simp
      · -- spread
        rcases hp2 : peekC (bump (bump (bump (skip_whitespace st)))) with _ | c2
        · rw [hp2] at h
          try simp only [] at h
          rcases hec : parse_expression_content (bump (bump (bump (skip_whitespace st))))
            with ⟨res, st3⟩
          rw [hec] at h
          cases res with
          | error m =>
            try simp only [] at h
            injection h with h1' h2'
            cases h1'
          | ok expr =>
            try simp only [] at h
            rcases har : parse_attributes fuel (skip_whitespace st3) with ⟨res2, st5⟩
            rw [har] at h
            cases res2 with
            | error m =>
              try simp only [] at h
              injection h with h1' h2'
              cases h1'
            | ok attrs2 =>
              try simp only [] at h
              injection h with h1' h2'
              injection h1' with h1'
              rw [← h1']
              intro a ha
              rcases List.mem_cons.mp ha with ha1 | ha2
              · subst ha1; simp
              · exact ih _ _ _ har a ha2
        · rw [hp2] at h
          try simp only [] at h
          split_ifs at h with h3
          · rcases hid : parse_identifier (bump (bump (bump (skip_whitespace st))))
              with ⟨res, st3⟩
            rw [hid] at h
            cases res with
            | error m =>
              try simp only [] at h
              injection h with h1' h2'
              cases h1'
            | ok ident =>
              try simp only [] at h
              rcases har : parse_attributes fuel (skip_whitespace st3) with ⟨res2, st5⟩
              rw [har] at h
              cases res2 with
              | error m =>
                try simp only [] at h
                injection h with h1' h2'
                cases h1'
              | ok attrs2 =>
                try simp only [] at h
                injection h with h1' h2'
                injection h1' with h1'
                rw [← h1']
                intro a ha
                rcases List.mem_cons.mp ha with ha1 | ha2
                · subst ha1; simp
                · exact ih _ _ _ har a ha2
          · rcases hec : parse_expression_content (bump (bump (bump (skip_whitespace st))))
              with ⟨res, st3⟩
            rw [hec] at h
            cases res with
            | error m =>
              try simp only [] at h
              injection h with h1' h2'
              cases h1'
            | ok expr =>
              try simp only [] at h
              rcases har : parse_attributes fuel (skip_whitespace st3) with ⟨res2, st5⟩
              rw [har] at h
              cases res2 with
              | error m =>
                try simp only [] at h
                injection h with h1' h2'
                cases h1'
              | ok attrs2 =>
                try simp only [] at h
                injection h with h1' h2'
                injection h1' with h1'
                rw [← h1']
                intro a ha
                rcases List.mem_cons.mp ha with ha1 | ha2
                · subst ha1; simp
                · exact ih _ _ _ har a ha2
      · -- named, '=' present at the error-skip position
        rcases hid : parse_identifier (skip_whitespace st) with ⟨res, st2⟩
        rw [hid] at h
        cases res with
        | ok name =>
          try simp only [] at h
          split_ifs at h with h3
          · rcases hav : parse_attribute_value (skip_whitespace (bump (skip_whitespace st2)))
              with ⟨resv, st5⟩
            rw [hav] at h
            cases resv with
            | error m =>
              try simp only [] at h
              injection h with h1' h2'
              cases h1'
            | ok v =>
              try simp only [] at h
              rcases har : parse_attributes fuel (skip_whitespace st5) with ⟨res2, st7⟩
              rw [har] at h
              cases res2 with
              | error m =>
                try simp only [] at h
                injection h with h1' h2'
                cases h1'
              | ok attrs2 =>
                try simp only [] at h
                injection h with h1' h2'
                injection h1' with h1'
                rw [← h1']
                intro a ha
                rcases List.mem_cons.mp ha with ha1 | ha2
                · subst ha1
                  exact parse_identifier_ok_ne _ _ _ hid
                · exact ih _ _ _ har a ha2
          · rcases har : parse_attributes fuel (skip_whitespace (skip_whitespace st2))
              with ⟨res2, st7⟩
            rw [har] at h
            cases res2 with
            | error m =>
              try simp only [] at h
              injection h with h1' h2'
              cases h1'
            | ok attrs2 =>
              try simp only [] at h
              injection h with h1' h2'
              injection h1' with h1'
              rw [← h1']
              intro a ha
              rcases List.mem_cons.mp ha with ha1 | ha2
              · subst ha1
                exact parse_identifier_ok_ne _ _ _ hid
              · exact ih _ _ _ har a ha2
        | error m =>
          try simp only [] at h
          rcases hav : parse_attribute_value
              (skip_whitespace (bump (skip_whitespace (bump (skip_whitespace st)))))
            with ⟨resv, st5⟩
          rw [hav] at h
          cases resv with
          | error m2 =>
            try simp only [] at h
            injection h with h1' h2'
            cases h1'
          | ok v =>
            try simp only [] at h
            exact ih _ _ _ h
      · -- named, no '=' at the error-skip position
        rcases hid : parse_identifier (skip_whitespace st) with ⟨res, st2⟩
        rw [hid] at h
        cases res with
        | ok name =>
          try simp only [] at h
          split_ifs at h with h3
          · rcases hav : parse_attribute_value (skip_whitespace (bump (skip_whitespace st2)))
              with ⟨resv, st5⟩
            rw [hav] at h
            cases resv with
            | error m =>
              try simp only [] at h
              injection h with h1' h2'
              cases h1'
            | ok v =>
              try simp only [] at h
              rcases har : parse_attributes fuel (skip_whitespace st5) with ⟨res2, st7⟩
              rw [har] at h
              cases res2 with
              | error m =>
                try simp only [] at h
                injection h with h1' h2'
                cases h1'
              | ok attrs2 =>
                try simp only [] at h
                injection h with h1' h2'
                injection h1' with h1'
                rw [← h1']
                intro a ha
                rcases List.mem_cons.mp ha with ha1 | ha2
                · subst ha1
                  exact parse_identifier_ok_ne _ _ _ hid
                · exact ih _ _ _ har a ha2
          · rcases har : parse_attributes fuel (skip_whitespace (skip_whitespace st2))
              with ⟨res2, st7⟩
            rw [har] at h
            cases res2 with
            | error m =>
              try simp only [] at h
              injection h with h1' h2'
              cases h1'
            | ok attrs2 =>
              try simp only [] at h
              injection h with h1' h2'
              injection h1' with h1'
              rw [← h1']
              intro a ha
              rcases List.mem_cons.mp ha with ha1 | ha2
              · subst ha1
                exact parse_identifier_ok_ne _ _ _ hid
              · exact ih _ _ _ har a ha2
        | error m =>
          try simp only [] at h
          exact ih _ _ _ h

theorem parse_expression_ok_shape (st : PState) (node : JSXNode) (st' : PState)
    (h : parse_expression st = (.ok node, st')) :
    ∃ content, node = JSXNode.Expression content := by
  simp only [parse_expression] at h
  rcases hec : parse_expression_content (bump st) with ⟨res, st2⟩
  rw [hec] at h
  cases res with
  | error m =>
    try simp only [] at h
    injection h with h1 h2
    cases h1
  | ok content =>
    try simp only [] at h
    injection h with h1 h2
    injection h1 with h1
    exact ⟨content, h1.symm⟩

theorem parse_text_fst (st : PState) :
    (parse_text st).1 = JSXNode.Text (text_loop st.chars st.pos).1 := by
  simp [parse_text]

theorem parse_trio_wf (fuel : Nat) :
    (∀ st node st', parse_element fuel st = (.ok node, st') → node_wf node = true) ∧
    (∀ st node st', parse_fragment fuel st = (.ok node, st') → node_wf node = true) ∧
    (∀ pt st cs st', parse_children fuel pt st = (.ok cs, st') → nodes_wf cs = true) := by
  induction fuel with
  | zero =>
    refine ⟨?_, ?_, ?_⟩
    · intro st node st' h
      simp [parse_element] at h
    · intro st node st' h
      simp [parse_fragment] at h
    · intro pt st cs st' h
      simp [parse_children] at h
  | succ fuel ih =>
    obtain ⟨ihe, ihf, ihc⟩ := ih
    refine ⟨?_, ?_, ?_⟩
    · intro st node st' h
      simp only [parse_element] at h
      rcases hid : parse_identifier (skip_whitespace (bump st)) with ⟨res, st2⟩
      rw [hid] at h
      cases res with
      | error m =>
        try simp only [] at h
        injection h with h1 h2
        cases h1
      | ok tag =>
        try simp only [] at h
        rcases hat : parse_attributes (fuel + 1) (skip_whitespace st2) with ⟨resa, st4⟩
        rw [hat] at h
        cases resa with
        | error m =>
          try simp only [] at h
          injection h with h1 h2
          cases h1
        | ok attributes =>
          try simp only [] at h
          have ht := parse_identifier_ok_ne _ _ _ hid
          have ha := parse_attributes_names _ _ _ _ hat
          split_ifs at h with h3 h4 h5
          · injection h with h1 h2
            injection h1 with h1
            rw [← h1]
            simp [node_wf, nodes_wf, List.all_eq_true]
            exact ⟨ht, ha⟩
          · injection h with h1 h2
            cases h1
          · injection h with h1 h2
            cases h1
          · rcases hch : parse_children fuel tag (bump (skip_whitespace st4)) with ⟨resc, st7⟩
            rw [hch] at h
            cases resc with
            | error m =>
              try simp only [] at h
              injection h with h1 h2
              cases h1
            | ok children =>
              try simp only [] at h
              injection h with h1 h2
              injection h1 with h1
              rw [← h1]
              have hcw := ihc tag _ _ _ hch
              simp [node_wf, nodes_wf, List.all_eq_true, hcw]
              exact ⟨ht, ha⟩
    · intro st node st' h
      simp only [parse_fragment] at h
      rcases hch : parse_children fuel ("fragment".data) (bump (bump st)) with ⟨resc, st2⟩
      rw [hch] at h
      cases resc with
      | error m =>
        try simp only [] at h
        injection h with h1 h2
        cases h1
      | ok children =>
        try simp only [] at h
        injection h with h1 h2
        injection h1 with h1
        rw [← h1]
        have hcw := ihc _ _ _ _ hch
        simp [node_wf, hcw]
    · intro pt st cs st' h
      simp only [parse_children] at h
      by_cases h1 : pt = "script".data
      · rw [if_pos h1] at h
        rcases hsl : script_loop st.chars st.pos with ⟨content, l2, p2⟩
        rw [hsl] at h
        try simp only [] at h
        injection h with h1' h2'
        injection h1' with h1'
        rw [← h1']
        simp [nodes_wf, node_wf]
      · rw [if_neg h1] at h
        rcases hp : peekC st with _ | c
        · rw [hp] at h
          try simp only [] at h
          injection h with h1' h2'
          cases h1'
        · rw [hp] at h
          try simp only [] at h
          split_ifs at h with h2 h3 h4 h5 h6 h7
          · injection h with h1' h2'
            cases h1'
          · injection h with h1' h2'
            injection h1' with h1'
            rw [← h1']
            simp [nodes_wf]
          · rcases hid : parse_identifier (skip_whitespace (bump (bump (skip_whitespace st))))
              with ⟨res, st2⟩
            rw [hid] at h
            cases res with
            | error m =>
              try simp only [] at h
              injection h with h1' h2'
              cases h1'
            | ok close_tag =>
              try simp only [] at h
              split_ifs at h with h8 h9
              · injection h with h1' h2'
                cases h1'
              · injection h with h1' h2'
                cases h1'
              · injection h with h1' h2'
                injection h1' with h1'
                rw [← h1']
                simp [nodes_wf]
          · rcases hfr : parse_fragment fuel (skip_whitespace st) with ⟨res, st1⟩
            rw [hfr] at h
            cases res with
            | error m =>
              try simp only [] at h
              injection h with h1' h2'
              cases h1'
            | ok node =>
              try simp only [] at h
              rcases hch : parse_children fuel pt st1 with ⟨res2, st2⟩
              rw [hch] at h
              cases res2 with
              | error m =>
                try simp only [] at h
                injection h with h1' h2'
                cases h1'
              | ok rest =>
                try simp only [] at h
                injection h with h1' h2'
                injection h1' with h1'
                rw [← h1']
                have hnw := ihf _ _ _ hfr
                have hrw := ihc _ _ _ _ hch
                simp [nodes_wf, hnw, hrw]
          · rcases hel : parse_element fuel (skip_whitespace st) with ⟨res, st1⟩
            rw [hel] at h
            cases res with
            | error m =>
              try simp only [] at h
              injection h with h1' h2'
              cases h1'
            | ok node =>
              try simp only [] at h
              rcases hch : parse_children fuel pt st1 with ⟨res2, st2⟩
              rw [hch] at h
              cases res2 with
              | error m =>
                try simp only [] at h
                injection h with h1' h2'
                cases h1'
              | ok rest =>
                try simp only [] at h
                injection h with h1' h2'
                injection h1' with h1'
                rw [← h1']
                have hnw := ihe _ _ _ hel
                have hrw := ihc _ _ _ _ hch
                simp [nodes_wf, hnw, hrw]
          · rcases hex : parse_expression st with ⟨res, st1⟩
            rw [hex] at h
            cases res with
            | error m =>
              try simp only [] at h
              injection h with h1' h2'
              cases h1'
            | ok node =>
              try simp only [] at h
              rcases hch : parse_children fuel pt st1 with ⟨res2, st2⟩
              rw [hch] at h
              cases res2 with
              | error m =>
                try simp only [] at h
                injection h with h1' h2'
                cases h1'
              | ok rest =>
                try simp only [] at h
                injection h with h1' h2'
                injection h1' with h1'
                rw [← h1']
                rcases parse_expression_ok_shape st node st1 hex with ⟨content, hcc⟩
                subst hcc
                have hrw := ihc _ _ _ _ hch
                simp [nodes_wf, node_wf, hrw]
          · rcases htx : parse_text st with ⟨node, st1⟩
            rw [htx] at h
            try simp only [] at h
            rcases hch : parse_children fuel pt st1 with ⟨res2, st2⟩
            rw [hch] at h
            cases res2 with
            | error m =>
              try simp only [] at h
              injection h with h1' h2'
              cases h1'
            | ok rest =>
              try simp only [] at h
              injection h with h1' h2'
              injection h1' with h1'
              rw [← h1']
              have hnode : node = JSXNode.Text (text_loop st.chars st.pos).1 := by
                have hfst := congrArg Prod.fst htx
                rw [parse_text_fst] at hfst
                exact hfst.symm
              subst hnode
              have hrw := ihc _ _ _ _ hch
              simp [nodes_wf, node_wf, hrw]

theorem pnws_wf (fuel : Nat) (l : List Char) (p : Nat) (node : JSXNode) (a b : Nat)
    (st' : PState)
    (h : parse_next_with_span fuel l p = (some (.ok (node, a, b)), st')) :
    node_wf node = true := by
  induction l generalizing p with
  | nil =>
    rw [pnws_nil] at h
    injection h with h1 h2
    cases h1
  | cons c r ih =>
    simp only [parse_next_with_span] at h
    split_ifs at h with hc h2 h3
    · rcases hfr : parse_fragment fuel ⟨c :: r, p⟩ with ⟨resf, stf⟩
      rw [hfr] at h
      cases resf with
      | ok nf =>
        try simp only [] at h
        injection h with h1 h2'
        injection h1 with h1
        injection h1 with h1
        injection h1 with e1 e2
        rw [← e1]
        exact (parse_trio_wf fuel).2.1 _ _ _ hfr
      | error m =>
        try simp only [] at h
        injection h with h1 h2'
        injection h1 with h1
        cases h1
    · rcases hel : parse_element fuel ⟨c :: r, p⟩ with ⟨rese, ste⟩
      rw [hel] at h
      cases rese with
      | ok ne2 =>
        try simp only [] at h
        injection h with h1 h2'
        injection h1 with h1
        injection h1 with h1
        injection h1 with e1 e2
        rw [← e1]
        exact (parse_trio_wf fuel).1 _ _ _ hel
      | error m =>
        try simp only [] at h
        injection h with h1 h2'
        injection h1 with h1
        cases h1
    · injection h with h1 h2'
      injection h1 with h1
      cases h1
    · exact ih (p + utf8Len c) h

theorem parse_loop_wf (fuel : Nat) (st : PState) (nodes : List JSXNode)
    (errors : List ParseError) (hn : nodes.all node_wf = true) :
    (parse_loop fuel st nodes errors).nodes.all node_wf = true := by
  induction fuel generalizing st nodes errors with
  | zero => exact hn
  | succ fuel ih =>
    simp only [parse_loop]
    rcases hp : parse_next_with_span (2 * st.chars.length + 1) st.chars st.pos with ⟨res, st'⟩
    rcases res with _ | res2
    · try simp only []
      exact hn
    · rcases res2 with e | v
      · try simp only []
        exact ih (bump st') nodes (errors ++ [e]) hn
      · rcases v with ⟨node, a, b⟩
        try simp only []
        refine ih st' (nodes ++ [node]) errors ?_
        have hw := pnws_wf _ _ _ _ _ _ _ hp
        simp [List.all_append, hn, hw]

/-- C9: in every `JSXNode` delivered by `Parser::parse`, every Element tag name and
every attribute name is a non-empty string (`node_wf`); an empty identifier is always
a parse failure (`parse_identifier` only succeeds on a leading alphabetic, `_` or `$`
char) and is never represented in the tree. -/
theorem C9_parse_nodes_wellformed (input : List Char) :
    (parse input).nodes.all node_wf = true :=
  parse_loop_wf (input.length + 1) ⟨input, 0⟩ [] [] rfl

/-! ## The `script` raw-text children (C10) -/

/-- Position-independence of the chars component of `skip_whitespace_aux`. -/
theorem skip_whitespace_aux_chars (l : List Char) (p q : Nat) :
    (skip_whitespace_aux l p).1 = (skip_whitespace_aux l q).1 := by
  induction l generalizing p q with
  | nil => rfl
  | cons c r ih =>
    by_cases hw : rust_is_whitespace c = true
    · simp only [skip_whitespace_aux, hw, if_true]
      exact ih _ _
    · simp [skip_whitespace_aux, hw]

theorem ident_loop_chars (l : List Char) (p q : Nat) :
    (ident_loop l p).1 = (ident_loop l q).1 ∧ (ident_loop l p).2.1 = (ident_loop l q).2.1 := by
  induction l generalizing p q with
  | nil => exact ⟨rfl, rfl⟩
  | cons c r ih =>
    by_cases hc : (rust_is_alphanumeric c || c = UNDERSCORE || c = DOLLAR_SIGN
        || c = HYPHEN || c = DOT) = true
    · have h1 := ih (p + utf8Len c) (q + utf8Len c)
      rcases hr1 : ident_loop r (p + utf8Len c) with ⟨tl1, l1, p1⟩
      rcases hr2 : ident_loop r (q + utf8Len c) with ⟨tl2, l2, p2⟩
      rw [hr1, hr2] at h1
      have e1 : tl1 = tl2 := h1.1
      have e2 : l1 = l2 := h1.2
      constructor <;> simp [ident_loop, hc, hr1, hr2, e1, e2]
    · constructor <;> simp [ident_loop, hc]

theorem parse_identifier_chars (l : List Char) (p q : Nat) :
    (parse_identifier ⟨l, p⟩).1 = (parse_identifier ⟨l, q⟩).1 ∧
    (parse_identifier ⟨l, p⟩).2.chars = (parse_identifier ⟨l, q⟩).2.chars := by
  cases l with
  | nil => exact ⟨rfl, rfl⟩
  | cons c r =>
    by_cases hc : (c.isAlpha || c = UNDERSCORE || c = DOLLAR_SIGN) = true
    · have h1 := ident_loop_chars r (p + utf8Len c) (q + utf8Len c)
      rcases hr1 : ident_loop r (p + utf8Len c) with ⟨tl1, l1, p1⟩
      rcases hr2 : ident_loop r (q + utf8Len c) with ⟨tl2, l2, p2⟩
      rw [hr1, hr2] at h1
      have e1 : tl1 = tl2 := h1.1
      have e2 : l1 = l2 := h1.2
      constructor <;> simp [parse_identifier, hc, hr1, hr2, e1, e2]
    · constructor <;> simp [parse_identifier, hc]

theorem bump_chars_eq (st st' : PState) (hch : st.chars = st'.chars) :
    (bump st).chars = (bump st').chars := by
  rcases st with ⟨l, p⟩
  rcases st' with ⟨l2, q⟩
  simp at hch
  subst hch
  cases l <;> simp [bump]

theorem skip_whitespace_chars_eq (st st' : PState) (hch : st.chars = st'.chars) :
    (skip_whitespace st).chars = (skip_whitespace st').chars := by
  rcases st with ⟨l, p⟩
  rcases st' with ⟨l2, q⟩
  simp at hch
  subst hch
  exact skip_whitespace_aux_chars l p q

theorem parse_identifier_fst_chars (st st' : PState) (hch : st.chars = st'.chars) :
    (parse_identifier st).1 = (parse_identifier st').1 ∧
    (parse_identifier st).2.chars = (parse_identifier st').2.chars := by
  rcases st with ⟨l, p⟩
  rcases st' with ⟨l2, q⟩
  simp at hch
  subst hch
  exact parse_identifier_chars l p q

/-- Whether the char list begins with the whitespace-tolerant `</ script >` closing
tag recognised by the script branch of `Parser::parse_children`. -/
def is_script_close : List Char → Bool
  | [] => false
  | c :: r =>
    decide (c = LEFT_ANGLE) && decide (r.head? = some FORWARD_SLASH) &&
    (let pr := parse_identifier (skip_whitespace (bump (bump ⟨c :: r, 0⟩)))
     (match pr.1 with
      | Except.ok tag => decide (tag = "script".data)
      | Except.error _ => false) &&
     decide (peekC (skip_whitespace pr.2) = some RIGHT_ANGLE))

/-- No suffix of the list starts a script-closing tag. -/
def no_script_close (l : List Char) : Bool :=
  l.tails.all (fun t => !is_script_close t)

theorem no_script_close_cons (c : Char) (r : List Char)
    (h : no_script_close (c :: r) = true) :
    is_script_close (c :: r) = false ∧ no_script_close r = true := by
  rw [no_script_close, List.tails_cons, List.all_cons] at h
  simp only [Bool.and_eq_true, Bool.not_eq_true'] at h
  exact ⟨h.1, h.2⟩

theorem script_loop_no_close (l : List Char) (p : Nat)
    (h : no_script_close l = true) :
    script_loop l p = (l, ([], p + byteLen l)) := by
  induction l generalizing p with
  | nil => simp [script_loop, byteLen]
  | cons c r ih =>
    obtain ⟨h1, h2⟩ := no_script_close_cons c r h
    simp only [script_loop]
    split_ifs with hcond
    · obtain ⟨hc, hr⟩ := hcond
      rcases hpi : parse_identifier (skip_whitespace (bump (bump ⟨c :: r, p⟩)))
        with ⟨res, st2⟩
      have hch2 : (skip_whitespace (bump (bump (⟨c :: r, p⟩ : PState)))).chars =
          (skip_whitespace (bump (bump (⟨c :: r, 0⟩ : PState)))).chars :=
        skip_whitespace_chars_eq _ _ (bump_chars_eq _ _ (bump_chars_eq _ _ rfl))
      have hmain := parse_identifier_fst_chars _ _ hch2
      rw [hpi] at hmain
      cases res with
      | ok tag =>
        try simp only []
        split_ifs with ht hpk
        · exfalso
          have hclose : is_script_close (c :: r) = true := by
            simp only [is_script_close, Bool.and_eq_true, decide_eq_true_eq]
            refine ⟨⟨hc, hr⟩, ?_, ?_⟩
            · rw [← hmain.1]
              try simp only []
              exact decide_eq_true ht
            · have hpe : peekC (skip_whitespace
                  (parse_identifier (skip_whitespace (bump (bump
                    (⟨c :: r, 0⟩ : PState))))).2) = peekC (skip_whitespace st2) := by
                show (skip_whitespace _).chars.head? = (skip_whitespace _).chars.head?
                rw [skip_whitespace_chars_eq _ _ hmain.2]
              rw [hpe]
              exact hpk
          rw [hclose] at h1
          cases h1
        · rw [ih _ h2]
          simp [byteLen, Nat.add_assoc]
        · rw [ih _ h2]
          simp [byteLen, Nat.add_assoc]
      | error m =>
        try simp only []
        rw [ih _ h2]
        simp [byteLen, Nat.add_assoc]
    · rw [ih _ h2]
      simp [byteLen, Nat.add_assoc]

/-- C10 (amended): the children of a `script` element are always exactly one Text
node, and `parse_children` on a script parent always succeeds (never `Unclosed tag`).
When the remaining input contains no whitespace-tolerant closing tag
`</ script >` at any position (`no_script_close`), the whole remaining input is
consumed and becomes the Text child.  (The original claim's side condition — no
literal `</script>` substring — is too weak: the closer tolerates interior
whitespace, see the counterexample.) -/
theorem C10_script_children_amended :
    (∀ (fuel : Nat) (st : PState),
        parse_children (fuel + 1) ("script".data) st =
          (.ok [JSXNode.Text (script_loop st.chars st.pos).1],
           ⟨(script_loop st.chars st.pos).2.1, (script_loop st.chars st.pos).2.2⟩)) ∧
    (∀ (l : List Char) (p : Nat), no_script_close l = true →
        script_loop l p = (l, ([], p + byteLen l))) ∧
    (∀ (fuel : Nat) (st : PState), no_script_close st.chars = true →
        parse_children (fuel + 1) ("script".data) st =
          (.ok [JSXNode.Text st.chars], ⟨[], st.pos + byteLen st.chars⟩)) ∧
    parse "<script>var x = 1;".data =
      ⟨[JSXNode.Element ("script".data) [] [JSXNode.Text "var x = 1;".data]], []⟩ := by
  have hfst : ∀ (fuel : Nat) (st : PState),
      parse_children (fuel + 1) ("script".data) st =
        (.ok [JSXNode.Text (script_loop st.chars st.pos).1],
         ⟨(script_loop st.chars st.pos).2.1, (script_loop st.chars st.pos).2.2⟩) := by
    intro fuel st
    simp [parse_children]
  refine ⟨hfst, fun l p h => script_loop_no_close l p h, ?_, rfl⟩
  intro fuel st h
  rw [hfst fuel st, script_loop_no_close st.chars st.pos h]

/-- C10 counterexample to the original side condition: `"a</ script>b"` contains no
literal `"</script>"` substring, yet the whitespace-tolerant closer `</ script>` ends
the script's raw text after `"a"` — the element does not consume all remaining input
and the Text child is not all the text after the opening tag. -/
theorem C10_script_close_counterexample :
    containsSeq ("</script>".data) ("a</ script>b".data) = false ∧
    parse_children 1 ("script".data) ⟨"a</ script>b".data, 0⟩ =
      (.ok [JSXNode.Text "a".data], ⟨"b".data, 11⟩) ∧
    "a".data ≠ "a</ script>b".data :=
  ⟨by decide, rfl, by decide⟩

theorem C10_script_children_amended_witness :
    parse_children (0 + 1) ("script".data) ⟨"xy".data, 0⟩ =
      (.ok [JSXNode.Text ("xy".data)], ⟨[], 0 + byteLen ("xy".data)⟩) :=
  C10_script_children_amended.2.2.1 0 ⟨"xy".data, 0⟩ (by decide)

/-- C6 (amended): a spread attribute (no value, name starting `...`) on an
Element/WebComponent/Void tag renders as `${__jsxSpread(E)}` where `E` is the
attribute name with EVERY occurrence of `...` removed (`str::replace`), not just
the leading one; on a Component tag it renders as the name in braces.  The rendered
spread is placed directly in the tag's attribute position with no surrounding
quotes and no leading space, shown by the end-to-end examples. -/
theorem C6_spread_attribute_amended :
    (∀ name : List Char, ("...".data).isPrefixOf name = true →
        transform_attribute ⟨name, none⟩ TagType.Element =
            "$\x7b__jsxSpread(".data ++ replaceAll ("...".data) [] name ++ ")\x7d".data ∧
        transform_attribute ⟨name, none⟩ TagType.WebComponent =
            "$\x7b__jsxSpread(".data ++ replaceAll ("...".data) [] name ++ ")\x7d".data ∧
        transform_attribute ⟨name, none⟩ TagType.Void =
            "$\x7b__jsxSpread(".data ++ replaceAll ("...".data) [] name ++ ")\x7d".data ∧
        transform_attribute ⟨name, none⟩ TagType.Component =
            "\x7b".data ++ name ++ "\x7d".data) ∧
    jsx_transformer "<input \x7b...spreadProps\x7d />".data =
      .ok "`<input$\x7b__jsxSpread(spreadProps)\x7d/>`".data ∧
    jsx_transformer "<Component \x7b...props\x7d>x</Component>".data =
      .ok "`$\x7b__jsxComponent(Component, [\x7b...props\x7d], `x`)\x7d`".data := by
  refine ⟨?_, rfl, rfl⟩
  intro name h
  refine ⟨?_, ?_, ?_, ?_⟩ <;> simp [transform_attribute, h]

/-- C6 counterexample: for the spread attribute `\x7b...(f(...a))\x7d` the
expression text is `(f(...a))`, but the rendered form strips the inner `...` as
well: `str::replace` removes every occurrence, so the output is
`${__jsxSpread((f(a)))}` and not `${__jsxSpread((f(...a)))}`. -/
theorem C6_spread_counterexample :
    transform_attribute ⟨"...(f(...a))".data, none⟩ TagType.Element =
      "$\x7b__jsxSpread((f(a)))\x7d".data ∧
    transform_attribute ⟨"...(f(...a))".data, none⟩ TagType.Element ≠
      "$\x7b__jsxSpread(".data ++ "(f(...a))".data ++ ")\x7d".data :=
  ⟨by decide, by decide⟩

theorem C6_spread_attribute_amended_witness :
    transform_attribute ⟨"...props".data, none⟩ TagType.Element =
        "$\x7b__jsxSpread(".data ++ replaceAll ("...".data) [] ("...props".data)
          ++ ")\x7d".data ∧
    transform_attribute ⟨"...props".data, none⟩ TagType.WebComponent =
        "$\x7b__jsxSpread(".data ++ replaceAll ("...".data) [] ("...props".data)
          ++ ")\x7d".data ∧
    transform_attribute ⟨"...props".data, none⟩ TagType.Void =
        "$\x7b__jsxSpread(".data ++ replaceAll ("...".data) [] ("...props".data)
          ++ ")\x7d".data ∧
    transform_attribute ⟨"...props".data, none⟩ TagType.Component =
        "\x7b".data ++ "...props".data ++ "\x7d".data :=
  C6_spread_attribute_amended.1 ("...props".data) (by decide)

/-- C2: for every Component-classified tag (first char uppercase, `_` or `$`), the
popped frame renders as `${__jsxComponent(Tag, [attrs], \`children\`)}` when the
rendered children string is non-empty and as `${__jsxComponent(Tag, [attrs])}` with
the children argument omitted entirely when it is empty; end-to-end,
`<Component/>` becomes `` `${__jsxComponent(Component, [])}` ``. -/
theorem C2_component_children_argument :
    (∀ (c : Char) (rest : List Char),
        (rust_is_uppercase c || c = UNDERSCORE || c = DOLLAR_SIGN) = true →
        classify_tag (c :: rest) = TagType.Component) ∧
    (∀ (tag attr_parts : List Char) (b : TemplateBuilder),
        (b.finalize = [] →
          render_component tag attr_parts b =
            "$\x7b__jsxComponent(".data ++ tag ++ ", ".data ++ attr_parts
              ++ ")\x7d".data) ∧
        (b.finalize ≠ [] →
          render_component tag attr_parts b =
            "$\x7b__jsxComponent(".data ++ tag ++ ", ".data ++ attr_parts ++ ", ".data
              ++ [backtick] ++ trimChars b.finalize ++ [backtick] ++ ")\x7d".data)) ∧
    jsx_transformer "<Component/>".data =
      .ok "`$\x7b__jsxComponent(Component, [])\x7d`".data ∧
    jsx_transformer "<Component>x</Component>".data =
      .ok "`$\x7b__jsxComponent(Component, [], `x`)\x7d`".data := by
  refine ⟨?_, ?_, rfl, rfl⟩
  · intro c rest h
    simp [classify_tag, h]
  · intro tag attr_parts b
    constructor <;> intro h <;> simp [render_component, h]

theorem C2_component_children_argument_witness :
    render_component ("A".data) ("[]".data) ⟨[]⟩ =
        "$\x7b__jsxComponent(".data ++ "A".data ++ ", ".data ++ "[]".data
          ++ ")\x7d".data ∧
    render_component ("A".data) ("[]".data) ⟨"x".data⟩ =
        "$\x7b__jsxComponent(".data ++ "A".data ++ ", ".data ++ "[]".data ++ ", ".data
          ++ [backtick] ++ trimChars (TemplateBuilder.finalize ⟨"x".data⟩) ++ [backtick]
          ++ ")\x7d".data :=
  ⟨(C2_component_children_argument.2.1 ("A".data) ("[]".data) ⟨[]⟩).1 (by decide),
   (C2_component_children_argument.2.1 ("A".data) ("[]".data) ⟨"x".data⟩).2 (by decide)⟩

theorem trimChars_stable (l : List Char)
    (hh : ∀ c, l.head? = some c → rust_is_whitespace c = false)
    (hl : ∀ c, l.getLast? = some c → rust_is_whitespace c = false) :
    trimChars l = l := by
  cases l with
  | nil => rfl
  | cons c r =>
    have hc := hh c rfl
    simp only [trimChars, List.dropWhile_cons, hc, Bool.false_eq_true, if_false]
    rcases hrev : (c :: r).reverse with _ | ⟨d, m⟩
    · simp at hrev
    · have hd : (c :: r).getLast? = some d := by
        rw [← List.head?_reverse, hrev]
        rfl
      have hdw := hl d hd
      rw [List.dropWhile_cons, hdw]
      simp only [Bool.false_eq_true, if_false]
      rw [← hrev, List.reverse_reverse]

/-- C7 (amended): trivial-template flattening is idempotent only for benign values.
If `value` yields exactly one `${` occurrence inside `` `${value}` `` (no nested
interpolation), is not itself a flattenable backtick template — with the extractor
returning rather than panicking on `value`, which excludes the lone-backtick value
on which the source aborts — and does not trigger the list-wrapper heuristic, then
rendering the expression `` `${value}` `` and rendering bare `value` both append
exactly `${value}`.  The hypotheses are necessary: see the counterexample for
values violating them and for the reachable panic. -/
theorem C7_flatten_amended (b : TemplateBuilder) (value : List Char)
    (hcount : countSeq ("$\x7b".data) ("$\x7b".data ++ value ++ "\x7d".data) = 1)
    (hext : extract_single_expr_from_backtick value = some none)
    (hnl : needs_list_wrapper value = false) :
    TemplateBuilder.push_expr b
        (backtick :: ("$\x7b".data ++ value ++ "\x7d".data ++ [backtick])) =
      ⟨b.out ++ "$\x7b".data ++ value ++ "\x7d".data⟩ ∧
    TemplateBuilder.push_expr b value =
      ⟨b.out ++ "$\x7b".data ++ value ++ "\x7d".data⟩ := by
  have hXlast : ("$\x7b".data ++ value ++ "\x7d".data).getLast? = some RIGHT_BRACE := by
    rw [show "$\x7b".data ++ value ++ "\x7d".data =
        ("$\x7b".data ++ value) ++ [RIGHT_BRACE] from by rw [List.append_assoc]; rfl]
    exact List.getLast?_concat _
  have hXtrim : trimChars ("$\x7b".data ++ value ++ "\x7d".data) =
      "$\x7b".data ++ value ++ "\x7d".data := by
    apply trimChars_stable
    · intro c hc
      rw [show ("$\x7b".data ++ value ++ "\x7d".data).head? = some '$' from rfl] at hc
      injection hc with hc
      subst hc
      decide
    · intro c hc
      rw [hXlast] at hc
      injection hc with hc
      subst hc
      decide
  have hXpre : ("$\x7b".data).isPrefixOf ("$\x7b".data ++ value ++ "\x7d".data) = true := by
    rw [List.isPrefixOf_iff_prefix]
    exact ⟨value ++ "\x7d".data, by rw [List.append_assoc]⟩
  have hXdrop : (("$\x7b".data ++ value ++ "\x7d".data).drop 2).dropLast = value := by
    rw [show "$\x7b".data ++ value ++ "\x7d".data =
        "$\x7b".data ++ (value ++ [RIGHT_BRACE]) from by rw [List.append_assoc]; rfl]
    rw [show (2 : Nat) = ("$\x7b".data).length from rfl, List.drop_left]
    exact List.dropLast_concat
  have hexpr : backtick :: ("$\x7b".data ++ value ++ "\x7d".data ++ [backtick]) =
      (backtick :: ("$\x7b".data ++ value ++ "\x7d".data)) ++ [backtick] := by
    simp
  have hstable : trimChars (backtick :: ("$\x7b".data ++ value ++ "\x7d".data ++ [backtick])) =
      backtick :: ("$\x7b".data ++ value ++ "\x7d".data ++ [backtick]) := by
    apply trimChars_stable
    · intro c hc
      rw [List.head?_cons] at hc
      injection hc with hc
      subst hc
      decide
    · intro c hc
      rw [hexpr, List.getLast?_concat] at hc
      injection hc with hc
      subst hc
      decide
  have haff : (backtick :: ("$\x7b".data ++ value ++ "\x7d".data ++ [backtick])).head? =
        some backtick ∧
      (backtick :: ("$\x7b".data ++ value ++ "\x7d".data ++ [backtick])).getLast? =
        some backtick := by
    refine ⟨rfl, ?_⟩
    rw [hexpr]
    exact List.getLast?_concat _
  have hlen : ¬((backtick :: ("$\x7b".data ++ value ++ "\x7d".data ++ [backtick])).length
      < 2) := by
    simp only [List.length_cons, List.length_append, List.length_nil]
    omega
  have hdrop1 : ((backtick :: ("$\x7b".data ++ value ++ "\x7d".data ++ [backtick])).drop
      1).dropLast = "$\x7b".data ++ value ++ "\x7d".data := by
    rw [show (backtick :: ("$\x7b".data ++ value ++ "\x7d".data ++ [backtick])).drop 1 =
        ("$\x7b".data ++ value ++ "\x7d".data) ++ [backtick] from rfl]
    exact List.dropLast_concat
  have hextr : extract_single_expr_from_backtick
      (backtick :: ("$\x7b".data ++ value ++ "\x7d".data ++ [backtick])) =
        some (some value) := by
    simp only [extract_single_expr_from_backtick, hstable]
    rw [if_pos haff, if_neg hlen, hdrop1, hXtrim, if_pos ⟨hXpre, hXlast, hcount⟩, hXdrop]
  constructor
  · simp only [TemplateBuilder.push_expr, hextr]
  · simp only [TemplateBuilder.push_expr, hext, hnl, Bool.false_eq_true, if_false]

/-- C7 counterexample: for `value = "x${y}"` the template `` `${x${y}}` `` is NOT
flattened (two `${` occurrences), so its rendering differs from `${value}`; for
`value = "a.map(x)"` the template form flattens to `${a.map(x)}` while the bare
value renders as `${__jsxList(a.map(x))}` — the two renderings differ; and for
the lone-backtick value the source does not render at all: the extractor hits
its out-of-bounds slice `&s[1..0]` (Rust panics), and that value is reachable —
parsing `<div>{`}</div>` succeeds with the single child `Expression "`"`, whose
text the transformer hands to `push_expr`. -/
theorem C7_flatten_counterexample :
    TemplateBuilder.push_expr ⟨[]⟩ ("`$\x7bx$\x7by\x7d\x7d`".data) ≠
      (⟨"$\x7bx$\x7by\x7d\x7d".data⟩ : TemplateBuilder) ∧
    TemplateBuilder.push_expr ⟨[]⟩ ("`$\x7ba.map(x)\x7d`".data) ≠
      TemplateBuilder.push_expr ⟨[]⟩ ("a.map(x)".data) ∧
    extract_single_expr_from_backtick [backtick] = none ∧
    (parse "<div>\x7b`\x7d</div>".data).nodes =
      [JSXNode.Element "div".data [] [JSXNode.Expression [backtick]]] ∧
    (parse "<div>\x7b`\x7d</div>".data).errors = [] :=
  ⟨by decide, by decide, by decide, rfl, by decide⟩

theorem C7_flatten_amended_witness :
    TemplateBuilder.push_expr ⟨[]⟩
        (backtick :: ("$\x7b".data ++ "y".data ++ "\x7d".data ++ [backtick])) =
      ⟨([] : List Char) ++ "$\x7b".data ++ "y".data ++ "\x7d".data⟩ ∧
    TemplateBuilder.push_expr ⟨[]⟩ ("y".data) =
      ⟨([] : List Char) ++ "$\x7b".data ++ "y".data ++ "\x7d".data⟩ :=
  C7_flatten_amended ⟨[]⟩ ("y".data) (by decide) (by decide) (by decide)

theorem driver_finish_ok (input : List Char) (cursor : Nat) (out o : List Char)
    (errors errs : List (List Char))
    (h : driver_finish input cursor out errors = (.ok o, errs)) :
    errors = [] ∧ errs = [] := by
  simp only [driver_finish] at h
  split_ifs at h with he
  · injection h with h1 h2
    cases h1
  · injection h with h1 h2
    subst h2
    have hne : errors = [] := by simpa using he
    exact ⟨hne, hne⟩

theorem driver_loop_ok_no_errors
    (T : JSXNode → Except JSXError (List Char)) (input : List Char) (fuel : Nat) :
    ∀ (cursor i : Nat) (out o : List Char) (errors errs : List (List Char)),
      driver_loop T input fuel cursor i out errors = (.ok o, errs) →
      errors = [] ∧ errs = [] := by
  induction fuel with
  | zero =>
    intro cursor i out o errors errs h
    simp only [driver_loop] at h
    injection h with h1 h2
    cases h1
  | succ fuel ih =>
    intro cursor i out o errors errs h
    simp only [driver_loop] at h
    split_ifs at h with hlen
    · rcases hbf : byteFindChar LEFT_ANGLE (byteDrop i input) with _ | rel
      · rw [hbf] at h
        try simp only [] at h
        exact driver_finish_ok _ _ _ _ _ _ h
      · rw [hbf] at h
        try simp only [] at h
        rcases hp : parse_next_with_span (2 * (byteDrop (i + rel) input).length + 1)
            (byteDrop (i + rel) input) 0 with ⟨res, st'⟩
        rw [hp] at h
        rcases res with _ | res2
        · try simp only [] at h
          exact driver_finish_ok _ _ _ _ _ _ h
        · rcases res2 with e | v
          · try simp only [] at h
            obtain ⟨habs, _⟩ := ih _ _ _ _ _ _ h
            simp at habs
          · rcases v with ⟨ast, startp, endp⟩
            try simp only [] at h
            rcases ht : T ast with e2 | template
            · rw [ht] at h
              try simp only [] at h
              injection h with h1 h2
              cases h1
            · rw [ht] at h
              try simp only [] at h
              exact ih _ _ _ _ _ _ h
    · exact driver_finish_ok _ _ _ _ _ _ h

/-- C1 (amended): whenever the driver pass has collected at least one parse-level
diagnostic, `driver_finish` fails with `ParsingError` carrying the newline-joined
diagnostics, whose display text is that list prefixed with `JSX parsing error: `;
a success (`Ok` with a transformed string) is only ever returned with an empty
collected-diagnostics list, so no partial output escapes.  However, when a NESTED
transform of an embedded expression fails, that nested error is propagated as-is
(see the counterexample), so the display text is not always the outer collected
list. -/
theorem C1_driver_error_aggregation_amended :
    (∀ (input : List Char) (cursor : Nat) (out : List Char) (errors : List (List Char)),
        errors ≠ [] →
        driver_finish input cursor out errors =
          (.error (JSXError.ParsingError (joinSep ("\n".data) errors)), errors)) ∧
    (∀ m : List Char,
        JSXError.display (JSXError.ParsingError m) = "JSX parsing error: ".data ++ m) ∧
    (∀ (T : JSXNode → Except JSXError (List Char)) (input : List Char)
        (fuel cursor i : Nat) (out o : List Char) (errors errs : List (List Char)),
        driver_loop T input fuel cursor i out errors = (.ok o, errs) →
        errors = [] ∧ errs = []) ∧
    jsx_transformer ("<%".data) =
      .error (JSXError.ParsingError
        ("  --> input:1:1\n  |\n1 | <%\n  | ^^\n  |\n  = note: Expected identifier\n".data)) := by
  refine ⟨?_, fun m => rfl, ?_, rfl⟩
  · intro input cursor out errors he
    simp only [driver_finish, if_pos he]
  · intro T input fuel cursor i out o errors errs h
    exact driver_loop_ok_no_errors T input fuel cursor i out o errors errs h

/-- C1 counterexample: on `"<% <div>\x7b<%\x7d</div>"` the driver collects a
top-level diagnostic for the leading `<%`, then the embedded expression `\x7b<%\x7d`
fails its nested transform; the entry point returns that nested error, whose
message is NOT the newline-join of the collected diagnostics. -/
theorem C1_driver_error_display_counterexample :
    (driver_loop
        (fun ast => transform_to_template (fun e => jsx_transformer_fuel 18 e) ast)
        (remove_jsx_comments_full ("<% <div>\x7b<%\x7d</div>".data))
        (byteLen (remove_jsx_comments_full ("<% <div>\x7b<%\x7d</div>".data)) + 1)
        0 0 [] []).2 ≠ [] ∧
    jsx_transformer ("<% <div>\x7b<%\x7d</div>".data) =
      .error (JSXError.ParsingError
        ("  --> input:1:1\n  |\n1 | <%\n  | ^^\n  |\n  = note: Expected identifier\n".data)) ∧
    ("  --> input:1:1\n  |\n1 | <%\n  | ^^\n  |\n  = note: Expected identifier\n".data) ≠
      joinSep ("\n".data)
        (driver_loop
          (fun ast => transform_to_template (fun e => jsx_transformer_fuel 18 e) ast)
          (remove_jsx_comments_full ("<% <div>\x7b<%\x7d</div>".data))
          (byteLen (remove_jsx_comments_full ("<% <div>\x7b<%\x7d</div>".data)) + 1)
          0 0 [] []).2 :=
  ⟨by decide, rfl, by decide⟩

theorem C1_driver_error_aggregation_amended_witness :
    driver_finish ("a".data) 0 [] ["x".data] =
      (.error (JSXError.ParsingError (joinSep ("\n".data) ["x".data])), ["x".data]) :=
  C1_driver_error_aggregation_amended.1 ("a".data) 0 [] ["x".data] (by decide)

/-! ## Positional characterisation of `needs_list_wrapper` (C3) -/

/-- The list-method trigger examined by `needs_list_wrapper` after a `.` / `?.`:
allow-list identifier immediately followed (after optional whitespace) by `(` or
`?.(`. -/
def dot_trigger (l : List Char) : Bool :=
  is_call_ahead (read_call_ident l).2 && LIST_METHODS.contains (read_call_ident l).1

/-- The quote/template/escape state transition of the source's scan: the escape
flag is set by a backslash anywhere (also outside quoted regions). -/
def nlw_fold : (Bool × Bool × Bool × Bool) → Char → (Bool × Bool × Bool × Bool)
  | (sq, dq, tm, esc), ch =>
    if esc then (sq, dq, tm, false)
    else if ch = '\\' then (sq, dq, tm, true)
    else if ch = SINGLE_QUOTE ∧ ¬dq ∧ ¬tm then (!sq, dq, tm, false)
    else if ch = DOUBLE_QUOTE ∧ ¬sq ∧ ¬tm then (sq, !dq, tm, false)
    else if ch = backtick ∧ ¬sq ∧ ¬dq then (sq, dq, !tm, false)
    else (sq, dq, tm, false)

/-- The state transition following the claim's words: escapes only exist inside
quoted regions. -/
def claim_fold : (Bool × Bool × Bool × Bool) → Char → (Bool × Bool × Bool × Bool)
  | (sq, dq, tm, esc), ch =>
    if esc then (sq, dq, tm, false)
    else if (sq ∨ dq ∨ tm) ∧ ch = '\\' then (sq, dq, tm, true)
    else if ch = SINGLE_QUOTE ∧ ¬dq ∧ ¬tm then (!sq, dq, tm, false)
    else if ch = DOUBLE_QUOTE ∧ ¬sq ∧ ¬tm then (sq, !dq, tm, false)
    else if ch = backtick ∧ ¬sq ∧ ¬dq then (sq, dq, !tm, false)
    else (sq, dq, tm, false)

/-- Positional scan: the wrapper fires iff at some position, with scan state
all-clear, an (unescaped) `.` or `?.` is followed by an allow-list method call. -/
def pos_scan (fold : (Bool × Bool × Bool × Bool) → Char → (Bool × Bool × Bool × Bool)) :
    Nat → (Bool × Bool × Bool × Bool) → List Char → Bool
  | 0, _, _ => false
  | _ + 1, _, [] => false
  | fuel + 1, st, ch :: rest =>
    (decide (st = (false, false, false, false)) &&
      ((decide (ch = DOT) && dot_trigger rest) ||
       (decide (ch = '?') && decide (rest.head? = some DOT) && dot_trigger rest.tail)))
    || pos_scan fold fuel (fold st ch) rest

/-- The wrapper predicate exactly as the claim words it (spec-modelled, for
comparison with the source's `needs_list_wrapper`). -/
def claimed_list_wrapper (s : List Char) : Bool :=
  pos_scan claim_fold s.length (false, false, false, false) s

theorem read_call_ident_append (l : List Char) :
    (read_call_ident l).1 ++ (read_call_ident l).2 = l := by
  rcases l with _ | ⟨c, r⟩
  · rfl
  · by_cases hs : nlw_ident_start c = true
    · simp [read_call_ident, hs, List.takeWhile_append_dropWhile]
    · simp [read_call_ident, hs]

theorem nlw_ident_start_part (c : Char) (h : nlw_ident_start c = true) :
    nlw_ident_part c = true := by
  simp only [nlw_ident_start, nlw_ident_part, Char.isAlphanum, Bool.or_eq_true] at h ⊢
  tauto

theorem read_call_ident_parts (l : List Char) :
    ∀ c ∈ (read_call_ident l).1, nlw_ident_part c = true := by
  rcases l with _ | ⟨c, r⟩
  · intro c hc
    cases hc
  · by_cases hs : nlw_ident_start c = true
    · simp only [read_call_ident, hs, if_true]
      intro d hd
      rcases List.mem_cons.mp hd with hd1 | hd2
      · rw [hd1]
        exact nlw_ident_start_part c hs
      · exact List.mem_takeWhile_imp hd2
    · simp [read_call_ident, hs]

theorem nlw_ident_part_not_special (c : Char) (h : nlw_ident_part c = true) :
    c ≠ DOT ∧ c ≠ '?' ∧ c ≠ '\\' ∧ c ≠ SINGLE_QUOTE ∧ c ≠ DOUBLE_QUOTE ∧ c ≠ backtick := by
  refine ⟨?_, ?_, ?_, ?_, ?_, ?_⟩ <;> (rintro rfl; exact absurd h (by decide))

theorem nlw_fold_ident (c : Char) (h : nlw_ident_part c = true) :
    nlw_fold (false, false, false, false) c = (false, false, false, false) := by
  obtain ⟨h1, h2, h3, h4, h5, h6⟩ := nlw_ident_part_not_special c h
  simp [nlw_fold, h3, h4, h5, h6]

theorem pos_scan_chunk (chunk : List Char)
    (hch : ∀ c ∈ chunk, nlw_ident_part c = true) :
    ∀ (tl : List Char) (f : Nat), (chunk ++ tl).length ≤ f →
    pos_scan nlw_fold f (false, false, false, false) (chunk ++ tl) =
      pos_scan nlw_fold (f - chunk.length) (false, false, false, false) tl := by
  induction chunk with
  | nil =>
    intro tl f hf
    simp
  | cons c ch' ih =>
    intro tl f hf
    have hc := hch c (List.mem_cons_self c ch')
    obtain ⟨hn1, hn2, _, _, _, _⟩ := nlw_ident_part_not_special c hc
    rcases f with _ | g
    · simp at hf
    have hfold := nlw_fold_ident c hc
    have hlen : (ch' ++ tl).length ≤ g := by
      simp at hf ⊢
      omega
    have hih := ih (fun d hd => hch d (List.mem_cons_of_mem c hd)) tl g hlen
    have harith : g + 1 - (c :: ch').length = g - ch'.length := by
      simp
    simp only [List.cons_append, pos_scan, hfold, hih, harith]
    simp [hn1, hn2]
    exact hih

set_option maxHeartbeats 2000000 in
theorem nlw_loop_eq_pos (n : Nat) :
    ∀ (l : List Char), l.length ≤ n → ∀ (f1 f2 : Nat), l.length ≤ f1 → l.length ≤ f2 →
      ∀ (sq dq tm esc : Bool),
      nlw_loop f1 sq dq tm esc l = pos_scan nlw_fold f2 (sq, dq, tm, esc) l := by
  induction n with
  | zero =>
    intro l hl f1 f2 hf1 hf2 sq dq tm esc
    have hnil : l = [] := List.length_eq_zero.mp (Nat.le_zero.mp hl)
    subst hnil
    cases f1 <;> cases f2 <;> rfl
  | succ n ih =>
    intro l hl f1 f2 hf1 hf2 sq dq tm esc
    rcases l with _ | ⟨ch, rest⟩
    · cases f1 <;> cases f2 <;> rfl
    rcases f1 with _ | g1
    · simp at hf1
    rcases f2 with _ | g2
    · simp at hf2
    have hr1 : rest.length ≤ g1 := by simp at hf1; omega
    have hr2 : rest.length ≤ g2 := by simp at hf2; omega
    have hrn : rest.length ≤ n := by simp at hl; omega
    simp only [nlw_loop, pos_scan]
    split_ifs with h1 h2 h3 h4 h5 h6 h7 h8 h9 h10 h11
    · -- escape pending
      subst h1
      have hfold : nlw_fold (sq, dq, tm, true) ch = (sq, dq, tm, false) := by
        simp [nlw_fold]
      rw [hfold]
      have hT : (decide (((sq, dq, tm, true) : Bool × Bool × Bool × Bool) =
          (false, false, false, false))) = false := by simp
      rw [hT]
      simp only [Bool.false_and, Bool.false_or]
      exact ih rest hrn g1 g2 hr1 hr2 sq dq tm false
    · -- backslash: set escape
      have hesc : esc = false := by simpa using h1
      subst hesc
      subst h2
      have hfold : nlw_fold (sq, dq, tm, false) '\\' = (sq, dq, tm, true) := by
        simp [nlw_fold]
      rw [hfold]
      have hT : ((decide (('\\' : Char) = DOT) && dot_trigger rest) ||
          (decide (('\\' : Char) = '?') && decide (rest.head? = some DOT) &&
            dot_trigger rest.tail)) = false := by
        simp <;> first
          | (constructor <;> (intro hx; exact absurd hx (by decide)))
          | (intro hx; exact absurd hx (by decide))
      rw [hT]
      simp only [Bool.and_false, Bool.false_or]
      exact ih rest hrn g1 g2 hr1 hr2 sq dq tm true
    · -- single quote toggle
      have hesc : esc = false := by simpa using h1
      subst hesc
      obtain ⟨hch, hdq, htm⟩ := h3
      subst hch
      have hfold : nlw_fold (sq, dq, tm, false) SINGLE_QUOTE = (!sq, dq, tm, false) := by
        simp [nlw_fold, hdq, htm, h2]
      rw [hfold]
      have hT : ((decide ((SINGLE_QUOTE : Char) = DOT) && dot_trigger rest) ||
          (decide ((SINGLE_QUOTE : Char) = '?') && decide (rest.head? = some DOT) &&
            dot_trigger rest.tail)) = false := by
        simp <;> first
          | (constructor <;> (intro hx; exact absurd hx (by decide)))
          | (intro hx; exact absurd hx (by decide))
      rw [hT]
      simp only [Bool.and_false, Bool.false_or]
      exact ih rest hrn g1 g2 hr1 hr2 (!sq) dq tm false
    · -- double quote toggle
      have hesc : esc = false := by simpa using h1
      subst hesc
      obtain ⟨hch, hsq, htm⟩ := h4
      subst hch
      have hfold : nlw_fold (sq, dq, tm, false) DOUBLE_QUOTE = (sq, !dq, tm, false) := by
        simp [nlw_fold, hsq, htm, h2, h3,
          (by decide : ¬((DOUBLE_QUOTE : Char) = SINGLE_QUOTE))]
      rw [hfold]
      have hT : ((decide ((DOUBLE_QUOTE : Char) = DOT) && dot_trigger rest) ||
          (decide ((DOUBLE_QUOTE : Char) = '?') && decide (rest.head? = some DOT) &&
            dot_trigger rest.tail)) = false := by
        simp <;> first
          | (constructor <;> (intro hx; exact absurd hx (by decide)))
          | (intro hx; exact absurd hx (by decide))
      rw [hT]
      simp only [Bool.and_false, Bool.false_or]
      exact ih rest hrn g1 g2 hr1 hr2 sq (!dq) tm false
    · -- backtick toggle
      have hesc : esc = false := by simpa using h1
      subst hesc
      obtain ⟨hch, hsq, hdq⟩ := h5
      subst hch
      have hfold : nlw_fold (sq, dq, tm, false) backtick = (sq, dq, !tm, false) := by
        simp [nlw_fold, hsq, hdq, h2, h3, h4,
          (by decide : ¬((backtick : Char) = SINGLE_QUOTE)),
          (by decide : ¬((backtick : Char) = DOUBLE_QUOTE))]
      rw [hfold]
      have hT : ((decide ((backtick : Char) = DOT) && dot_trigger rest) ||
          (decide ((backtick : Char) = '?') && decide (rest.head? = some DOT) &&
            dot_trigger rest.tail)) = false := by
        simp <;> first
          | (constructor <;> (intro hx; exact absurd hx (by decide)))
          | (intro hx; exact absurd hx (by decide))
      rw [hT]
      simp only [Bool.and_false, Bool.false_or]
      exact ih rest hrn g1 g2 hr1 hr2 sq dq (!tm) false
    · -- inside a quoted region: skip
      have hesc : esc = false := by simpa using h1
      subst hesc
      have hfold : nlw_fold (sq, dq, tm, false) ch = (sq, dq, tm, false) := by
        simp only [nlw_fold, Bool.false_eq_true, if_false]
        split_ifs
        rfl
      rw [hfold]
      have hT : (decide (((sq, dq, tm, false) : Bool × Bool × Bool × Bool) =
          (false, false, false, false))) = false := by
        rcases h6 with h | h | h <;> simp [h]
      rw [hT]
      simp only [Bool.false_and, Bool.false_or]
      exact ih rest hrn g1 g2 hr1 hr2 sq dq tm false
    · -- '.' with a triggering method call
      have hesc : esc = false := by simpa using h1
      subst hesc
      simp only [not_or, Bool.not_eq_true] at h6
      obtain ⟨hsq, hdq, htm⟩ := h6
      subst hsq; subst hdq; subst htm
      subst h7
      have hdt : dot_trigger rest = true := by
        simp [dot_trigger, h8.1]
        simpa using h8.2
      simp [hdt]
    · -- '.' without a trigger: the scan jumps over the identifier chunk
      have hesc : esc = false := by simpa using h1
      subst hesc
      simp only [not_or, Bool.not_eq_true] at h6
      obtain ⟨hsq, hdq, htm⟩ := h6
      subst hsq; subst hdq; subst htm
      subst h7
      have hdt : dot_trigger rest = false := by
        rcases hAB : dot_trigger rest with _ | _
        · rfl
        · exact absurd (by simpa [dot_trigger, Bool.and_eq_true] using hAB) h8
      have hfold : nlw_fold (false, false, false, false) DOT =
          (false, false, false, false) := by decide
      rw [hfold, hdt]
      have hT : ((decide ((DOT : Char) = DOT) && false) ||
          (decide ((DOT : Char) = '?') && decide (rest.head? = some DOT) &&
            dot_trigger rest.tail)) = false := by
        simp <;> first
          | (constructor <;> (intro hx; exact absurd hx (by decide)))
          | (intro hx; exact absurd hx (by decide))
      rw [hT]
      simp only [Bool.and_false, Bool.false_or]
      have hsplit := read_call_ident_append rest
      have hparts := read_call_ident_parts rest
      have hlen2 : (read_call_ident rest).1.length + (read_call_ident rest).2.length =
          rest.length := by
        have := congrArg List.length hsplit
        simpa using this
      conv_rhs => rw [← hsplit]
      rw [pos_scan_chunk (read_call_ident rest).1 hparts (read_call_ident rest).2 g2
        (by rw [hsplit]; exact hr2)]
      exact ih (read_call_ident rest).2 (by omega) g1 (g2 - (read_call_ident rest).1.length)
        (by omega) (by omega) false false false false
    · -- '?.' with a triggering method call
      have hesc : esc = false := by simpa using h1
      subst hesc
      simp only [not_or, Bool.not_eq_true] at h6
      obtain ⟨hsq, hdq, htm⟩ := h6
      subst hsq; subst hdq; subst htm
      subst h9
      have hdt : dot_trigger rest.tail = true := by
        simp [dot_trigger, h11.1]
        simpa using h11.2
      simp [hdt, h10]
    · -- '?.' without a trigger
      have hesc : esc = false := by simpa using h1
      subst hesc
      simp only [not_or, Bool.not_eq_true] at h6
      obtain ⟨hsq, hdq, htm⟩ := h6
      subst hsq; subst hdq; subst htm
      subst h9
      rcases rest with _ | ⟨d, tl⟩
      · simp [List.head?] at h10
      have hd : d = DOT := by
        simp [List.head?] at h10
        exact h10
      subst hd
      have hdt : dot_trigger tl = false := by
        rcases hAB : dot_trigger tl with _ | _
        · rfl
        · exact absurd (by simpa [dot_trigger, Bool.and_eq_true] using hAB) h11
      rcases g2 with _ | g2'
      · simp at hr2
      have hfold1 : nlw_fold (false, false, false, false) '?' =
          (false, false, false, false) := by decide
      have hfold2 : nlw_fold (false, false, false, false) DOT =
          (false, false, false, false) := by decide
      simp only [pos_scan, hfold1, hfold2, hdt]
      have hq1 : (decide (('?' : Char) = DOT)) = false := by decide
      have hq2 : (decide ((DOT : Char) = '?')) = false := by decide
      simp only [List.tail_cons, List.head?_cons, hdt, hq1, hq2, decide_True,
        eq_self_iff_true, Bool.false_and, Bool.and_false, Bool.true_and,
        Bool.and_true, Bool.false_or, Bool.or_false, Bool.or_self]
      have hsplit := read_call_ident_append tl
      have hparts := read_call_ident_parts tl
      have hlen2 : (read_call_ident tl).1.length + (read_call_ident tl).2.length =
          tl.length := by
        have := congrArg List.length hsplit
        simpa using this
      have htl1 : tl.length + 1 ≤ g1 := by simpa using hr1
      have htl2 : tl.length + 1 ≤ g2' + 1 := by simpa using hr2
      have htln : tl.length + 1 ≤ n := by simpa using hrn
      conv_rhs => rw [← hsplit]
      rw [pos_scan_chunk (read_call_ident tl).1 hparts (read_call_ident tl).2 g2'
        (by rw [hsplit]; omega)]
      exact ih (read_call_ident tl).2 (by omega) g1 (g2' - (read_call_ident tl).1.length)
        (by omega) (by omega) false false false false
    · -- '?' not followed by '.'
      have hesc : esc = false := by simpa using h1
      subst hesc
      subst h9
      have hfold : nlw_fold (sq, dq, tm, false) '?' = (sq, dq, tm, false) := by
        simp only [nlw_fold, Bool.false_eq_true, if_false]
        split_ifs
        rfl
      rw [hfold]
      have hT : ((decide (('?' : Char) = DOT) && dot_trigger rest) ||
          (decide (('?' : Char) = '?') && decide (rest.head? = some DOT) &&
            dot_trigger rest.tail)) = false := by
        simp [h10] <;> first
          | (constructor <;> (intro hx; exact absurd hx (by decide)))
          | (intro hx; exact absurd hx (by decide))
      rw [hT]
      simp only [Bool.and_false, Bool.false_or]
      exact ih rest hrn g1 g2 hr1 hr2 sq dq tm false
    · -- plain character
      have hesc : esc = false := by simpa using h1
      subst hesc
      have hfold : nlw_fold (sq, dq, tm, false) ch = (sq, dq, tm, false) := by
        simp only [nlw_fold, Bool.false_eq_true, if_false]
        split_ifs
        rfl
      rw [hfold]
      have hT : ((decide (ch = DOT) && dot_trigger rest) ||
          (decide (ch = '?') && decide (rest.head? = some DOT) &&
            dot_trigger rest.tail)) = false := by
        simp [h7, h9] <;> first
          | (constructor <;> (intro hx; exact absurd hx (by decide)))
          | (intro hx; exact absurd hx (by decide))
      rw [hT]
      simp only [Bool.and_false, Bool.false_or]
      exact ih rest hrn g1 g2 hr1 hr2 sq dq tm false

/-- C3: the list-wrapper heuristic, corrected. The source's `needs_list_wrapper`
is exactly the positional scan with the source's state transition `nlw_fold`, in
which a backslash escapes the following character globally (also outside quoted
regions), not only inside quotes as the claim words it; on escape-free inputs it
fires on `.`/`?.` followed by an allow-list method call and ignores method names
inside single-quoted, double-quoted, or template-literal regions. -/
theorem C3_needs_list_wrapper_amended :
    (∀ s : List Char, needs_list_wrapper s =
      pos_scan nlw_fold s.length (false, false, false, false) s) ∧
    needs_list_wrapper "arr.map(x)".data = true ∧
    needs_list_wrapper "arr?.map(x)".data = true ∧
    needs_list_wrapper "\x27a.map(x)\x27".data = false ∧
    needs_list_wrapper "\x22a.map(x)\x22".data = false ∧
    needs_list_wrapper "\x60a.map(x)\x60".data = false := by
  refine ⟨fun s => ?_, rfl, rfl, rfl, rfl, rfl⟩
  exact nlw_loop_eq_pos s.length s le_rfl s.length s.length le_rfl le_rfl
    false false false false

/-- C3 counterexample: on the input `\.map(x)` the source's scan treats the
backslash as an escape even though no quote is open, so the escaped dot does not
trigger the wrapper; the claim's scan (escapes only inside quoted regions)
triggers on it. On escape-free input the two agree. -/
theorem C3_escape_counterexample :
    needs_list_wrapper "\\.map(x)".data = false ∧
    claimed_list_wrapper "\\.map(x)".data = true ∧
    claimed_list_wrapper "arr.map(x)".data = needs_list_wrapper "arr.map(x)".data :=
  ⟨rfl, rfl, rfl⟩

theorem driver_finish_rendering (input : List Char) (cursor : Nat) (out : List Char)
    (errors : List (List Char)) (r : List Char) (errs : List (List Char))
    (h : driver_finish input cursor out errors = (Except.ok r, errs))
    (hr : Rendering input cursor out) :
    ∃ c2 o2, Rendering input c2 o2 ∧
      r = replaceAll ("$\x7b\x7d".data) [] (o2 ++ byteDrop c2 input) := by
  rw [driver_finish] at h
  simp only [] at h
  by_cases he : errors ≠ []
  · rw [if_pos he] at h
    simp at h
  · rw [if_neg he] at h
    refine ⟨cursor, out, hr, ?_⟩
    have h1 := congrArg Prod.fst h
    simp only [] at h1
    exact (Except.ok.inj h1).symm

theorem driver_loop_rendering (transform : JSXNode → Except JSXError (List Char))
    (input : List Char) :
    ∀ (fuel cursor i : Nat) (out : List Char) (errors : List (List Char))
      (r : List Char) (errs : List (List Char)),
      driver_loop transform input fuel cursor i out errors = (Except.ok r, errs) →
      Rendering input cursor out →
      ∃ c2 o2, Rendering input c2 o2 ∧
        r = replaceAll ("$\x7b\x7d".data) [] (o2 ++ byteDrop c2 input) := by
  intro fuel
  induction fuel with
  | zero =>
    intro cursor i out errors r errs h _
    rw [driver_loop] at h
    simp at h
  | succ fuel ih =>
    intro cursor i out errors r errs h hr
    rw [driver_loop] at h
    simp only [] at h
    by_cases hi : i < byteLen input
    · rw [if_pos hi] at h
      rcases hfind : byteFindChar LEFT_ANGLE (byteDrop i input) with _ | rel
      · rw [hfind] at h
        simp only [] at h
        exact driver_finish_rendering input cursor out errors r errs h hr
      · rw [hfind] at h
        simp only [] at h
        rcases hp : parse_next_with_span (2 * (byteDrop (i + rel) input).length + 1)
            (byteDrop (i + rel) input) 0 with ⟨o, st2⟩
        rw [hp] at h
        rcases o with _ | res
        · simp only [] at h
          exact driver_finish_rendering input cursor out errors r errs h hr
        · rcases res with e | v
          · simp only [] at h
            exact ih cursor (i + rel + 1) out
              (errors ++ [format_diagnostic input (i + rel + e.position) e.message])
              r errs h hr
          · rcases v with ⟨ast, startp, endp⟩
            simp only [] at h
            rcases ht : transform ast with e | template
            · rw [ht] at h
              simp at h
            · rw [ht] at h
              simp only [] at h
              exact ih (i + rel + endp) (i + rel + endp)
                (out ++ (if i + rel + startp > cursor then
                    byteTake (i + rel + startp - cursor) (byteDrop cursor input) else [])
                  ++ [backtick] ++ template ++ [backtick]) errors r errs h
                (Rendering.span cursor out (i + rel + startp) (i + rel + endp) template hr)
    · rw [if_neg hi] at h
      exact driver_finish_rendering input cursor out errors r errs h hr

theorem jsx_transformer_fuel_rendering (fuel : Nat) (source r : List Char)
    (h : jsx_transformer_fuel (fuel + 1) source = Except.ok r) :
    ∃ c2 o2, Rendering (remove_jsx_comments_full source) c2 o2 ∧
      r = replaceAll ("$\x7b\x7d".data) []
        (o2 ++ byteDrop c2 (remove_jsx_comments_full source)) := by
  rw [jsx_transformer_fuel] at h
  try simp only [] at h
  rcases hd : driver_loop
      (fun ast => transform_to_template (fun e => jsx_transformer_fuel fuel e) ast)
      (remove_jsx_comments_full source)
      (byteLen (remove_jsx_comments_full source) + 1) 0 0 [] [] with ⟨a, b⟩
  rw [hd] at h
  simp only [] at h
  subst h
  exact driver_loop_rendering _ _ _ 0 0 [] [] r b hd Rendering.nil

/-- C8 (corrected frame property): whenever the entry point succeeds, the output
is a rendering of the comment-stripped input — chunks of that input copied
verbatim between the transformed spans, each span replaced by its
backtick-wrapped template, followed by the untouched tail from the final cursor
— except that the final cleanup step additionally deletes every occurrence of
the empty interpolation `$\x7b\x7d` from the whole output, so text outside the
spans containing that sequence does not survive character for character. -/
theorem C8_frame_amended (source r : List Char)
    (h : jsx_transformer source = Except.ok r) :
    ∃ c2 o2, Rendering (remove_jsx_comments_full source) c2 o2 ∧
      r = replaceAll ("$\x7b\x7d".data) []
        (o2 ++ byteDrop c2 (remove_jsx_comments_full source)) := by
  rw [jsx_transformer] at h
  exact jsx_transformer_fuel_rendering source.length source r h

/-- C8 witness: the entry point succeeds on a concrete input and the conclusion
of the frame theorem holds for its output. -/
theorem C8_frame_amended_witness :
    ∃ c2 o2, Rendering (remove_jsx_comments_full "const el = <div>Hello</div>;".data) c2 o2 ∧
      "const el = \x60<div>Hello</div>\x60;".data =
        replaceAll ("$\x7b\x7d".data) []
          (o2 ++ byteDrop c2 (remove_jsx_comments_full "const el = <div>Hello</div>;".data)) :=
  C8_frame_amended "const el = <div>Hello</div>;".data
    "const el = \x60<div>Hello</div>\x60;".data rfl

/-- C8 counterexample to the literal claim: the input `$\x7b\x7d` contains no
`<` at all (so no JSX span and no comment to strip), yet the entry point
succeeds with empty output — the text outside all transformed spans does not
appear unchanged, because the final cleanup removed it. -/
theorem C8_cleanup_counterexample :
    jsx_transformer "$\x7b\x7d".data = Except.ok [] ∧
    remove_jsx_comments_full "$\x7b\x7d".data = "$\x7b\x7d".data ∧
    byteFindChar LEFT_ANGLE "$\x7b\x7d".data = none :=
  ⟨rfl, rfl, rfl⟩
